import Mathlib

/-! Transport and response-stream assembler of local_llm_gui.

A shallow embedding of the C sources `src/common/socket_utils.c`,
`src/server/llm_interface.c` and `src/server/server.c`.

Conventions.
* A C string is the list of the bytes that precede its terminator; a byte is a `Char`.
* A pointer into a string is the suffix that starts at that position, so the result of
  `strstr` is `Option (List Char)` and a pointer difference is a difference of lengths.
* The operating system is an explicit input: every call of `select`, `recv`, `send` takes
  its result from a list supplied by the environment.
* Memory allocation is assumed to succeed unless stated otherwise.
-/

namespace LocalLlm

/-! ## C string primitives -/

/-- The terminator byte of a C string. -/
def NUL : Char := Char.ofNat 0

/-- The bytes of a buffer read as a C string: everything before the first terminator. -/
def cstr (buf : List Char) : List Char :=
  buf.takeWhile (fun c => c != NUL)

/-- C `strstr`: the suffix of `hay` that starts at the first occurrence of `needle`,
or `none` (the null pointer) when there is no occurrence. -/
def strstr : List Char → List Char → Option (List Char)
  | [], needle => if needle.isEmpty then some [] else none
  | c :: cs, needle =>
    if needle.isPrefixOf (c :: cs) then some (c :: cs) else strstr cs needle

/-- C `isxdigit` in the "C" locale. -/
def isxdigit (c : Char) : Bool :=
  (48 ≤ c.toNat && c.toNat ≤ 57) || (97 ≤ c.toNat && c.toNat ≤ 102) ||
    (65 ≤ c.toNat && c.toNat ≤ 70)

/-! ## llm_interface.c: the line decoder (lines 335-451) -/

/-- The literal searched for in each JSON line, twelve bytes long. -/
def responseMarker : List Char :=
  ['"', 'r', 'e', 's', 'p', 'o', 'n', 's', 'e', '"', ':', '"']

/-- The string returned when no fragment was extracted. -/
def noValidResponse : List Char :=
  "No valid response received from Ollama. Please check if Ollama is running correctly.".toList

/-- Local variables of the decoding loop: the answer buffer, its length counter, its
capacity, and the flag set when a fragment was extracted. -/
structure DecodeState where
  full_response : List Char
  full_response_len : Nat
  full_response_size : Nat
  found_valid_response : Bool
deriving DecidableEq, Repr

/-- State before the loop: `malloc(8192)`, empty string. -/
def DecodeState.init : DecodeState :=
  { full_response := [], full_response_len := 0, full_response_size := 8192,
    found_valid_response := false }

/-- Lines 356-360: cut the current line at the first newline. The first component is the
current line, the second is `next_line` (`none` is the null pointer). -/
def splitLine (line : List Char) : List Char × Option (List Char) :=
  match strstr line ['\n'] with
  | some nl => (line.take (line.length - nl.length), some (nl.drop 1))
  | none => (line, none)

/-- Lines 369-379: the line starts with a hex digit and holds only hex digits and
carriage returns. -/
def isChunkSizeLine (line : List Char) : Bool :=
  match line with
  | [] => false
  | c :: _ => isxdigit c && line.all (fun p => isxdigit p || p == '\r')

/-- Lines 389-421: the body of `if (*line == '{')`, on the state. -/
def extractFragment (line : List Char) (st : DecodeState) : DecodeState :=
  match strstr line responseMarker with
  | none => st
  | some found =>
    let content_start := found.drop 12
    match strstr content_start ['"'] with
    | none => st
    | some content_end =>
      let content_length := content_start.length - content_end.length
      let size :=
        if st.full_response_len + content_length + 1 > st.full_response_size then
          st.full_response_len + content_length + 4096
        else st.full_response_size
      { full_response := st.full_response ++ content_start.take content_length,
        full_response_len := st.full_response_len + content_length,
        full_response_size := size,
        found_valid_response := true }

/-- One pass of the loop body on a non-empty current line (lines 362-428). -/
def processLine (line : List Char) (st : DecodeState) : DecodeState :=
  if line.isEmpty then st
  else if isChunkSizeLine line then st
  else if line.head? == some '{' then extractFragment line st
  else st

/-- The loop `while (line && *line)` of lines 354-432. Every pass consumes at least one
byte of the payload, so `fuel` above the payload length is never exhausted. -/
def decodeLoop : Nat → Option (List Char) → DecodeState → DecodeState
  | 0, _, st => st
  | _ + 1, none, st => st
  | _ + 1, some [], st => st
  | fuel + 1, some (c :: cs), st =>
    let sp := splitLine (c :: cs)
    decodeLoop fuel sp.2 (processLine sp.1 st)

/-- Lines 335-451: decode the accumulated payload and choose the returned string. -/
def decodePayload (response : List Char) : List Char :=
  let st := decodeLoop (response.length + 1) (some response) DecodeState.init
  if st.full_response_len == 0 || !st.found_valid_response then noValidResponse
  else st.full_response

/-- The effect of lines 394-414 on the state for a fragment `frag`: grow the capacity when
the fragment would not fit, append, count. -/
def appendFragment (frag : List Char) (st : DecodeState) : DecodeState :=
  { full_response := st.full_response ++ frag,
    full_response_len := st.full_response_len + frag.length,
    full_response_size :=
      if st.full_response_len + frag.length + 1 > st.full_response_size then
        st.full_response_len + frag.length + 4096
      else st.full_response_size,
    found_valid_response := true }

/-! ## llm_interface.c: the receive loop (lines 215-326) -/

/-- What `select` and `recv` do in one pass of the receive loop. -/
inductive RecvEvent where
  /-- The call `select` returns a negative value. -/
  | selectError
  /-- The call `select` returns 0: nothing readable within one second. -/
  | selectTimeout
  /-- The call `recv` returns a negative value with `EAGAIN` or `EWOULDBLOCK`. -/
  | recvAgain
  /-- The call `recv` returns a negative value with another error. -/
  | recvError
  /-- The call `recv` returns 0: the peer closed the connection. -/
  | closed
  /-- The call `recv` returns `bytes.length` and stores `bytes` (at most 4095 of them). -/
  | data (bytes : List Char)
deriving DecidableEq, Repr

/-- One pass of the loop as the environment sees it: the value of
`time(NULL) - start_time` at the loop test, and what the socket does if the body runs. -/
structure Tick where
  elapsed : Int
  event : RecvEvent
deriving DecidableEq, Repr

/-- Local variables of the receive loop. -/
structure RecvState where
  response : List Char
  total_size : Nat
  headers_done : Bool
deriving DecidableEq, Repr

/-- State before the loop: `response` is the empty string in a one-byte block. -/
def RecvState.init : RecvState :=
  { response := [], total_size := 1, headers_done := false }

/-- The header boundary `\r\n\r\n`. -/
def headerBoundary : List Char := ['\r', '\n', '\r', '\n']

/-- Lines 279-325: what a successful read of `bytes` does to the state. The buffer was
zeroed before the read, so as a C string it holds `cstr bytes`. -/
def absorbRead (st : RecvState) (bytes : List Char) : RecvState :=
  let buffer := cstr bytes
  if !st.headers_done then
    match strstr buffer headerBoundary with
    | some headers_end =>
      let body_start := headers_end.drop 4
      { response := st.response ++ body_start,
        total_size := st.total_size + body_start.length,
        headers_done := true }
    | none => st
  else
    { st with response := st.response ++ buffer,
              total_size := st.total_size + bytes.length }

/-- How the receive loop ends. -/
inductive LoopExit where
  /-- The function returns "Error: Failed to receive data from Ollama" from inside the loop. -/
  | failed
  /-- The loop is left (deadline, peer close or `select` error) with this payload. -/
  | finished (response : List Char)
deriving DecidableEq, Repr

/-- The loop `while (time(NULL) - start_time < 30)` of lines 220-326. The list holds one
entry per loop test; `none` means the list ran out while the loop was still running. -/
def receiveLoop : RecvState → List Tick → Option LoopExit
  | _, [] => none
  | st, t :: ts =>
    if t.elapsed < 30 then
      match t.event with
      | .selectError => some (.finished st.response)
      | .selectTimeout => receiveLoop st ts
      | .recvAgain => receiveLoop st ts
      | .recvError => some .failed
      | .closed => some (.finished st.response)
      | .data bytes =>
        if bytes.isEmpty then some (.finished st.response)
        else receiveLoop (absorbRead st bytes) ts
    else some (.finished st.response)

/-! ## llm_interface.c: llm_generate_response (lines 44-452) -/

/-- The environment of one upstream exchange. -/
structure Upstream where
  /-- Value returned by `socket`. -/
  socketRet : Int
  /-- Whether `gethostbyname` returns a non-null entry. -/
  resolves : Bool
  /-- Value returned by `connect`. -/
  connectRet : Int
  /-- Value returned by the single `send` of the request. -/
  sendRet : Int
  /-- The passes of the receive loop. -/
  ticks : List Tick
deriving Repr

/-- The function `llm_generate_response`. The prompt is `none` for a null pointer. The result
is `none` when the environment ran out before the function returned. -/
def llm_generate_response (is_initialized : Bool) (prompt : Option (List Char))
    (up : Upstream) : Option (List Char) :=
  if !is_initialized then some "Error: LLM not initialized".toList
  else
    match prompt with
    | none => some "Error: Empty prompt".toList
    | some p =>
      if p.length == 0 then some "Error: Empty prompt".toList
      else if up.socketRet < 0 then some "Error: Failed to connect to Ollama".toList
      else if !up.resolves then some "Error: Could not resolve Ollama hostname".toList
      else if up.connectRet < 0 then some "Error: Failed to connect to Ollama server".toList
      else if up.sendRet < 0 then some "Error: Failed to send request to Ollama".toList
      else
        match receiveLoop RecvState.init up.ticks with
        | none => none
        | some .failed => some "Error: Failed to receive data from Ollama".toList
        | some (.finished response) => some (decodePayload response)

/-! ## socket_utils.c -/

/-- Conversion to a 32-bit `int`, as in the cast `(int)total_sent`. -/
def toInt32 (n : Int) : Int := (n + 2 ^ 31) % 2 ^ 32 - 2 ^ 31

/-- What one call of `send` does: the value it returns (a positive value is capped by the
number of bytes requested) and whether `errno` is `EINTR` afterwards. -/
structure WriteResult where
  ret : Int
  eintr : Bool
deriving DecidableEq, Repr

/-- The result of `send_message`: the returned value and the bytes the calls of `send`
put on the wire, in order. -/
structure SendOutcome where
  ret : Int
  written : List Char
deriving DecidableEq, Repr

/-- The loop of `send_message` (lines 103-116) with `total_sent` and the bytes written so
far; `none` means the list of results ran out while the loop was still running. -/
def sendLoop (message : List Char) : List WriteResult → Nat → List Char → Option SendOutcome
  | [], total_sent, written =>
    if total_sent < message.length then none
    else some { ret := toInt32 total_sent, written := written }
  | r :: rest, total_sent, written =>
    if total_sent < message.length then
      let bytes_sent : Int := min r.ret ((message.length - total_sent : Nat) : Int)
      if bytes_sent ≤ 0 then
        if r.eintr then sendLoop message rest total_sent written
        else some { ret := -1, written := written }
      else
        sendLoop message rest ((total_sent + bytes_sent.toNat) % 2 ^ 64)
          (written ++ (message.drop total_sent).take bytes_sent.toNat)
    else some { ret := toInt32 total_sent, written := written }

/-- The function `send_message` (lines 93-122). -/
def send_message (message : List Char) (rs : List WriteResult) : Option SendOutcome :=
  sendLoop message rs 0 []

/-- What the socket does during one call of `receive_message`. -/
inductive SockOutcome where
  /-- The call `select` returns a negative value. -/
  | selectError
  /-- The call `select` returns 0: no data within the one-second window. -/
  | timeout
  /-- The call `recv` returns a negative value; `again` says `errno` is `EAGAIN` or
  `EWOULDBLOCK`. -/
  | recvError (again : Bool)
  /-- The call `recv` returns 0: orderly shutdown by the peer. -/
  | peerClosed
  /-- Data is queued on the socket; `recv` takes as much of it as the request allows. -/
  | data (queued : List Char)
deriving DecidableEq, Repr

/-- The observable result of `receive_message`: the returned value, the buffer contents,
the file-status flags the socket carries while `select` and `recv` run, and the flags it
carries at return. -/
structure ReceiveResult where
  ret : Int
  buffer : List Char
  pollFlags : Nat
  flags : Nat
deriving DecidableEq, Repr

/-- The bit `O_NONBLOCK` of the file-status flags (its value on Linux). -/
def O_NONBLOCK : Nat := 2048

/-- The function `receive_message` (lines 124-174). `flags` is what `fcntl(F_GETFL)` reads
at entry; line 129 sets `flags | O_NONBLOCK`, and every return path sets `flags` again.
The request to `recv` is for `buffer_size - 1` bytes; `buffer_size` is at least 1 at every
call site. -/
def receive_message (flags buffer_size : Nat) (o : SockOutcome) : ReceiveResult :=
  let zeroed := List.replicate buffer_size NUL
  let polling := flags ||| O_NONBLOCK
  match o with
  | .selectError => { ret := -1, buffer := zeroed, pollFlags := polling, flags := flags }
  | .timeout => { ret := 0, buffer := zeroed, pollFlags := polling, flags := flags }
  | .recvError again =>
    if again then { ret := 0, buffer := zeroed, pollFlags := polling, flags := flags }
    else { ret := -1, buffer := zeroed, pollFlags := polling, flags := flags }
  | .peerClosed => { ret := 0, buffer := zeroed, pollFlags := polling, flags := flags }
  | .data queued =>
    let got := queued.take (buffer_size - 1)
    if got.length == 0 then
      { ret := 0, buffer := zeroed, pollFlags := polling, flags := flags }
    else
      { ret := got.length,
        buffer := got ++ List.replicate (buffer_size - got.length) NUL,
        pollFlags := polling, flags := flags }

/-- The constant `BUFFER_SIZE` of socket_utils.h. -/
def BUFFER_SIZE : Nat := 4096

/-! ## server.c: handle_client (lines 163-255) -/

/-- The greeting sent on entry. -/
def welcome_msg : List Char :=
  "Connected to LLM Chat Server. Type your message and press Enter.".toList

/-- The reply sent when `llm_generate_response` returns a null pointer. -/
def fallbackReply : List Char := "Error: Failed to generate response".toList

/-- What the worker does to the outside world, in the order it does it. -/
inductive Effect where
  /-- A call of `send_message` on the client socket. -/
  | send (message : List Char)
  /-- A call of `receive_message` and the value it returned. -/
  | receive (ret : Int)
  /-- A call of `llm_generate_response` with its prompt and result (`none` is null). -/
  | generate (prompt : List Char) (result : Option (List Char))
  /-- The idle message printed in verbose mode. -/
  | logIdle (timeouts : Int)
  /-- The call `close(client_socket)`. -/
  | closeSocket
  /-- Under the mutex: `client->active = false; client_count--`. -/
  | releaseSlot
deriving DecidableEq, Repr

/-- Where the worker is: inside its loop waiting for the next message, or past `cleanup`. -/
inductive Phase where
  | awaitMessage
  | closed
deriving DecidableEq, Repr

/-- The worker: its local variables, its slot flag, its socket, and what it did so far. -/
structure Worker where
  phase : Phase
  consecutive_timeouts : Int
  active : Bool
  socketOpen : Bool
  sockFlags : Nat
  effects : List Effect
deriving DecidableEq, Repr

/-- The environment of one pass of the worker loop. -/
structure Round where
  /-- The global `running` at the loop test. -/
  running : Bool
  /-- What the client socket does during `receive_message`. -/
  sock : SockOutcome
  /-- The value returned by `llm_generate_response(buffer)`; `none` is a null pointer. -/
  response : Option (List Char)
  /-- The value returned by `send_message` for the reply. -/
  sendRet : Int
deriving DecidableEq, Repr

/-- The label `cleanup` (lines 244-254). -/
def cleanup (w : Worker) : Worker :=
  { w with phase := Phase.closed, socketOpen := false, active := false,
           effects := w.effects ++ [Effect.closeSocket, Effect.releaseSlot] }

/-- One loop test and, when it passes, one pass of the body (lines 178-242). -/
def serveRound (verbose : Bool) (w : Worker) (r : Round) : Worker :=
  if !(r.running && w.active) then cleanup w
  else
    let res := receive_message w.sockFlags BUFFER_SIZE r.sock
    let w1 := { w with sockFlags := res.flags, effects := w.effects ++ [Effect.receive res.ret] }
    if res.ret < 0 then cleanup w1
    else if res.ret == 0 then
      let n := toInt32 (w1.consecutive_timeouts + 1)
      let log : List Effect :=
        if n > 10 && (n % 100 == 0 && verbose) then [Effect.logIdle n] else []
      { w1 with consecutive_timeouts := n, effects := w1.effects ++ log }
    else
      let prompt := cstr res.buffer
      let w2 := { w1 with consecutive_timeouts := 0,
                          effects := w1.effects ++ [Effect.generate prompt r.response] }
      let reply := match r.response with
        | some response => response
        | none => fallbackReply
      let w3 := { w2 with effects := w2.effects ++ [Effect.send reply] }
      if r.sendRet < 0 then cleanup w3 else w3

/-- The worker loop over the rounds the environment supplies; it stops at `cleanup`. -/
def clientLoop (verbose : Bool) : Worker → List Round → Worker
  | w, [] => w
  | w, r :: rs =>
    let w1 := serveRound verbose w r
    if w1.phase == Phase.closed then w1 else clientLoop verbose w1 rs

/-- The function `handle_client`: `welcomeRet` is the value `send_message` returns for the
greeting, `flags` the file-status flags of the accepted socket. -/
def handle_client (verbose : Bool) (flags : Nat) (welcomeRet : Int) (rounds : List Round) :
    Worker :=
  let w0 : Worker :=
    { phase := Phase.awaitMessage, consecutive_timeouts := 0, active := true,
      socketOpen := true, sockFlags := flags, effects := [Effect.send welcome_msg] }
  if welcomeRet < 0 then cleanup w0 else clientLoop verbose w0 rounds

/-- Strict request/response pairing of a trace: every receive that returned a message is
followed at once by the generation for it and one send of its reply (the generated answer,
or the fallback when there is none), and no send stands anywhere else. -/
def wellPaired : List Effect → Bool
  | [] => true
  | .receive ret :: rest =>
    if ret > 0 then
      match rest with
      | .generate _ result :: .send m :: rest2 =>
        (m == (match result with | some a => a | none => fallbackReply)) && wellPaired rest2
      | _ => false
    else wellPaired rest
  | .send _ :: _ => false
  | .generate _ _ :: _ => false
  | .logIdle _ :: rest => wellPaired rest
  | .closeSocket :: rest => wellPaired rest
  | .releaseSlot :: rest => wellPaired rest

/-! ## llm_interface.c: building and sending the request (lines 93-183) -/

/-- The configuration `llm_config_t`. The field `type` holds the value of the enumeration
`llm_type_t` (0 llama, 1 mistral, 2 gptj, 3 custom). Floating point is not modelled: the
field `temperature` holds the text that `printf` produces for the configured temperature
under the conversion `%.2f`. -/
structure llm_config_t where
  type : Int
  model_path : List Char
  context_size : Int
  temperature : List Char
  max_tokens : Int
  verbose : Bool
deriving DecidableEq, Repr

/-- The value `LLM_TYPE_LLAMA`. -/
def LLM_TYPE_LLAMA : Int := 0

/-- The value `LLM_TYPE_MISTRAL`. -/
def LLM_TYPE_MISTRAL : Int := 1

/-- The value `LLM_TYPE_GPT_J`. -/
def LLM_TYPE_GPT_J : Int := 2

/-- The value `LLM_TYPE_CUSTOM`. -/
def LLM_TYPE_CUSTOM : Int := 3

/-- The loop of lines 101-108: `src` is what is left of the prompt, `dst` what has been
written to `escaped_prompt` so far. -/
def escapeLoop : List Char → List Char → List Char
  | [], dst => dst
  | c :: src, dst =>
    let dst1 := if c == '"' || c == '\\' then dst ++ ['\\'] else dst
    escapeLoop src (dst1 ++ [c])

/-- The string `escaped_prompt` of lines 95-109. -/
def escaped_prompt (prompt : List Char) : List Char := escapeLoop prompt []

/-- The `switch` of lines 111-129. -/
def model_name (current_config : llm_config_t) : List Char :=
  if current_config.type = LLM_TYPE_LLAMA then "llama3".toList
  else if current_config.type = LLM_TYPE_MISTRAL then "mistral".toList
  else if current_config.type = LLM_TYPE_GPT_J then "phi3".toList
  else if current_config.model_path.length > 0 then current_config.model_path
  else "llama3".toList

/-- The conversion `%zu`. -/
def fmtSize (n : Nat) : List Char := Nat.toDigits 10 n

/-- The conversion `%d`. -/
def fmtInt (i : Int) : List Char :=
  if i < 0 then '-' :: Nat.toDigits 10 i.natAbs else Nat.toDigits 10 i.toNat

/-- The string `json_request` of lines 136-145. -/
def json_request (current_config : llm_config_t) (prompt : List Char) : List Char :=
  "\x7b\"model\":\"".toList ++ model_name current_config ++
  "\",\"prompt\":\"".toList ++ escaped_prompt prompt ++
  "\",\"stream\":true,\"temperature\":".toList ++ current_config.temperature ++
  ",\"max_tokens\":".toList ++ fmtInt current_config.max_tokens ++
  ",\"options\":\x7b\"num_ctx\":".toList ++ fmtInt current_config.context_size ++
  "\x7d\x7d".toList

/-- The header block that `snprintf` is asked to write at lines 151-159, up to and
including the empty line; `body` is `json_request`. -/
def requestHeaders (body : List Char) : List Char :=
  "POST /api/generate HTTP/1.1\r\n".toList ++
  "Host: localhost:11434\r\n".toList ++
  "Content-Type: application/json\r\n".toList ++
  "Accept: application/json\r\n".toList ++
  "Content-Length: ".toList ++ fmtSize body.length ++ "\r\n".toList ++
  "Connection: close\r\n\r\n".toList

/-- The string `http_request` of lines 150-159: `snprintf` into a block of 8192 bytes keeps
at most 8191 bytes of the formatted text. -/
def http_request (current_config : llm_config_t) (prompt : List Char) : List Char :=
  (requestHeaders (json_request current_config prompt)
    ++ json_request current_config prompt).take 8191

/-- Lines 175-183: the one call of `send` for the request, whose result is `r` (a positive
value is capped by the length requested). The result is `none` when the function returns
its send error, and otherwise the bytes that reached the socket. -/
def sendRequest (request : List Char) (r : WriteResult) : Option (List Char) :=
  let sent : Int := min r.ret (request.length : Int)
  if sent < 0 then none else some (request.take sent.toNat)

/-! ## server.c: the connection table (lines 81-116 and 244-254) -/

/-- One entry of the table, `client_connection_t`, without the thread handle. -/
structure client_connection_t where
  client_socket : Int
  active : Bool
deriving DecidableEq, Repr

/-- The globals `clients` (an array of `max_connections` entries) and `client_count`. -/
structure ServerTable where
  clients : List client_connection_t
  client_count : Int
deriving DecidableEq, Repr

/-- The table after `server_initialize`: `calloc` gives `max_connections` zeroed entries. -/
def ServerTable.init (max_connections : Nat) : ServerTable :=
  { clients := List.replicate max_connections { client_socket := 0, active := false },
    client_count := 0 }

/-- The scan of lines 83-89 from index `i` on: the first index whose entry is not active,
or `none` for `slot == -1`. -/
def findFreeSlot : List client_connection_t → Nat → Option Nat
  | [], _ => none
  | c :: rest, i => if !c.active then some i else findFreeSlot rest (i + 1)

/-- Lines 99-100: `clients[slot].client_socket = client_socket; clients[slot].active = true`. -/
def assignSlot : List client_connection_t → Nat → Int → List client_connection_t
  | [], _, _ => []
  | _ :: rest, 0, sock => { client_socket := sock, active := true } :: rest
  | c :: rest, slot + 1, sock => c :: assignSlot rest slot sock

/-- The assignment `clients[slot].active = false` of lines 105 and 249. -/
def clearSlot : List client_connection_t → Nat → List client_connection_t
  | [], _ => []
  | c :: rest, 0 => { c with active := false } :: rest
  | c :: rest, slot + 1 => c :: clearSlot rest slot

/-- The active flag of the entry at `slot`; false outside the table. -/
def activeAt (clients : List client_connection_t) (slot : Nat) : Bool :=
  match clients[slot]? with
  | some c => c.active
  | none => false

/-- The number of entries whose active flag is set. -/
def countActive : List client_connection_t → Nat
  | [] => 0
  | c :: rest => (if c.active then 1 else 0) + countActive rest

/-- What happened to a newly accepted connection. -/
inductive AcceptOutcome where
  /-- A worker thread was created for the slot. -/
  | spawned (slot : Nat)
  /-- The call `pthread_create` failed for the slot. -/
  | spawnFailed (slot : Nat)
  /-- No slot was free. -/
  | rejected
deriving DecidableEq, Repr

/-- The table after the accept step, what happened, and whether `close` was called on the
new connection. -/
structure AcceptResult where
  table : ServerTable
  outcome : AcceptOutcome
  closedNew : Bool
deriving DecidableEq, Repr

/-- Lines 81-116 of `server_start`, run under `clients_mutex` for a connection that was
accepted with the descriptor `client_socket`; `spawnOk` says whether `pthread_create`
succeeds. -/
def acceptConnection (t : ServerTable) (client_socket : Int) (spawnOk : Bool) :
    AcceptResult :=
  match findFreeSlot t.clients 0 with
  | none => { table := t, outcome := AcceptOutcome.rejected, closedNew := true }
  | some slot =>
    let clients1 := assignSlot t.clients slot client_socket
    let count1 := toInt32 (t.client_count + 1)
    if spawnOk then
      { table := { clients := clients1, client_count := count1 },
        outcome := AcceptOutcome.spawned slot, closedNew := false }
    else
      { table := { clients := clearSlot clients1 slot, client_count := toInt32 (count1 - 1) },
        outcome := AcceptOutcome.spawnFailed slot, closedNew := true }

/-- Lines 248-251 of `handle_client`, run under `clients_mutex` by the worker of `slot`:
`client->active = false; client_count--`. -/
def workerExit (t : ServerTable) (slot : Nat) : ServerTable :=
  { clients := clearSlot t.clients slot, client_count := toInt32 (t.client_count - 1) }

/-- The states of the table reachable from the initial one by accept steps (with a free
slot and a worker spawned, with a failed spawn, or with the table full) and by exits of
workers whose slot is active. -/
inductive Reachable (max_connections : Nat) : ServerTable → Prop where
  | start : Reachable max_connections (ServerTable.init max_connections)
  | accept (t : ServerTable) (client_socket : Int) (spawnOk : Bool) :
      Reachable max_connections t →
      Reachable max_connections (acceptConnection t client_socket spawnOk).table
  | exit (t : ServerTable) (slot : Nat) :
      Reachable max_connections t → activeAt t.clients slot = true →
      Reachable max_connections (workerExit t slot)

/-! ## socket_utils.c: the system calls of receive_message -/

/-- A system call made by `receive_message` on its socket. -/
inductive SysCall where
  /-- The call `fcntl(socket, F_GETFL, 0)`. -/
  | getfl
  /-- The call `fcntl(socket, F_SETFL, flags)`. -/
  | setfl (flags : Nat)
  /-- The call `select` with the one-second timeout. -/
  | select
  /-- The call `recv` for at most `len` bytes. -/
  | recv (len : Nat)
deriving DecidableEq, Repr

/-- The system calls of `receive_message` (lines 127-156) in the order they are made, for
a socket whose flags at entry are `flags`: the flags are read, `O_NONBLOCK` is added,
`select` runs; when it fails or times out the flags are written back and the function
returns; otherwise `recv` runs and the flags are written back before its result is
looked at. -/
def receive_message_calls (flags buffer_size : Nat) (o : SockOutcome) : List SysCall :=
  [SysCall.getfl, SysCall.setfl (flags ||| O_NONBLOCK), SysCall.select] ++
    (match o with
      | .selectError => [SysCall.setfl flags]
      | .timeout => [SysCall.setfl flags]
      | _ => [SysCall.recv (buffer_size - 1), SysCall.setfl flags])

/-- The file-status flags of a socket after a sequence of calls: `F_SETFL` replaces them,
the other calls leave them alone. -/
def flagsAfter (entry : Nat) (calls : List SysCall) : Nat :=
  calls.foldl (fun fl call => match call with
    | .setfl v => v
    | _ => fl) entry

/-- The flags the socket carries when each `select` or `recv` of the sequence runs. -/
def flagsWhilePolling : Nat → List SysCall → List Nat
  | _, [] => []
  | _, .setfl v :: rest => flagsWhilePolling v rest
  | fl, .getfl :: rest => flagsWhilePolling fl rest
  | fl, .select :: rest => fl :: flagsWhilePolling fl rest
  | fl, .recv _ :: rest => fl :: flagsWhilePolling fl rest

/-! ## client.c and cli_client.c: receive_messages -/

/-- The environment of one pass of the client's receive loop. -/
structure ClientRound where
  /-- The global `running` at the loop test. -/
  running : Bool
  /-- The global `server_socket` copied to `local_socket`. -/
  local_socket : Int
  /-- What the socket does during `receive_message`. -/
  sock : SockOutcome
  /-- The global `running` when the error branch tests it. -/
  runningAtCheck : Bool
deriving DecidableEq, Repr

/-- How the client's receive loop stands. -/
inductive ClientPhase where
  /-- Still inside the loop. -/
  | receiving
  /-- Left through the report "Connection to server lost after multiple errors". -/
  | connectionLost
  /-- Left because `running` was false or the socket was invalid. -/
  | stopped
deriving DecidableEq, Repr

/-- The loop `while (running)` of `receive_messages` (client.c lines 130-176, cli_client.c
lines 136-178) with its counter `consecutive_errors`; the two files differ only in how a
message is shown. The result is the phase and the counter when the list of passes ends or
the loop is left. -/
def receive_messages : Int → List ClientRound → ClientPhase × Int
  | consecutive_errors, [] => (ClientPhase.receiving, consecutive_errors)
  | consecutive_errors, r :: rest =>
    if !r.running then (ClientPhase.stopped, consecutive_errors)
    else if r.local_socket < 0 then (ClientPhase.stopped, consecutive_errors)
    else
      let bytes_received := (receive_message 0 BUFFER_SIZE r.sock).ret
      if bytes_received < 0 then
        let errors1 := toInt32 (consecutive_errors + 1)
        if errors1 ≥ 5 && r.runningAtCheck then (ClientPhase.connectionLost, errors1)
        else receive_messages errors1 rest
      else if bytes_received == 0 then
        let errors1 := if consecutive_errors > 0 then consecutive_errors - 1
          else consecutive_errors
        receive_messages errors1 rest
      else receive_messages 0 rest

/-- The values `receive_message` returned in the passes of the client's loop. -/
def clientResults (rounds : List ClientRound) : List Int :=
  rounds.map (fun r => (receive_message 0 BUFFER_SIZE r.sock).ret)

/-! ## llm_interface.c: llm_initialize and llm_cleanup -/

/-- The file-scope state of llm_interface.c: `is_initialized` and `current_config`. -/
structure LlmState where
  is_initialized : Bool
  current_config : llm_config_t
deriving DecidableEq, Repr

/-- The function `llm_initialize` (lines 22-42). `config` is `none` for a null pointer;
`accessible` says that `access(config->model_path, F_OK)` does not return -1. The result
is the returned value and the state afterwards. -/
def llm_initialize (s : LlmState) (config : Option llm_config_t) (accessible : Bool) :
    Bool × LlmState :=
  match config with
  | none => (false, s)
  | some cfg =>
    let s1 : LlmState := { s with current_config := cfg }
    if cfg.type ≠ LLM_TYPE_CUSTOM && !accessible then (false, s1)
    else (true, { s1 with is_initialized := true })

/-- The function `llm_cleanup` (lines 454-459). -/
def llm_cleanup (s : LlmState) : LlmState :=
  if s.is_initialized then { s with is_initialized := false } else s

/-- The function `llm_is_initialized` (lines 476-478). -/
def llm_is_initialized (s : LlmState) : Bool := s.is_initialized


/-! ## Streams used to state the properties -/

/-- The upstream line carrying the fragment `frag` and the completion flag `done`. -/
def jsonLine (frag : List Char) (done : Bool) : List Char :=
  "\x7b\"response\":\"".toList ++ frag ++ "\",\"done\":".toList ++
    (if done then "true".toList else "false".toList) ++ "\x7d".toList

/-- The payload made of the lines `jsonLine f d`, in order, separated by newlines; `term`
says whether the last line is newline-terminated as well. -/
def ndjson : List (List Char × Bool) → Bool → List Char
  | [], _ => []
  | [fd], term => jsonLine fd.1 fd.2 ++ (if term then ['\n'] else [])
  | fd :: fd2 :: rest, term => jsonLine fd.1 fd.2 ++ '\n' :: ndjson (fd2 :: rest) term

/-- The reads a list of loop passes delivers, in order. -/
def readsOf (ticks : List Tick) : List (List Char) :=
  ticks.filterMap (fun t => match t.event with
    | .data bytes => some bytes
    | _ => none)

/-- A pass that keeps the loop going: it happens before the deadline and is a `select`
timeout, a no-data-yet result or a read of at least one byte. -/
def Tick.carriesOn (t : Tick) : Bool :=
  decide (t.elapsed < 30) &&
    (match t.event with
      | .selectTimeout => true
      | .recvAgain => true
      | .data bytes => !bytes.isEmpty
      | _ => false)

/-- A pass at which the loop is left with the payload gathered so far: the deadline has
passed, the peer closed, or `select` failed. -/
def Tick.endsLoop (t : Tick) : Bool :=
  decide (30 ≤ t.elapsed) ||
    (match t.event with
      | .closed => true
      | .selectError => true
      | _ => false)

/-- No line of the payload begins with an opening brace: the payload does not start with
one and none follows a newline. -/
def noBraceLine (payload : List Char) : Prop :=
  payload.head? ≠ some '{' ∧ ¬ ['\n', '{'] <:+: payload

/-- The idle messages of verbose mode, as opposed to what the worker does on the socket
and the table. -/
def Effect.isLog : Effect → Bool
  | .logIdle _ => true
  | _ => false

/-- The trace without the idle messages. -/
def actions (es : List Effect) : List Effect := es.filter (fun e => !e.isLog)

/-- The worker is inside its loop with its slot marked and its socket open. -/
def Worker.serving (w : Worker) : Prop :=
  w.phase = Phase.awaitMessage ∧ w.active = true ∧ w.socketOpen = true

/-- A call of `send` that wrote nothing and left `errno` at `EINTR`: it is retried. -/
def WriteResult.interrupted (r : WriteResult) : Bool := decide (r.ret ≤ 0) && r.eintr

/-- A call of `send` that wrote nothing for any other reason. -/
def WriteResult.fails (r : WriteResult) : Bool := decide (r.ret ≤ 0) && !r.eintr

/-- A call of `send` that accepted at least one byte. -/
def WriteResult.accepts (r : WriteResult) : Bool := decide (0 < r.ret)

/-- The language-model part of the configuration set by `config_set_defaults` (config.c
lines 134-138): custom type, empty path, temperature 0.7, 512 tokens, context 2048. -/
def default_llm_config : llm_config_t :=
  { type := LLM_TYPE_CUSTOM, model_path := [], context_size := 2048,
    temperature := "0.70".toList, max_tokens := 512, verbose := false }

/-- The prompt with one backslash put immediately before each double quote and each
backslash, and nothing else changed. -/
def escapeSpec (prompt : List Char) : List Char :=
  prompt.flatMap (fun c => if c = '"' ∨ c = '\\' then ['\\', c] else [c])

/-- Remove the backslash of every escape pair (a backslash and the byte after it). -/
def unescape : List Char → List Char
  | [] => []
  | [c] => [c]
  | c :: d :: rest =>
    if c = '\\' then d :: unescape rest else c :: unescape (d :: rest)

/-- Every double quote of the text is the second byte of an escape pair. -/
def quotesEscaped : List Char → Bool
  | [] => true
  | [c] => c != '"'
  | c :: d :: rest =>
    if c = '\\' then quotesEscaped rest else c != '"' && quotesEscaped (d :: rest)

/-- The bytes allowed after a backslash inside a JSON string literal (RFC 8259). -/
def isJsonEscape (d : Char) : Bool :=
  d == '"' || d == '\\' || d == '/' || d == 'b' || d == 'f' || d == 'n' || d == 'r' ||
    d == 't' || d == 'u'

/-- The text between the quotes of a JSON string literal is well formed (RFC 8259): no
double quote or backslash outside an escape, no control character (below 0x20), every
backslash followed by an escape letter, and `\u` followed by four hexadecimal digits. -/
def validJsonString : List Char → Bool
  | [] => true
  | [c] => c != '\\' && c != '"' && decide (32 ≤ c.toNat)
  | c :: d :: rest =>
    if c = '\\' then
      isJsonEscape d &&
        (d != 'u' || ((rest.take 4).length == 4 && (rest.take 4).all isxdigit)) &&
        validJsonString rest
    else c != '"' && decide (32 ≤ c.toNat) && validJsonString (d :: rest)

/-- The fragment a payload line contributes, if any: the line begins with an opening brace
and holds the marker `"response":"` with a double quote somewhere after it; the fragment
is what lies between the first marker and the first double quote after it. -/
def lineFragment (line : List Char) : Option (List Char) :=
  if line.head? = some '{' then
    match strstr line responseMarker with
    | none => none
    | some found =>
      match strstr (found.drop 12) ['"'] with
      | none => none
      | some content_end =>
        some ((found.drop 12).take ((found.drop 12).length - content_end.length))
  else none

/-- The fragments extracted from a payload, line by line, in order. -/
def fragmentsOf (payload : List Char) : List (List Char) :=
  (payload.splitOn '\n').filterMap lineFragment

/-- The count matches the flags and the table keeps its size. -/
def tableOk (max_connections : Nat) (t : ServerTable) : Prop :=
  t.client_count = (countActive t.clients : Int) ∧ t.clients.length = max_connections

/-- One step on the table: an accept step for a new connection, or the exit of the worker
of a slot. -/
inductive TableStep where
  | accept (client_socket : Int) (spawnOk : Bool)
  | exit (slot : Nat)
deriving DecidableEq, Repr

/-- Run steps on the table; the second component lists what happened to the accepted
connections, in order. -/
def runTable : ServerTable → List TableStep → ServerTable × List AcceptOutcome
  | t, [] => (t, [])
  | t, .accept client_socket spawnOk :: rest =>
    let r := acceptConnection t client_socket spawnOk
    let out := runTable r.table rest
    (out.1, r.outcome :: out.2)
  | t, .exit slot :: rest => runTable (workerExit t slot) rest

/-- The local variables of the receive loop after the reads of `ticks` have been taken
in, starting from `st`. -/
def stateAfter (st : RecvState) (ticks : List Tick) : RecvState :=
  (readsOf ticks).foldl absorbRead st

/-- A line made only of hexadecimal digits, optionally followed by one carriage return. -/
def isHexLine (line : List Char) : Bool :=
  let digits := if line.getLast? = some '\r' then line.dropLast else line
  !digits.isEmpty && digits.all isxdigit

/-- A line the decoder is meant to pass over: blank, or hexadecimal digits only. -/
def skippable (line : List Char) : Prop := line = [] ∨ isHexLine line = true

/-- The state of the decoding loop after the first `j` lines of the payload. -/
def stateAfterLines (payload : List Char) (j : Nat) : DecodeState :=
  ((payload.splitOn '\n').take j).foldl (fun s ln => processLine ln s) DecodeState.init

/-- Four errors, one timeout, two errors: the receive results of a failing run of the
client's loop. -/
def errorsAroundTimeout : List ClientRound :=
  [SockOutcome.selectError, SockOutcome.selectError, SockOutcome.selectError,
    SockOutcome.selectError, SockOutcome.timeout, SockOutcome.selectError,
    SockOutcome.selectError].map (fun o => ⟨true, 3, o, true⟩)

/-! # Theorems -/

/-! ## Facts about the string primitives -/

theorem strstr_at_start {needle hay : List Char} (h : needle <+: hay) :
    strstr hay needle = some hay := by
  cases hay with
  | nil =>
    have : needle = [] := List.prefix_nil.mp h
    subst this
    simp [strstr]
  | cons c cs =>
    have hp : needle.isPrefixOf (c :: cs) = true := List.isPrefixOf_iff_prefix.mpr h
    simp [strstr, hp]

theorem strstr_skip {needle : List Char} {c : Char} {cs : List Char}
    (h : ¬ needle <+: c :: cs) : strstr (c :: cs) needle = strstr cs needle := by
  have hp : needle.isPrefixOf (c :: cs) = false := by
    cases hb : needle.isPrefixOf (c :: cs) with
    | false => rfl
    | true => exact absurd (List.isPrefixOf_iff_prefix.mp hb) h
  simp [strstr, hp]

theorem strstr_single (c : Char) (pre rest : List Char) (h : c ∉ pre) :
    strstr (pre ++ c :: rest) [c] = some (c :: rest) := by
  induction pre with
  | nil => exact strstr_at_start (by simp)
  | cons p ps ih =>
    have hne : c ≠ p := fun e => h (by simp [e])
    have hnp : ¬ [c] <+: p :: (ps ++ c :: rest) := by
      intro hp
      exact hne (List.cons_prefix_cons.mp hp).1
    rw [List.cons_append, strstr_skip hnp]
    exact ih (fun hm => h (List.mem_cons_of_mem _ hm))

theorem strstr_single_none (c : Char) (l : List Char) (h : c ∉ l) :
    strstr l [c] = none := by
  induction l with
  | nil => simp [strstr]
  | cons p ps ih =>
    have hne : c ≠ p := fun e => h (by simp [e])
    have hnp : ¬ [c] <+: p :: ps := fun hp => hne (List.cons_prefix_cons.mp hp).1
    rw [strstr_skip hnp]
    exact ih (fun hm => h (List.mem_cons_of_mem _ hm))

/-! ## Facts about the line decoder -/

theorem splitLine_newline (cur rest : List Char) (h : '\n' ∉ cur) :
    splitLine (cur ++ '\n' :: rest) = (cur, some rest) := by
  simp [splitLine, strstr_single '\n' cur rest h]

theorem splitLine_last (cur : List Char) (h : '\n' ∉ cur) :
    splitLine cur = (cur, none) := by
  simp [splitLine, strstr_single_none '\n' cur h]

theorem decodeLoop_none (fuel : Nat) (st : DecodeState) : decodeLoop fuel none st = st := by
  cases fuel <;> rfl

theorem decodeLoop_nil (fuel : Nat) (st : DecodeState) :
    decodeLoop fuel (some []) st = st := by
  cases fuel <;> rfl

theorem decodeLoop_line (fuel : Nat) (cur rest : List Char) (hcur : cur ≠ [])
    (h : '\n' ∉ cur) (st : DecodeState) :
    decodeLoop (fuel + 1) (some (cur ++ '\n' :: rest)) st
      = decodeLoop fuel (some rest) (processLine cur st) := by
  obtain ⟨c, cs, rfl⟩ := List.exists_cons_of_ne_nil hcur
  have hs := splitLine_newline (c :: cs) rest h
  rw [List.cons_append] at hs ⊢
  simp only [decodeLoop, hs]

theorem decodeLoop_last (fuel : Nat) (cur : List Char) (h : '\n' ∉ cur) (st : DecodeState) :
    decodeLoop (fuel + 1) (some cur) st = processLine cur st := by
  cases cur with
  | nil => simp [decodeLoop, processLine]
  | cons c cs =>
    have hs := splitLine_last (c :: cs) h
    simp only [decodeLoop, hs, decodeLoop_none]

theorem strstr_append_first (needle pre rest : List Char)
    (hfirst : ∀ s t, pre ++ needle ++ rest = s ++ needle ++ t → pre.length ≤ s.length) :
    strstr (pre ++ needle ++ rest) needle = some (needle ++ rest) := by
  induction pre with
  | nil => exact strstr_at_start (by simp)
  | cons p ps ih =>
    have hnp : ¬ needle <+: p :: (ps ++ needle ++ rest) := by
      rintro ⟨t, ht⟩
      have := hfirst [] t (by simpa using ht.symm)
      simp at this
    have hrest : ∀ s t, ps ++ needle ++ rest = s ++ needle ++ t → ps.length ≤ s.length := by
      intro s t hst
      have := hfirst (p :: s) t (by simp [hst])
      simpa using this
    simp only [List.cons_append] at hnp ⊢
    rw [strstr_skip hnp]
    exact ih hrest

theorem extractFragment_at_marker (frag rest : List Char) (hq : '"' ∉ frag)
    (st : DecodeState) :
    extractFragment ('{' :: (responseMarker ++ (frag ++ '"' :: rest))) st
      = appendFragment frag st := by
  have hnp : ¬ responseMarker <+: '{' :: (responseMarker ++ (frag ++ '"' :: rest)) := by
    intro hp
    have := (List.cons_prefix_cons.mp hp).1
    exact absurd this (by decide)
  have h1 : strstr ('{' :: (responseMarker ++ (frag ++ '"' :: rest))) responseMarker
      = some (responseMarker ++ (frag ++ '"' :: rest)) := by
    rw [strstr_skip hnp]
    exact strstr_at_start (List.prefix_append _ _)
  have h2 : (responseMarker ++ (frag ++ '"' :: rest)).drop 12 = frag ++ '"' :: rest := by
    simp [responseMarker]
  have h3 := strstr_single '"' frag rest hq
  simp only [extractFragment, h1, h2, h3, appendFragment]
  simp

/-! ## The stream of one JSON object per line -/

theorem jsonLine_eq (frag : List Char) (done : Bool) :
    jsonLine frag done = '{' :: (responseMarker ++ (frag ++ '"' ::
      (",\"done\":".toList ++ (if done then "true".toList else "false".toList) ++ ['}']))) := by
  cases done <;> simp [jsonLine, responseMarker]

theorem jsonLine_ne_nil (frag : List Char) (done : Bool) : jsonLine frag done ≠ [] := by
  rw [jsonLine_eq]; simp

theorem newline_not_mem_jsonLine (frag : List Char) (done : Bool) (h : '\n' ∉ frag) :
    '\n' ∉ jsonLine frag done := by
  rw [jsonLine_eq]
  cases done <;> simp [responseMarker, h]

theorem processLine_jsonLine (frag : List Char) (done : Bool) (hq : '"' ∉ frag)
    (st : DecodeState) : processLine (jsonLine frag done) st = appendFragment frag st := by
  rw [jsonLine_eq]
  have hx : isxdigit '{' = false := by decide
  simp only [processLine, isChunkSizeLine, hx]
  simp only [List.isEmpty_cons, Bool.false_and, List.head?_cons]
  simp only [beq_self_eq_true, if_true, Bool.false_eq_true, if_false]
  exact extractFragment_at_marker frag _ hq st

theorem decodeLoop_ndjson (frs : List (List Char × Bool)) (term : Bool)
    (hclean : ∀ fd ∈ frs, '"' ∉ fd.1 ∧ '\n' ∉ fd.1) (fuel : Nat) (hf : frs.length ≤ fuel)
    (st : DecodeState) :
    decodeLoop fuel (some (ndjson frs term)) st
      = frs.foldl (fun s fd => appendFragment fd.1 s) st := by
  induction frs generalizing fuel st with
  | nil => simp [ndjson, decodeLoop_nil]
  | cons fd rest ih =>
    obtain ⟨k, rfl⟩ : ∃ k, fuel = k + 1 := ⟨fuel - 1, by simp at hf; omega⟩
    have hfd := hclean fd (by simp)
    have hnl := newline_not_mem_jsonLine fd.1 fd.2 hfd.2
    cases rest with
    | nil =>
      cases term with
      | true =>
        simp only [ndjson, if_true]
        rw [decodeLoop_line k _ [] (jsonLine_ne_nil _ _) hnl, decodeLoop_nil,
          processLine_jsonLine _ _ hfd.1]
        rfl
      | false =>
        simp only [ndjson, Bool.false_eq_true, if_false, List.append_nil]
        rw [decodeLoop_last k _ hnl, processLine_jsonLine _ _ hfd.1]
        rfl
    | cons fd2 rest2 =>
      simp only [ndjson]
      rw [decodeLoop_line k _ _ (jsonLine_ne_nil _ _) hnl, processLine_jsonLine _ _ hfd.1]
      rw [ih (fun x hx => hclean x (List.mem_cons_of_mem _ hx)) k (by simpa using hf)]
      rfl

theorem foldl_appendFragment (frs : List (List Char × Bool)) (st : DecodeState) :
    (frs.foldl (fun s fd => appendFragment fd.1 s) st).full_response
        = st.full_response ++ (frs.map Prod.fst).flatten ∧
    (frs.foldl (fun s fd => appendFragment fd.1 s) st).full_response_len
        = st.full_response_len + ((frs.map Prod.fst).flatten).length ∧
    (frs.foldl (fun s fd => appendFragment fd.1 s) st).found_valid_response
        = (st.found_valid_response || !frs.isEmpty) := by
  induction frs generalizing st with
  | nil => simp
  | cons fd rest ih =>
    obtain ⟨h1, h2, h3⟩ := ih (appendFragment fd.1 st)
    simp only [List.foldl_cons, h1, h2, h3]
    simp [appendFragment, Nat.add_assoc]

theorem length_le_ndjson (frs : List (List Char × Bool)) (term : Bool) :
    frs.length ≤ (ndjson frs term).length := by
  induction frs with
  | nil => simp
  | cons fd rest ih =>
    have h1 : 1 ≤ (jsonLine fd.1 fd.2).length :=
      List.length_pos.mpr (jsonLine_ne_nil _ _)
    cases rest with
    | nil => simp [ndjson]; omega
    | cons fd2 rest2 => simp [ndjson] at ih ⊢; omega

/-- C1. Fragments free of double quotes and newlines, not all empty, sent one per line
as `\x7b"response":"f","done":b\x7d` (the last line newline-terminated or not), are decoded by
the line decoder to exactly their concatenation in arrival order. -/
theorem decodePayload_ndjson (frs : List (List Char × Bool)) (term : Bool)
    (hclean : ∀ fd ∈ frs, '"' ∉ fd.1 ∧ '\n' ∉ fd.1)
    (hsome : ∃ fd ∈ frs, fd.1 ≠ []) :
    decodePayload (ndjson frs term) = (frs.map Prod.fst).flatten := by
  obtain ⟨h1, h2, h3⟩ := foldl_appendFragment frs DecodeState.init
  have hfuel : frs.length ≤ (ndjson frs term).length + 1 :=
    Nat.le_succ_of_le (length_le_ndjson frs term)
  have hne : frs.isEmpty = false := by
    obtain ⟨fd, hfd, _⟩ := hsome
    cases frs with
    | nil => simp at hfd
    | cons _ _ => rfl
  have hlen : ((frs.map Prod.fst).flatten).length ≠ 0 := by
    obtain ⟨fd, hfd, hn⟩ := hsome
    intro h0
    have hj : (frs.map Prod.fst).flatten = [] := List.length_eq_zero.mp h0
    rw [List.flatten_eq_nil_iff] at hj
    exact hn (hj fd.1 (List.mem_map_of_mem _ hfd))
  have hcond : ((frs.foldl (fun s fd => appendFragment fd.1 s)
        DecodeState.init).full_response_len == 0
      || !(frs.foldl (fun s fd => appendFragment fd.1 s)
        DecodeState.init).found_valid_response) = false := by
    rw [h2, h3, hne]
    have : (DecodeState.init.full_response_len
        + ((frs.map Prod.fst).flatten).length == 0) = false := by
      rw [beq_eq_false_iff_ne]
      simp only [DecodeState.init]
      omega
    rw [this]
    rfl
  simp only [decodePayload, decodeLoop_ndjson frs term hclean _ hfuel]
  rw [hcond, h1]
  simp [DecodeState.init]

/-- C1, the instance of the specification: the fragments Hel, lo, ! give Hello!. -/
theorem decodePayload_ndjson_witness :
    (∀ fd ∈ [("Hel".toList, false), ("lo".toList, false), ("!".toList, true)],
        '"' ∉ fd.1 ∧ '\n' ∉ fd.1) ∧
    (∃ fd ∈ [("Hel".toList, false), ("lo".toList, false), ("!".toList, true)], fd.1 ≠ []) ∧
    ndjson [("Hel".toList, false), ("lo".toList, false), ("!".toList, true)] true
      = ("\x7b\"response\":\"Hel\",\"done\":false\x7d\n" ++
          "\x7b\"response\":\"lo\",\"done\":false\x7d\n" ++
          "\x7b\"response\":\"!\",\"done\":true\x7d\n").toList ∧
    decodePayload (ndjson [("Hel".toList, false), ("lo".toList, false), ("!".toList, true)] true)
      = "Hello!".toList :=
  ⟨by decide, by decide, by decide,
    decodePayload_ndjson _ true (by decide) (by decide)⟩


/-! ## Facts about the receive loop -/

theorem cstr_of_nul_free (l : List Char) (h : NUL ∉ l) : cstr l = l := by
  unfold cstr
  rw [List.takeWhile_eq_self_iff]
  intro c hc
  have : c ≠ NUL := fun e => h (e ▸ hc)
  simpa using this

theorem strstr_none (needle hay : List Char) (h : ¬ needle <:+: hay) :
    strstr hay needle = none := by
  induction hay with
  | nil =>
    have hne : needle ≠ [] := by
      rintro rfl
      exact h List.nil_infix
    cases needle with
    | nil => exact absurd rfl hne
    | cons a as => simp [strstr]
  | cons c cs ih =>
    have hnp : ¬ needle <+: c :: cs := fun hp => h hp.isInfix
    rw [strstr_skip hnp]
    exact ih (fun hi => h (hi.trans (List.suffix_cons c cs).isInfix))

theorem absorbRead_skip (st : RecvState) (b : List Char) (hd : st.headers_done = false)
    (hn : NUL ∉ b) (hb : ¬ headerBoundary <:+: b) : absorbRead st b = st := by
  simp [absorbRead, hd, cstr_of_nul_free b hn, strstr_none headerBoundary b hb]

theorem absorbRead_split (st : RecvState) (hdr body : List Char)
    (hd : st.headers_done = false) (hn : NUL ∉ hdr ++ headerBoundary ++ body)
    (hfirst : ∀ s t, hdr ++ headerBoundary ++ body = s ++ headerBoundary ++ t →
      hdr.length ≤ s.length) :
    absorbRead st (hdr ++ headerBoundary ++ body)
      = { response := st.response ++ body, total_size := st.total_size + body.length,
          headers_done := true } := by
  simp only [absorbRead, hd, cstr_of_nul_free _ hn,
    strstr_append_first headerBoundary hdr body hfirst]
  simp [headerBoundary]

theorem absorbRead_body (st : RecvState) (b : List Char) (hd : st.headers_done = true)
    (hn : NUL ∉ b) :
    absorbRead st b
      = { response := st.response ++ b, total_size := st.total_size + b.length,
          headers_done := true } := by
  simp [absorbRead, hd, cstr_of_nul_free b hn]

theorem carriesOn_cases (t : Tick) (h : t.carriesOn = true) :
    t.elapsed < 30 ∧ (t.event = .selectTimeout ∨ t.event = .recvAgain ∨
      ∃ bytes, bytes ≠ [] ∧ t.event = .data bytes) := by
  obtain ⟨e, ev⟩ := t
  cases ev <;> simp_all [Tick.carriesOn]

theorem receiveLoop_ends (st : RecvState) (last : Tick) (more : List Tick)
    (h : last.endsLoop = true) :
    receiveLoop st (last :: more) = some (.finished st.response) := by
  obtain ⟨e, ev⟩ := last
  unfold receiveLoop
  by_cases hlt : e < 30
  · cases ev <;> simp_all [Tick.endsLoop] <;> omega
  · simp [hlt]

theorem readsOf_cons_quiet (t : Tick) (ts : List Tick)
    (h : t.event = .selectTimeout ∨ t.event = .recvAgain) :
    readsOf (t :: ts) = readsOf ts := by
  rcases h with h | h <;> simp [readsOf, h]

theorem readsOf_cons_data (t : Tick) (ts : List Tick) (b : List Char)
    (h : t.event = .data b) : readsOf (t :: ts) = b :: readsOf ts := by
  simp [readsOf, h]

theorem receiveLoop_cons_quiet (st : RecvState) (t : Tick) (ts : List Tick)
    (hlt : t.elapsed < 30) (h : t.event = .selectTimeout ∨ t.event = .recvAgain) :
    receiveLoop st (t :: ts) = receiveLoop st ts := by
  rcases h with h | h <;> simp [receiveLoop, hlt, h]

theorem receiveLoop_cons_data (st : RecvState) (t : Tick) (ts : List Tick) (b : List Char)
    (hlt : t.elapsed < 30) (hb : b ≠ []) (h : t.event = .data b) :
    receiveLoop st (t :: ts) = receiveLoop (absorbRead st b) ts := by
  simp [receiveLoop, hlt, h, hb]

/-- After the boundary every read is appended whole. -/
theorem receiveLoop_body (ticks rest : List Tick) (st : RecvState)
    (hd : st.headers_done = true) (hlive : ∀ t ∈ ticks, t.carriesOn = true)
    (hnul : ∀ r ∈ readsOf ticks, NUL ∉ r) :
    ∃ n, receiveLoop st (ticks ++ rest)
      = receiveLoop { response := st.response ++ (readsOf ticks).flatten, total_size := n,
                      headers_done := true } rest := by
  induction ticks generalizing st with
  | nil =>
    refine ⟨st.total_size, ?_⟩
    cases st
    simp_all [readsOf]
  | cons t ts ih =>
    obtain ⟨hlt, hev⟩ := carriesOn_cases t (hlive t (by simp))
    have hlive2 : ∀ x ∈ ts, x.carriesOn = true := fun x hx => hlive x (List.mem_cons_of_mem _ hx)
    rcases hev with hq | hq | ⟨b, hb, hdata⟩
    · have hr := readsOf_cons_quiet t ts (Or.inl hq)
      rw [List.cons_append, receiveLoop_cons_quiet st t _ hlt (Or.inl hq), hr]
      exact ih st hd hlive2 (by rw [← hr]; exact hnul)
    · have hr := readsOf_cons_quiet t ts (Or.inr hq)
      rw [List.cons_append, receiveLoop_cons_quiet st t _ hlt (Or.inr hq), hr]
      exact ih st hd hlive2 (by rw [← hr]; exact hnul)
    · have hr := readsOf_cons_data t ts b hdata
      rw [hr] at hnul
      rw [List.cons_append, receiveLoop_cons_data st t _ b hlt hb hdata, hr,
        absorbRead_body st b hd (hnul b (by simp))]
      obtain ⟨n, hn⟩ := ih ⟨st.response ++ b, st.total_size + b.length, true⟩ rfl hlive2
        (fun r hr2 => hnul r (List.mem_cons_of_mem _ hr2))
      exact ⟨n, by simpa using hn⟩

/-- Before the boundary nothing is kept; the read that holds the first boundary
contributes what follows it; later reads are appended whole. -/
theorem receiveLoop_headers (ticks rest : List Tick) (st : RecvState)
    (hd : st.headers_done = false) (hlive : ∀ t ∈ ticks, t.carriesOn = true)
    (hnul : ∀ r ∈ readsOf ticks, NUL ∉ r) :
    ((∀ r ∈ readsOf ticks, ¬ headerBoundary <:+: r) →
        receiveLoop st (ticks ++ rest) = receiveLoop st rest) ∧
    (∀ pre hdr body post, readsOf ticks = pre ++ (hdr ++ headerBoundary ++ body) :: post →
        (∀ r ∈ pre, ¬ headerBoundary <:+: r) →
        (∀ s t, hdr ++ headerBoundary ++ body = s ++ headerBoundary ++ t →
          hdr.length ≤ s.length) →
        ∃ n, receiveLoop st (ticks ++ rest)
          = receiveLoop { response := st.response ++ (body ++ post.flatten), total_size := n,
                          headers_done := true } rest) := by
  induction ticks with
  | nil =>
    constructor
    · intro _; rfl
    · intro pre hdr body post h
      simp [readsOf] at h
  | cons t ts ih =>
    obtain ⟨hlt, hev⟩ := carriesOn_cases t (hlive t (by simp))
    have hlive2 : ∀ x ∈ ts, x.carriesOn = true := fun x hx => hlive x (List.mem_cons_of_mem _ hx)
    rcases hev with hq | hq | ⟨b, hb, hdata⟩
    · have hr := readsOf_cons_quiet t ts (Or.inl hq)
      rw [List.cons_append, receiveLoop_cons_quiet st t _ hlt (Or.inl hq), hr]
      exact ih hlive2 (by rw [← hr]; exact hnul)
    · have hr := readsOf_cons_quiet t ts (Or.inr hq)
      rw [List.cons_append, receiveLoop_cons_quiet st t _ hlt (Or.inr hq), hr]
      exact ih hlive2 (by rw [← hr]; exact hnul)
    · have hr := readsOf_cons_data t ts b hdata
      rw [hr] at hnul
      have hnul2 : ∀ r ∈ readsOf ts, NUL ∉ r :=
        fun r hr2 => hnul r (List.mem_cons_of_mem _ hr2)
      obtain ⟨ih1, ih2⟩ := ih hlive2 hnul2
      rw [List.cons_append, receiveLoop_cons_data st t _ b hlt hb hdata, hr]
      constructor
      · intro hno
        rw [absorbRead_skip st b hd (hnul b (by simp)) (hno b (by simp))]
        exact ih1 (fun r hr2 => hno r (List.mem_cons_of_mem _ hr2))
      · intro pre hdr body post hsplit hpre hfirst
        cases pre with
        | nil =>
          simp only [List.nil_append, List.cons.injEq] at hsplit
          obtain ⟨hb1, hpost⟩ := hsplit
          subst hb1
          rw [absorbRead_split st hdr body hd (hnul _ (by simp)) hfirst]
          obtain ⟨n, hn⟩ := receiveLoop_body ts rest
            ⟨st.response ++ body, st.total_size + body.length, true⟩ rfl hlive2 hnul2
          exact ⟨n, by rw [hn, hpost]; simp⟩
        | cons p pre2 =>
          simp only [List.cons_append, List.cons.injEq] at hsplit
          obtain ⟨hb1, hrest⟩ := hsplit
          subst hb1
          rw [absorbRead_skip st b hd (hnul b (by simp)) (hpre b (by simp))]
          exact ih2 pre2 hdr body post hrest
            (fun r hr2 => hpre r (List.mem_cons_of_mem _ hr2)) hfirst

theorem first_boundary_of_absent (hdr body : List Char)
    (h : ¬ headerBoundary <:+: hdr ++ ['\r', '\n', '\r']) :
    ∀ s t, hdr ++ headerBoundary ++ body = s ++ headerBoundary ++ t →
      hdr.length ≤ s.length := by
  intro s t e
  by_contra hlt
  apply h
  have p1 : s ++ headerBoundary <+: hdr ++ headerBoundary ++ body := ⟨t, e.symm⟩
  have p2 : hdr ++ ['\r', '\n', '\r'] <+: hdr ++ headerBoundary ++ body :=
    ⟨'\n' :: body, by simp [headerBoundary]⟩
  have p3 := List.prefix_of_prefix_length_le p1 p2 (by simp [headerBoundary]; omega)
  obtain ⟨u, hu⟩ := p3
  exact ⟨s, u, hu⟩

/-- C2. For NUL-free reads delivered before the loop is left (select timeouts and
no-data-yet results may come in between), the payload handed to the line decoder is empty
when no read holds the boundary `\r\n\r\n`, and otherwise is what follows the first boundary
in the first read that holds one, followed by every later read in full. -/
theorem receiveLoop_payload (ticks : List Tick) (last : Tick) (more : List Tick)
    (hlive : ∀ t ∈ ticks, t.carriesOn = true) (hnul : ∀ r ∈ readsOf ticks, NUL ∉ r)
    (hlast : last.endsLoop = true) :
    ((∀ r ∈ readsOf ticks, ¬ headerBoundary <:+: r) →
        receiveLoop RecvState.init (ticks ++ last :: more) = some (.finished [])) ∧
    (∀ pre hdr body post, readsOf ticks = pre ++ (hdr ++ headerBoundary ++ body) :: post →
        (∀ r ∈ pre, ¬ headerBoundary <:+: r) →
        (∀ s t, hdr ++ headerBoundary ++ body = s ++ headerBoundary ++ t →
          hdr.length ≤ s.length) →
        receiveLoop RecvState.init (ticks ++ last :: more)
          = some (.finished (body ++ post.flatten))) := by
  obtain ⟨h1, h2⟩ := receiveLoop_headers ticks (last :: more) RecvState.init rfl hlive hnul
  constructor
  · intro hno
    rw [h1 hno, receiveLoop_ends _ _ _ hlast]
    rfl
  · intro pre hdr body post hsplit hpre hfirst
    obtain ⟨n, hn⟩ := h2 pre hdr body post hsplit hpre hfirst
    rw [hn, receiveLoop_ends _ _ _ hlast]
    simp [RecvState.init]

/-- C2, header and body split across two reads: read 1 ends in the middle of a header,
read 2 holds the rest of the headers, the boundary and the first body line; only the body
line is handed on, and the answer is the fragment alone. -/
theorem receiveLoop_payload_witness :
    receiveLoop RecvState.init
        ([⟨0, .data "HTTP/1.1 200 OK\r\nContent-Ty".toList⟩, ⟨1, .selectTimeout⟩,
          ⟨1, .data "pe: application/x-ndjson\r\n\r\n\x7b\"response\":\"Hi\",\"done\":true\x7d\n".toList⟩]
          ++ [⟨2, .closed⟩])
      = some (.finished "\x7b\"response\":\"Hi\",\"done\":true\x7d\n".toList) ∧
    llm_generate_response true (some "hello".toList)
        ⟨3, true, 0, 200,
          [⟨0, .data "HTTP/1.1 200 OK\r\nContent-Ty".toList⟩, ⟨1, .selectTimeout⟩,
           ⟨1, .data "pe: application/x-ndjson\r\n\r\n\x7b\"response\":\"Hi\",\"done\":true\x7d\n".toList⟩,
           ⟨2, .closed⟩]⟩
      = some "Hi".toList := by
  refine ⟨?_, by decide⟩
  have h := (receiveLoop_payload
    [⟨0, .data "HTTP/1.1 200 OK\r\nContent-Ty".toList⟩, ⟨1, .selectTimeout⟩,
      ⟨1, .data "pe: application/x-ndjson\r\n\r\n\x7b\"response\":\"Hi\",\"done\":true\x7d\n".toList⟩]
    ⟨2, .closed⟩ [] (by decide) (by decide) (by decide)).2
    ["HTTP/1.1 200 OK\r\nContent-Ty".toList] "pe: application/x-ndjson".toList
    "\x7b\"response\":\"Hi\",\"done\":true\x7d\n".toList [] (by decide) (by decide)
    (first_boundary_of_absent _ _ (by decide))
  simpa using h

/-! ## Facts about the returned string -/

theorem extractFragment_cases (line : List Char) (st : DecodeState) :
    extractFragment line st = st ∨
      ∃ frag, extractFragment line st = appendFragment frag st := by
  unfold extractFragment
  cases h1 : strstr line responseMarker with
  | none => exact Or.inl rfl
  | some found =>
    cases h2 : strstr (found.drop 12) ['"'] with
    | none => exact Or.inl (by simp [h2])
    | some content_end =>
      refine Or.inr ⟨(found.drop 12).take ((found.drop 12).length - content_end.length), ?_⟩
      have hl : ((found.drop 12).take ((found.drop 12).length - content_end.length)).length
          = (found.drop 12).length - content_end.length := by
        rw [List.length_take]
        omega
      simp only [h2, appendFragment, hl]

theorem appendFragment_len (frag : List Char) (st : DecodeState)
    (h : st.full_response.length = st.full_response_len) :
    (appendFragment frag st).full_response.length
      = (appendFragment frag st).full_response_len := by
  simp [appendFragment, h]

theorem extractFragment_len (line : List Char) (st : DecodeState)
    (h : st.full_response.length = st.full_response_len) :
    (extractFragment line st).full_response.length
      = (extractFragment line st).full_response_len := by
  rcases extractFragment_cases line st with h1 | ⟨frag, h1⟩
  · rw [h1]; exact h
  · rw [h1]; exact appendFragment_len frag st h

theorem processLine_len (line : List Char) (st : DecodeState)
    (h : st.full_response.length = st.full_response_len) :
    (processLine line st).full_response.length = (processLine line st).full_response_len := by
  unfold processLine
  split
  · exact h
  · split
    · exact h
    · split
      · exact extractFragment_len line st h
      · exact h

theorem decodeLoop_len (fuel : Nat) (line : Option (List Char)) (st : DecodeState)
    (h : st.full_response.length = st.full_response_len) :
    (decodeLoop fuel line st).full_response.length
      = (decodeLoop fuel line st).full_response_len := by
  induction fuel generalizing line st with
  | zero => simpa [decodeLoop] using h
  | succ k ih =>
    match line with
    | none => simpa [decodeLoop] using h
    | some [] => simpa [decodeLoop] using h
    | some (c :: cs) =>
      simp only [decodeLoop]
      exact ih _ _ (processLine_len _ st h)

theorem decodePayload_ne_nil (response : List Char) : decodePayload response ≠ [] := by
  have hlen := decodeLoop_len (response.length + 1) (some response) DecodeState.init rfl
  unfold decodePayload
  simp only
  split
  · decide
  · rename_i hc
    intro hnil
    rw [hnil] at hlen
    simp [← hlen] at hc

theorem receiveLoop_returns (ticks : List Tick) (st : RecvState)
    (h : ∃ t ∈ ticks, 30 ≤ t.elapsed) : ∃ e, receiveLoop st ticks = some e := by
  induction ticks generalizing st with
  | nil => simp at h
  | cons t ts ih =>
    unfold receiveLoop
    by_cases hlt : t.elapsed < 30
    · have h2 : ∃ x ∈ ts, 30 ≤ x.elapsed := by
        obtain ⟨x, hx, hx30⟩ := h
        rcases List.mem_cons.mp hx with rfl | hx
        · omega
        · exact ⟨x, hx, hx30⟩
      simp only [hlt, if_true]
      split
      · exact ⟨_, rfl⟩
      · exact ih st h2
      · exact ih st h2
      · exact ⟨_, rfl⟩
      · exact ⟨_, rfl⟩
      · split
        · exact ⟨_, rfl⟩
        · exact ih _ h2
    · simp [hlt]

/-- C3. Whatever the prompt, the initialisation state and the behaviour of the upstream,
every string `llm_generate_response` returns is non-empty; and it does return once the
environment reaches the deadline (a loop test with 30 seconds or more elapsed). -/
theorem llm_generate_response_nonempty (is_initialized : Bool)
    (prompt : Option (List Char)) (up : Upstream) :
    (∀ r, llm_generate_response is_initialized prompt up = some r → r ≠ []) ∧
    ((∃ t ∈ up.ticks, 30 ≤ t.elapsed) →
      ∃ r, llm_generate_response is_initialized prompt up = some r ∧ r ≠ []) := by
  have key : ∀ r, llm_generate_response is_initialized prompt up = some r → r ≠ [] := by
    intro r hr
    unfold llm_generate_response at hr
    split at hr
    · cases hr; decide
    · split at hr
      · cases hr; decide
      · split at hr
        · cases hr; decide
        · split at hr
          · cases hr; decide
          · split at hr
            · cases hr; decide
            · split at hr
              · cases hr; decide
              · split at hr
                · cases hr; decide
                · split at hr
                  · cases hr
                  · cases hr; decide
                  · cases hr; exact decodePayload_ne_nil _
  refine ⟨key, ?_⟩
  intro hdl
  obtain ⟨e, he⟩ := receiveLoop_returns up.ticks RecvState.init hdl
  have hsome : ∃ r, llm_generate_response is_initialized prompt up = some r := by
    unfold llm_generate_response
    split
    · exact ⟨_, rfl⟩
    · split
      · exact ⟨_, rfl⟩
      · split
        · exact ⟨_, rfl⟩
        · split
          · exact ⟨_, rfl⟩
          · split
            · exact ⟨_, rfl⟩
            · split
              · exact ⟨_, rfl⟩
              · split
                · exact ⟨_, rfl⟩
                · rw [he]
                  cases e <;> exact ⟨_, rfl⟩
  obtain ⟨r, hr⟩ := hsome
  exact ⟨r, hr, key r hr⟩

/-- C3 at a concrete exchange: the upstream sends headers and an empty body and then
stays silent until the deadline; the result is the diagnostic string, not the empty one. -/
theorem llm_generate_response_nonempty_witness :
    (∃ t ∈ [(⟨0, .data "HTTP/1.1 200 OK\r\n\r\n".toList⟩ : Tick), ⟨30, .selectTimeout⟩],
        30 ≤ t.elapsed) ∧
    llm_generate_response true (some "hello".toList)
        ⟨3, true, 0, 200, [⟨0, .data "HTTP/1.1 200 OK\r\n\r\n".toList⟩,
          ⟨30, .selectTimeout⟩]⟩ = some noValidResponse ∧
    ∃ r, llm_generate_response true (some "hello".toList)
        ⟨3, true, 0, 200, [⟨0, .data "HTTP/1.1 200 OK\r\n\r\n".toList⟩,
          ⟨30, .selectTimeout⟩]⟩ = some r ∧ r ≠ [] :=
  ⟨by decide, by decide,
    (llm_generate_response_nonempty true (some "hello".toList)
      ⟨3, true, 0, 200, [⟨0, .data "HTTP/1.1 200 OK\r\n\r\n".toList⟩,
        ⟨30, .selectTimeout⟩]⟩).2 (by decide)⟩

/-! ## Payloads without a JSON line -/

theorem exists_first (c : Char) (l : List Char) (h : c ∈ l) :
    ∃ s t, l = s ++ c :: t ∧ c ∉ s := by
  induction l with
  | nil => simp at h
  | cons a as ih =>
    by_cases hca : c = a
    · exact ⟨[], as, by simp [hca], by simp⟩
    · have hmem : c ∈ as := by
        rcases List.mem_cons.mp h with h1 | h1
        · exact absurd h1 hca
        · exact h1
      obtain ⟨s, t, hst, hs⟩ := ih hmem
      refine ⟨a :: s, t, by simp [hst], ?_⟩
      intro hm
      rcases List.mem_cons.mp hm with h1 | h1
      · exact hca h1
      · exact hs h1

theorem decodeLoop_fuel (n : Nat) (l : List Char) (st : DecodeState) (f1 f2 : Nat)
    (hn : l.length ≤ n) (h1 : l.length < f1) (h2 : l.length < f2) :
    decodeLoop f1 (some l) st = decodeLoop f2 (some l) st := by
  induction n generalizing l st f1 f2 with
  | zero =>
    have : l = [] := List.length_eq_zero.mp (Nat.le_zero.mp hn)
    subst this
    rw [decodeLoop_nil, decodeLoop_nil]
  | succ m ih =>
    cases l with
    | nil => rw [decodeLoop_nil, decodeLoop_nil]
    | cons c cs =>
      obtain ⟨k1, rfl⟩ : ∃ k, f1 = k + 1 := ⟨f1 - 1, by omega⟩
      obtain ⟨k2, rfl⟩ : ∃ k, f2 = k + 1 := ⟨f2 - 1, by omega⟩
      by_cases hnl : '\n' ∈ c :: cs
      · obtain ⟨s, t, hst, hs⟩ := exists_first '\n' (c :: cs) hnl
        have hsplit : splitLine (c :: cs) = (s, some t) := by
          rw [hst]; exact splitLine_newline s t hs
        have hlen : t.length < (c :: cs).length := by
          rw [hst]; simp; omega
        simp only [decodeLoop, hsplit]
        exact ih t _ k1 k2 (by omega) (by omega) (by omega)
      · have hsplit : splitLine (c :: cs) = (c :: cs, none) := splitLine_last _ hnl
        simp only [decodeLoop, hsplit, decodeLoop_none]

/-- More fuel than `decodePayload` supplies changes nothing. -/
theorem decodeLoop_enough (l : List Char) (st : DecodeState) (extra : Nat) :
    decodeLoop (l.length + 1 + extra) (some l) st = decodeLoop (l.length + 1) (some l) st :=
  decodeLoop_fuel l.length l st _ _ (Nat.le_refl _) (by omega) (by omega)

theorem processLine_no_brace (line : List Char) (st : DecodeState)
    (h : line.head? ≠ some '{') : processLine line st = st := by
  unfold processLine
  split
  · rfl
  · split
    · rfl
    · split
      · rename_i hb
        exact absurd (by simpa using hb) h
      · rfl

theorem decodeLoop_no_brace (fuel : Nat) (l : List Char) (st : DecodeState)
    (h : noBraceLine l) : decodeLoop fuel (some l) st = st := by
  induction fuel generalizing l st with
  | zero => rfl
  | succ k ih =>
    cases l with
    | nil => rfl
    | cons c cs =>
      by_cases hnl : '\n' ∈ c :: cs
      · obtain ⟨s, t, hst, hs⟩ := exists_first '\n' (c :: cs) hnl
        have hsplit : splitLine (c :: cs) = (s, some t) := by
          rw [hst]; exact splitLine_newline s t hs
        have hhead : s.head? ≠ some '{' := by
          cases s with
          | nil => simp
          | cons a as =>
            have := h.1
            rw [hst] at this
            simpa using this
        have ht : noBraceLine t := by
          constructor
          · intro hb
            apply h.2
            cases t with
            | nil => simp at hb
            | cons b bs =>
              simp only [List.head?_cons, Option.some.injEq] at hb
              subst hb
              exact ⟨s, bs, by rw [hst]; simp⟩
          · intro hi
            apply h.2
            rw [hst]
            exact hi.trans ((List.suffix_cons '\n' t).isInfix.trans
              (List.suffix_append s _).isInfix)
        simp only [decodeLoop, hsplit]
        rw [processLine_no_brace s st hhead]
        exact ih t st ht
      · have hsplit : splitLine (c :: cs) = (c :: cs, none) := splitLine_last _ hnl
        simp only [decodeLoop, hsplit]
        rw [decodeLoop_none, processLine_no_brace _ st h.1]

theorem decodePayload_no_brace (payload : List Char) (h : noBraceLine payload) :
    decodePayload payload = noValidResponse := by
  simp [decodePayload, decodeLoop_no_brace _ payload _ h, DecodeState.init]

/-- C4. When the exchange is set up, the reads are NUL-free and hold a complete header
block (some read holds the boundary), the loop is left by deadline, close or `select`
error, and no line of the body begins with an opening brace, the function returns exactly
the fixed diagnostic string, which is not empty. -/
theorem no_json_line_gives_diagnostic (prompt : List Char) (up : Upstream)
    (ticks : List Tick) (last : Tick) (more : List Tick)
    (pre : List (List Char)) (hdr body : List Char) (post : List (List Char))
    (hprompt : prompt ≠ []) (hsock : 0 ≤ up.socketRet) (hres : up.resolves = true)
    (hconn : 0 ≤ up.connectRet) (hsend : 0 ≤ up.sendRet)
    (hticks : up.ticks = ticks ++ last :: more)
    (hlive : ∀ t ∈ ticks, t.carriesOn = true) (hnul : ∀ r ∈ readsOf ticks, NUL ∉ r)
    (hlast : last.endsLoop = true)
    (hreads : readsOf ticks = pre ++ (hdr ++ headerBoundary ++ body) :: post)
    (hpre : ∀ r ∈ pre, ¬ headerBoundary <:+: r)
    (hfirst : ∀ s t, hdr ++ headerBoundary ++ body = s ++ headerBoundary ++ t →
      hdr.length ≤ s.length)
    (hbody : noBraceLine (body ++ post.flatten)) :
    llm_generate_response true (some prompt) up
      = some "No valid response received from Ollama. Please check if Ollama is running correctly.".toList
    ∧ llm_generate_response true (some prompt) up ≠ some [] := by
  obtain ⟨_, h2⟩ := receiveLoop_headers ticks (last :: more) RecvState.init rfl hlive hnul
  obtain ⟨n, hn⟩ := h2 pre hdr body post hreads hpre hfirst
  have hloop : receiveLoop RecvState.init up.ticks
      = some (.finished (body ++ post.flatten)) := by
    rw [hticks, hn, receiveLoop_ends _ _ _ hlast]
    simp [RecvState.init]
  have hlen : (prompt.length == 0) = false := by
    cases prompt with
    | nil => exact absurd rfl hprompt
    | cons a as => rfl
  have hval : llm_generate_response true (some prompt) up = some noValidResponse := by
    unfold llm_generate_response
    simp only [Bool.not_true, Bool.false_eq_true, if_false, hlen, hres,
      Int.not_lt.mpr hsock, Int.not_lt.mpr hconn, Int.not_lt.mpr hsend, hloop,
      decodePayload_no_brace _ hbody]
  constructor
  · rw [hval]; rfl
  · rw [hval]; decide

/-- C4 at a concrete reply: headers, then a body of chunk markers and plain text only. -/
theorem no_json_line_gives_diagnostic_witness :
    llm_generate_response true (some "hello".toList)
        ⟨3, true, 0, 200,
          [⟨0, .data "HTTP/1.1 200 OK\r\n\r\n5\r\nerror\r\n".toList⟩, ⟨1, .data "0\r\n\r\n".toList⟩,
           ⟨1, .closed⟩]⟩
      = some "No valid response received from Ollama. Please check if Ollama is running correctly.".toList
    ∧ llm_generate_response true (some "hello".toList)
        ⟨3, true, 0, 200,
          [⟨0, .data "HTTP/1.1 200 OK\r\n\r\n5\r\nerror\r\n".toList⟩, ⟨1, .data "0\r\n\r\n".toList⟩,
           ⟨1, .closed⟩]⟩ ≠ some [] :=
  no_json_line_gives_diagnostic "hello".toList
    ⟨3, true, 0, 200,
      [⟨0, .data "HTTP/1.1 200 OK\r\n\r\n5\r\nerror\r\n".toList⟩, ⟨1, .data "0\r\n\r\n".toList⟩,
       ⟨1, .closed⟩]⟩
    [⟨0, .data "HTTP/1.1 200 OK\r\n\r\n5\r\nerror\r\n".toList⟩, ⟨1, .data "0\r\n\r\n".toList⟩]
    ⟨1, .closed⟩ [] [] "HTTP/1.1 200 OK".toList "5\r\nerror\r\n".toList ["0\r\n\r\n".toList]
    (by decide) (by decide) rfl (by decide) (by decide) rfl (by decide) (by decide)
    (by decide) rfl (by decide) (first_boundary_of_absent _ _ (by decide))
    ⟨by decide, by decide⟩

/-! ## Facts about the connection worker -/

theorem receive_message_flags (flags size : Nat) (o : SockOutcome) :
    (receive_message flags size o).flags = flags := by
  unfold receive_message
  cases o with
  | recvError again => cases again <;> rfl
  | data q => simp only; split <;> rfl
  | _ => rfl

theorem receive_message_ret_flags (f1 f2 size : Nat) (o : SockOutcome) :
    (receive_message f1 size o).ret = (receive_message f2 size o).ret := by
  unfold receive_message
  cases o with
  | recvError again => cases again <;> rfl
  | data q => simp only; split <;> rfl
  | _ => rfl

/-- A pass whose receive returns 0 changes only the counter and the log. -/
theorem serveRound_zero (verbose : Bool) (w : Worker) (r : Round)
    (hrun : r.running = true) (hact : w.active = true)
    (hret : (receive_message w.sockFlags BUFFER_SIZE r.sock).ret = 0) :
    ∃ log : List Effect, (∀ e ∈ log, e.isLog = true) ∧
      serveRound verbose w r =
        { w with consecutive_timeouts := toInt32 (w.consecutive_timeouts + 1),
                 effects := w.effects ++ Effect.receive 0 :: log } := by
  have hfl := receive_message_flags w.sockFlags BUFFER_SIZE r.sock
  by_cases hlog : (toInt32 (w.consecutive_timeouts + 1) > 10 &&
      (toInt32 (w.consecutive_timeouts + 1) % 100 == 0 && verbose)) = true
  · refine ⟨[Effect.logIdle (toInt32 (w.consecutive_timeouts + 1))], ?_, ?_⟩
    · intro e he
      simp only [List.mem_singleton] at he
      subst he
      rfl
    · simp only [serveRound, hrun, hact, hret, hfl, hlog]
      simp
  · refine ⟨[], by simp, ?_⟩
    simp only [serveRound, hrun, hact, hret, hfl, hlog]
    simp

theorem clientLoop_cons_open (verbose : Bool) (w : Worker) (r : Round) (rs : List Round)
    (h : (serveRound verbose w r).phase = Phase.awaitMessage) :
    clientLoop verbose w (r :: rs) = clientLoop verbose (serveRound verbose w r) rs := by
  simp [clientLoop, h]

theorem clientLoop_cons_closed (verbose : Bool) (w : Worker) (r : Round) (rs : List Round)
    (h : (serveRound verbose w r).phase = Phase.closed) :
    clientLoop verbose w (r :: rs) = serveRound verbose w r := by
  simp [clientLoop, h]

theorem clientLoop_append (verbose : Bool) (w : Worker) (a b : List Round)
    (h : (clientLoop verbose w a).phase = Phase.awaitMessage) :
    clientLoop verbose w (a ++ b) = clientLoop verbose (clientLoop verbose w a) b := by
  induction a generalizing w with
  | nil => rfl
  | cons r rs ih =>
    simp only [List.cons_append, clientLoop] at h ⊢
    by_cases hc : ((serveRound verbose w r).phase == Phase.closed) = true
    · simp only [hc, if_true] at h
      rw [h] at hc
      exact absurd hc (by decide)
    · simp only [hc] at h ⊢
      exact ih _ h

/-- C5. A timeout and an orderly close by the peer give the same result of
`receive_message`: the value 0, a zeroed buffer and the restored flags. The returned value
therefore does not tell the two apart. -/
theorem receive_message_timeout_eq_closed (flags buffer_size : Nat) :
    (receive_message flags buffer_size .timeout).ret = 0 ∧
    (receive_message flags buffer_size .peerClosed).ret = 0 ∧
    receive_message flags buffer_size .timeout
      = receive_message flags buffer_size .peerClosed :=
  ⟨rfl, rfl, rfl⟩

theorem clientLoop_zero (verbose : Bool) (rounds : List Round) (w : Worker)
    (hw : w.serving)
    (hr : ∀ r ∈ rounds, r.running = true ∧
      ∀ fl, (receive_message fl BUFFER_SIZE r.sock).ret = 0) :
    (clientLoop verbose w rounds).serving ∧
    (clientLoop verbose w rounds).sockFlags = w.sockFlags ∧
    actions (clientLoop verbose w rounds).effects
      = actions w.effects ++ List.replicate rounds.length (Effect.receive 0) := by
  induction rounds generalizing w with
  | nil => exact ⟨hw, rfl, by simp [clientLoop]⟩
  | cons r rs ih =>
    obtain ⟨hrun, hret⟩ := hr r (by simp)
    obtain ⟨log, hlog, hstep⟩ := serveRound_zero verbose w r hrun hw.2.1 (hret _)
    have hphase : (serveRound verbose w r).phase = Phase.awaitMessage := by
      rw [hstep]; exact hw.1
    have hserv : (serveRound verbose w r).serving := by
      rw [hstep]; exact hw
    obtain ⟨i1, i2, i3⟩ := ih (serveRound verbose w r) hserv
      (fun x hx => hr x (List.mem_cons_of_mem _ hx))
    rw [clientLoop_cons_open verbose w r rs hphase]
    refine ⟨i1, ?_, ?_⟩
    · rw [i2, hstep]
    · rw [i3, hstep]
      have hl : actions log = [] := by
        simp only [actions, List.filter_eq_nil_iff]
        intro e he
        simp [hlog e he]
      simp only [actions, List.filter_append, List.filter_cons, Effect.isLog] at hl ⊢
      simp [hl, List.replicate_succ]

theorem receive_message_ret_nonneg (flags : Nat) (o : SockOutcome)
    (h : o = .timeout ∨ o = .recvError true ∨ ∃ q, o = .data q) :
    0 ≤ (receive_message flags BUFFER_SIZE o).ret := by
  rcases h with rfl | rfl | ⟨q, rfl⟩
  · simp [receive_message]
  · simp [receive_message]
  · simp only [receive_message]
    split
    · simp
    · exact Int.ofNat_nonneg _

theorem receive_message_ret_neg (flags : Nat) (o : SockOutcome)
    (h : o = .selectError ∨ o = .recvError false) :
    (receive_message flags BUFFER_SIZE o).ret < 0 := by
  rcases h with rfl | rfl <;> simp [receive_message]

theorem serveRound_error (verbose : Bool) (w : Worker) (r : Round)
    (hrun : r.running = true) (hact : w.active = true)
    (hret : (receive_message w.sockFlags BUFFER_SIZE r.sock).ret < 0) :
    (serveRound verbose w r).phase = Phase.closed ∧
    (serveRound verbose w r).socketOpen = false ∧
    (serveRound verbose w r).active = false := by
  simp [serveRound, hrun, hact, hret, cleanup]

theorem serveRound_serving (verbose : Bool) (w : Worker) (r : Round) (hw : w.serving)
    (hrun : r.running = true)
    (hret : 0 ≤ (receive_message w.sockFlags BUFFER_SIZE r.sock).ret)
    (hsend : 0 ≤ r.sendRet) : (serveRound verbose w r).serving := by
  obtain ⟨h1, h2, h3⟩ := hw
  have hnr : ¬ (receive_message w.sockFlags BUFFER_SIZE r.sock).ret < 0 := Int.not_lt.mpr hret
  have hns : ¬ r.sendRet < 0 := Int.not_lt.mpr hsend
  unfold serveRound
  simp only [hrun, h2, hnr, hns, Bool.and_self, Bool.not_true, Bool.false_eq_true, if_false]
  split
  · exact ⟨h1, rfl, h3⟩
  · exact ⟨h1, rfl, h3⟩

theorem clientLoop_serving (verbose : Bool) (rounds : List Round) (w : Worker)
    (hw : w.serving)
    (hr : ∀ r ∈ rounds, r.running = true ∧ 0 ≤ r.sendRet ∧
      (r.sock = .timeout ∨ r.sock = .recvError true ∨ ∃ q, r.sock = .data q)) :
    (clientLoop verbose w rounds).serving := by
  induction rounds generalizing w with
  | nil => exact hw
  | cons r rs ih =>
    obtain ⟨hrun, hsend, hsock⟩ := hr r (by simp)
    have hs := serveRound_serving verbose w r hw hrun
      (receive_message_ret_nonneg _ _ hsock) hsend
    rw [clientLoop_cons_open verbose w r rs hs.1]
    exact ih _ hs (fun x hx => hr x (List.mem_cons_of_mem _ hx))

/-- C6. After the greeting, a peer that has closed the connection makes every receive
return 0, and the worker treats each as a timeout: after any number of such passes it is
still in its loop, with the socket open and the slot held, and has done nothing but
receive. -/
theorem peer_close_keeps_worker (verbose : Bool) (flags n : Nat) :
    (handle_client verbose flags 64
        (List.replicate n ⟨true, .peerClosed, none, 0⟩)).serving ∧
    actions (handle_client verbose flags 64
        (List.replicate n ⟨true, .peerClosed, none, 0⟩)).effects
      = Effect.send welcome_msg :: List.replicate n (Effect.receive 0) := by
  have h := clientLoop_zero verbose (List.replicate n ⟨true, .peerClosed, none, 0⟩)
    { phase := Phase.awaitMessage, consecutive_timeouts := 0, active := true,
      socketOpen := true, sockFlags := flags, effects := [Effect.send welcome_msg] }
    ⟨rfl, rfl, rfl⟩
    (by
      intro r hr
      rw [List.eq_of_mem_replicate hr]
      exact ⟨rfl, fun _ => rfl⟩)
  obtain ⟨h1, _, h3⟩ := h
  have he : handle_client verbose flags 64 (List.replicate n ⟨true, .peerClosed, none, 0⟩)
      = clientLoop verbose
          { phase := Phase.awaitMessage, consecutive_timeouts := 0, active := true,
            socketOpen := true, sockFlags := flags, effects := [Effect.send welcome_msg] }
          (List.replicate n ⟨true, .peerClosed, none, 0⟩) := by
    simp [handle_client]
  rw [he]
  refine ⟨h1, ?_⟩
  rw [h3]
  simp [actions, Effect.isLog]

/-- C7 as stated fails: one receive error, far fewer than five in a row, with the server
running and no peer close, and the worker is past `cleanup` with the socket closed. -/
theorem one_error_closes :
    (handle_client false 0 64 [⟨true, .selectError, none, 0⟩]).phase = Phase.closed ∧
    (handle_client false 0 64 [⟨true, .selectError, none, 0⟩]).socketOpen = false ∧
    (handle_client false 0 64 [⟨true, .selectError, none, 0⟩]).effects
      = [Effect.send welcome_msg, Effect.receive (-1), Effect.closeSocket,
          Effect.releaseSlot] := by
  decide

/-- C7, amended. The worker closes the connection at the first receive error: as long as
the server runs, every receive is a timeout, a no-data-yet result or a message, and every
reply is sent, the worker stays in its loop with the socket open; the first pass whose
receive fails (in `select` or in `recv`) takes it through `cleanup`. -/
theorem first_error_closes (verbose : Bool) (flags : Nat) (welcomeRet : Int)
    (rounds : List Round) (bad : Round) (more : List Round)
    (hwelcome : 0 ≤ welcomeRet)
    (hr : ∀ r ∈ rounds, r.running = true ∧ 0 ≤ r.sendRet ∧
      (r.sock = .timeout ∨ r.sock = .recvError true ∨ ∃ q, r.sock = .data q))
    (hbad : bad.running = true ∧ (bad.sock = .selectError ∨ bad.sock = .recvError false)) :
    (handle_client verbose flags welcomeRet rounds).serving ∧
    (handle_client verbose flags welcomeRet (rounds ++ bad :: more)).phase = Phase.closed ∧
    (handle_client verbose flags welcomeRet (rounds ++ bad :: more)).socketOpen = false := by
  have hnw : ¬ welcomeRet < 0 := Int.not_lt.mpr hwelcome
  have hs := clientLoop_serving verbose rounds
    { phase := Phase.awaitMessage, consecutive_timeouts := 0, active := true,
      socketOpen := true, sockFlags := flags, effects := [Effect.send welcome_msg] }
    ⟨rfl, rfl, rfl⟩ hr
  have hstep := serveRound_error verbose _ bad hbad.1 hs.2.1
    (receive_message_ret_neg _ _ hbad.2)
  simp only [handle_client, hnw, if_false]
  refine ⟨hs, ?_, ?_⟩
  · rw [clientLoop_append verbose _ rounds (bad :: more) hs.1,
      clientLoop_cons_closed verbose _ bad more hstep.1]
    exact hstep.1
  · rw [clientLoop_append verbose _ rounds (bad :: more) hs.1,
      clientLoop_cons_closed verbose _ bad more hstep.1]
    exact hstep.2.1

/-- C7, amended, on a session: two timeouts and an answered message keep the worker in
its loop; the error that follows closes the connection. -/
theorem first_error_closes_witness :
    (handle_client false 0 64
        [⟨true, .timeout, none, 0⟩, ⟨true, .data "hi".toList, some "yo".toList, 2⟩,
          ⟨true, .timeout, none, 0⟩]).serving ∧
    (handle_client false 0 64
        ([⟨true, .timeout, none, 0⟩, ⟨true, .data "hi".toList, some "yo".toList, 2⟩,
          ⟨true, .timeout, none, 0⟩] ++ ⟨true, .recvError false, none, 0⟩ :: [])).phase
      = Phase.closed ∧
    (handle_client false 0 64
        ([⟨true, .timeout, none, 0⟩, ⟨true, .data "hi".toList, some "yo".toList, 2⟩,
          ⟨true, .timeout, none, 0⟩] ++ ⟨true, .recvError false, none, 0⟩ :: [])).socketOpen
      = false :=
  first_error_closes false 0 64
    [⟨true, .timeout, none, 0⟩, ⟨true, .data "hi".toList, some "yo".toList, 2⟩,
      ⟨true, .timeout, none, 0⟩]
    ⟨true, .recvError false, none, 0⟩ [] (by decide)
    (by
      intro r hr
      simp only [List.mem_cons, List.mem_singleton, List.not_mem_nil, or_false] at hr
      rcases hr with rfl | rfl | rfl
      · exact ⟨rfl, by decide, Or.inl rfl⟩
      · exact ⟨rfl, by decide, Or.inr (Or.inr ⟨_, rfl⟩)⟩
      · exact ⟨rfl, by decide, Or.inl rfl⟩)
    ⟨rfl, Or.inr rfl⟩

/-- C8. From any point where the worker is in its loop, any number of consecutive
timeouts, with the server running, leaves it in its loop with the socket open and the slot
held; apart from idle log lines it has only received, and this holds whatever value the
timeout counter had, so the counter decides nothing but the log. -/
theorem timeouts_keep_waiting (verbose : Bool) (w : Worker) (rounds : List Round)
    (hw : w.serving) (hr : ∀ r ∈ rounds, r.running = true ∧ r.sock = .timeout) :
    (clientLoop verbose w rounds).serving ∧
    actions (clientLoop verbose w rounds).effects
      = actions w.effects ++ List.replicate rounds.length (Effect.receive 0) ∧
    (∀ c : Int,
      (clientLoop verbose { w with consecutive_timeouts := c } rounds).serving ∧
      actions (clientLoop verbose { w with consecutive_timeouts := c } rounds).effects
        = actions (clientLoop verbose w rounds).effects) := by
  have hr2 : ∀ r ∈ rounds, r.running = true ∧
      ∀ fl, (receive_message fl BUFFER_SIZE r.sock).ret = 0 := by
    intro r hmem
    obtain ⟨h1, h2⟩ := hr r hmem
    exact ⟨h1, fun fl => by rw [h2]; rfl⟩
  obtain ⟨a1, _, a3⟩ := clientLoop_zero verbose rounds w hw hr2
  refine ⟨a1, a3, ?_⟩
  intro c
  obtain ⟨b1, _, b3⟩ := clientLoop_zero verbose rounds { w with consecutive_timeouts := c }
    hw hr2
  exact ⟨b1, by rw [b3, a3]⟩

/-- C8 on a fresh connection: after the greeting and three timeouts the worker waits,
having sent nothing more. -/
theorem timeouts_keep_waiting_witness :
    (clientLoop true ⟨Phase.awaitMessage, 0, true, true, 0, [Effect.send welcome_msg]⟩
        [⟨true, .timeout, none, 0⟩, ⟨true, .timeout, none, 0⟩,
          ⟨true, .timeout, none, 0⟩]).serving ∧
    actions (clientLoop true ⟨Phase.awaitMessage, 0, true, true, 0, [Effect.send welcome_msg]⟩
        [⟨true, .timeout, none, 0⟩, ⟨true, .timeout, none, 0⟩,
          ⟨true, .timeout, none, 0⟩]).effects
      = [Effect.send welcome_msg, Effect.receive 0, Effect.receive 0, Effect.receive 0] := by
  have h := timeouts_keep_waiting true
    ⟨Phase.awaitMessage, 0, true, true, 0, [Effect.send welcome_msg]⟩
    [⟨true, .timeout, none, 0⟩, ⟨true, .timeout, none, 0⟩, ⟨true, .timeout, none, 0⟩]
    ⟨rfl, rfl, rfl⟩ (by decide)
  exact ⟨h.1, by rw [h.2.1]; decide⟩

/-! ## Request and reply ordering -/

theorem wellPaired_idle (ret : Int) (rest : List Effect) (h : ¬ ret > 0) :
    wellPaired (Effect.receive ret :: rest) = wellPaired rest := by
  conv_lhs => unfold wellPaired
  simp [h]

theorem wellPaired_message (ret : Int) (p : List Char) (res : Option (List Char))
    (m : List Char) (rest : List Effect) (h : ret > 0) :
    wellPaired (Effect.receive ret :: Effect.generate p res :: Effect.send m :: rest)
      = ((m == (match res with | some a => a | none => fallbackReply)) && wellPaired rest) := by
  conv_lhs => unfold wellPaired
  simp [h]

theorem wellPaired_append (a b : List Effect) (ha : wellPaired a = true)
    (hb : wellPaired b = true) : wellPaired (a ++ b) = true := by
  induction a using wellPaired.induct with
  | case1 => simpa using hb
  | case2 ret hpos p res m rest2 ih =>
    rw [wellPaired_message _ _ _ _ _ hpos, Bool.and_eq_true] at ha
    rw [List.cons_append, List.cons_append, List.cons_append,
      wellPaired_message _ _ _ _ _ hpos, Bool.and_eq_true]
    exact ⟨ha.1, ih ha.2⟩
  | case3 ret rest hpos hno =>
    exfalso
    unfold wellPaired at ha
    simp only [hpos, if_true] at ha
    exact absurd ha (by decide)
  | case4 ret rest hpos ih =>
    rw [wellPaired_idle _ _ hpos] at ha
    rw [List.cons_append, wellPaired_idle _ _ hpos]
    exact ih ha
  | case5 => exact absurd ha (by simp [wellPaired])
  | case6 => exact absurd ha (by simp [wellPaired])
  | case7 k rest ih =>
    have ha2 : wellPaired rest = true := by simpa [wellPaired] using ha
    have : wellPaired (Effect.logIdle k :: (rest ++ b)) = wellPaired (rest ++ b) := by
      simp [wellPaired]
    rw [List.cons_append, this]
    exact ih ha2
  | case8 rest ih =>
    have ha2 : wellPaired rest = true := by simpa [wellPaired] using ha
    have : wellPaired (Effect.closeSocket :: (rest ++ b)) = wellPaired (rest ++ b) := by
      simp [wellPaired]
    rw [List.cons_append, this]
    exact ih ha2
  | case9 rest ih =>
    have ha2 : wellPaired rest = true := by simpa [wellPaired] using ha
    have : wellPaired (Effect.releaseSlot :: (rest ++ b)) = wellPaired (rest ++ b) := by
      simp [wellPaired]
    rw [List.cons_append, this]
    exact ih ha2

theorem serveRound_chunk (verbose : Bool) (w : Worker) (r : Round) :
    ∃ chunk, (serveRound verbose w r).effects = w.effects ++ chunk ∧
      wellPaired chunk = true := by
  by_cases hgo : (!(r.running && w.active)) = true
  · exact ⟨[Effect.closeSocket, Effect.releaseSlot], by simp [serveRound, hgo, cleanup],
      by simp [wellPaired]⟩
  · by_cases hneg : (receive_message w.sockFlags BUFFER_SIZE r.sock).ret < 0
    · have hnp : ¬ (receive_message w.sockFlags BUFFER_SIZE r.sock).ret > 0 := by omega
      refine ⟨[Effect.receive (receive_message w.sockFlags BUFFER_SIZE r.sock).ret,
        Effect.closeSocket, Effect.releaseSlot], ?_, ?_⟩
      · simp only [serveRound, hgo, hneg, cleanup]
        simp
      · rw [wellPaired_idle _ _ hnp]
        simp [wellPaired]
    · by_cases hzero : ((receive_message w.sockFlags BUFFER_SIZE r.sock).ret == 0) = true
      · have hnp : ¬ (receive_message w.sockFlags BUFFER_SIZE r.sock).ret > 0 := by
          have : (receive_message w.sockFlags BUFFER_SIZE r.sock).ret = 0 := by
            simpa using hzero
          omega
        by_cases hlog : (toInt32 (w.consecutive_timeouts + 1) > 10 &&
            (toInt32 (w.consecutive_timeouts + 1) % 100 == 0 && verbose)) = true
        · refine ⟨[Effect.receive (receive_message w.sockFlags BUFFER_SIZE r.sock).ret,
            Effect.logIdle (toInt32 (w.consecutive_timeouts + 1))], ?_, ?_⟩
          · simp only [serveRound, hgo, hneg, hzero, hlog]
            simp
          · rw [wellPaired_idle _ _ hnp]
            simp [wellPaired]
        · refine ⟨[Effect.receive (receive_message w.sockFlags BUFFER_SIZE r.sock).ret],
            ?_, ?_⟩
          · simp only [serveRound, hgo, hneg, hzero, hlog]
            simp
          · rw [wellPaired_idle _ _ hnp]
            simp [wellPaired]
      · have hpos : (receive_message w.sockFlags BUFFER_SIZE r.sock).ret > 0 := by
          have hz : (receive_message w.sockFlags BUFFER_SIZE r.sock).ret ≠ 0 := by
            simpa using hzero
          omega
        by_cases hsend : r.sendRet < 0
        · refine ⟨[Effect.receive (receive_message w.sockFlags BUFFER_SIZE r.sock).ret,
            Effect.generate (cstr (receive_message w.sockFlags BUFFER_SIZE r.sock).buffer)
              r.response,
            Effect.send (match r.response with
              | some response => response
              | none => fallbackReply),
            Effect.closeSocket, Effect.releaseSlot], ?_, ?_⟩
          · simp only [serveRound, hgo, hneg, hzero, hsend, cleanup]
            simp
          · rw [wellPaired_message _ _ _ _ _ hpos]
            simp [wellPaired]
        · refine ⟨[Effect.receive (receive_message w.sockFlags BUFFER_SIZE r.sock).ret,
            Effect.generate (cstr (receive_message w.sockFlags BUFFER_SIZE r.sock).buffer)
              r.response,
            Effect.send (match r.response with
              | some response => response
              | none => fallbackReply)], ?_, ?_⟩
          · simp only [serveRound, hgo, hneg, hzero, hsend]
            simp
          · rw [wellPaired_message _ _ _ _ _ hpos]
            simp [wellPaired]

theorem clientLoop_chunk (verbose : Bool) (rounds : List Round) (w : Worker) :
    ∃ chunk, (clientLoop verbose w rounds).effects = w.effects ++ chunk ∧
      wellPaired chunk = true := by
  induction rounds generalizing w with
  | nil => exact ⟨[], by simp [clientLoop], rfl⟩
  | cons r rs ih =>
    obtain ⟨c1, h1, p1⟩ := serveRound_chunk verbose w r
    simp only [clientLoop]
    split
    · exact ⟨c1, h1, p1⟩
    · obtain ⟨c2, h2, p2⟩ := ih (serveRound verbose w r)
      exact ⟨c1 ++ c2, by rw [h2, h1, List.append_assoc], wellPaired_append c1 c2 p1 p2⟩

/-- C9. In every run of the worker the trace is the greeting followed by a strictly paired
sequence: each receive that returned a message is followed at once by the generation for
that message and exactly one send, of the generated answer or of the fallback string when
there is none, before any further receive; and no other send occurs. -/
theorem handle_client_request_reply (verbose : Bool) (flags : Nat) (welcomeRet : Int)
    (rounds : List Round) :
    ∃ tail, (handle_client verbose flags welcomeRet rounds).effects
        = Effect.send welcome_msg :: tail ∧ wellPaired tail = true := by
  unfold handle_client
  simp only
  split
  · exact ⟨[Effect.closeSocket, Effect.releaseSlot], rfl, rfl⟩
  · obtain ⟨chunk, h, p⟩ := clientLoop_chunk verbose rounds
      { phase := Phase.awaitMessage, consecutive_timeouts := 0, active := true,
        socketOpen := true, sockFlags := flags, effects := [Effect.send welcome_msg] }
    exact ⟨chunk, by rw [h]; rfl, p⟩

/-! ## Facts about send_message -/

theorem toInt32_of_small (n : Nat) (h : n < 2 ^ 31) : toInt32 (n : Int) = n := by
  unfold toInt32
  omega

theorem sendLoop_done (message : List Char) (rs : List WriteResult) (total : Nat)
    (written : List Char) (h : ¬ total < message.length) :
    sendLoop message rs total written
      = some { ret := toInt32 total, written := written } := by
  cases rs <;> simp [sendLoop, h]

theorem sendLoop_nil (message : List Char) (total : Nat) (written : List Char)
    (h : total < message.length) : sendLoop message [] total written = none := by
  simp [sendLoop, h]

theorem sendLoop_interrupted (message : List Char) (r : WriteResult) (rs : List WriteResult)
    (total : Nat) (written : List Char) (h : total < message.length)
    (hr : r.interrupted = true) :
    sendLoop message (r :: rs) total written = sendLoop message rs total written := by
  simp only [WriteResult.interrupted, Bool.and_eq_true, decide_eq_true_eq] at hr
  have hb : min r.ret ((message.length - total : Nat) : Int) ≤ 0 := by omega
  simp [sendLoop, h, hb, hr.2]

theorem sendLoop_fails (message : List Char) (r : WriteResult) (rs : List WriteResult)
    (total : Nat) (written : List Char) (h : total < message.length)
    (hr : r.fails = true) :
    sendLoop message (r :: rs) total written = some { ret := -1, written := written } := by
  simp only [WriteResult.fails, Bool.and_eq_true, decide_eq_true_eq, Bool.not_eq_true'] at hr
  have hb : min r.ret ((message.length - total : Nat) : Int) ≤ 0 := by omega
  simp [sendLoop, h, hb, hr.2]

theorem sendLoop_accepts (message : List Char) (r : WriteResult) (rs : List WriteResult)
    (total : Nat) (written : List Char) (h : total < message.length)
    (hlen : message.length < 2 ^ 31) (hr : 0 < r.ret) :
    ∃ k, 1 ≤ k ∧ total + k ≤ message.length ∧
      sendLoop message (r :: rs) total written
        = sendLoop message rs (total + k) (written ++ (message.drop total).take k) := by
  have hb : ¬ min r.ret ((message.length - total : Nat) : Int) ≤ 0 := by omega
  refine ⟨(min r.ret ((message.length - total : Nat) : Int)).toNat, by omega, by omega, ?_⟩
  have hmod : (total + (min r.ret ((message.length - total : Nat) : Int)).toNat) % 2 ^ 64
      = total + (min r.ret ((message.length - total : Nat) : Int)).toNat := by
    apply Nat.mod_eq_of_lt
    have : total + (min r.ret ((message.length - total : Nat) : Int)).toNat
        ≤ message.length := by omega
    omega
  simp only [sendLoop, h, if_true, hb, if_false, hmod]

theorem WriteResult.cases3 (r : WriteResult) :
    r.interrupted = true ∨ r.fails = true ∨ 0 < r.ret := by
  simp only [WriteResult.interrupted, WriteResult.fails, Bool.and_eq_true, decide_eq_true_eq,
    Bool.not_eq_true']
  by_cases h : r.ret ≤ 0
  · cases he : r.eintr
    · exact Or.inr (Or.inl ⟨h, rfl⟩)
    · exact Or.inl ⟨h, rfl⟩
  · exact Or.inr (Or.inr (by omega))

theorem take_ne_of_lt (message : List Char) (total : Nat) (h : total < message.length) :
    message.take total ≠ message := by
  intro e
  have := congrArg List.length e
  rw [List.length_take] at this
  omega

/-- The loop invariant: `written` is the first `total_sent` bytes of the message. -/
theorem sendLoop_result (message : List Char) (hlen : message.length < 2 ^ 31)
    (rs : List WriteResult) (total : Nat) (htot : total ≤ message.length)
    (out : SendOutcome) (h : sendLoop message rs total (message.take total) = some out) :
    out.written <+: message ∧
      (out.ret = message.length ∧ out.written = message ∨
        out.ret = -1 ∧ out.written ≠ message) := by
  induction rs generalizing total with
  | nil =>
    by_cases hlt : total < message.length
    · rw [sendLoop_nil _ _ _ hlt] at h
      cases h
    · rw [sendLoop_done _ _ _ _ hlt] at h
      have h2 := Option.some.inj h
      subst h2
      have he : total = message.length := by omega
      subst he
      refine ⟨by simp, Or.inl ⟨toInt32_of_small _ hlen, by simp⟩⟩
  | cons r rest ih =>
    by_cases hlt : total < message.length
    · rcases r.cases3 with hr | hr | hr
      · rw [sendLoop_interrupted _ _ _ _ _ hlt hr] at h
        exact ih total htot h
      · rw [sendLoop_fails _ _ _ _ _ hlt hr] at h
        cases h
        exact ⟨List.take_prefix _ _, Or.inr ⟨rfl, take_ne_of_lt _ _ hlt⟩⟩
      · obtain ⟨k, _, hk2, hstep⟩ := sendLoop_accepts message r rest total
          (message.take total) hlt hlen hr
        rw [hstep, ← List.take_add] at h
        exact ih (total + k) hk2 h
    · rw [sendLoop_done _ _ _ _ hlt] at h
      have h2 := Option.some.inj h
      subst h2
      have he : total = message.length := by omega
      subst he
      refine ⟨by simp, Or.inl ⟨toInt32_of_small _ hlen, by simp⟩⟩

theorem sendLoop_filter (message : List Char) (rs : List WriteResult) (total : Nat)
    (written : List Char) :
    sendLoop message rs total written
      = sendLoop message (rs.filter (fun r => !r.interrupted)) total written := by
  induction rs generalizing total written with
  | nil => rfl
  | cons r rest ih =>
    by_cases hlt : total < message.length
    · by_cases hr : r.interrupted = true
      · rw [sendLoop_interrupted _ _ _ _ _ hlt hr, List.filter_cons_of_neg (by simp [hr])]
        exact ih total written
      · rw [List.filter_cons_of_pos (by simp [hr])]
        simp only [sendLoop, hlt, if_true]
        split
        · split
          · exact ih _ _
          · rfl
        · exact ih _ _
    · rw [sendLoop_done _ _ _ _ hlt, sendLoop_done _ _ _ _ hlt]

theorem sendLoop_completes (message : List Char) (hlen : message.length < 2 ^ 31)
    (rs : List WriteResult) (total : Nat) (htot : total ≤ message.length)
    (hok : ∀ r ∈ rs, r.fails = false)
    (hcount : message.length - total ≤ rs.countP WriteResult.accepts) :
    sendLoop message rs total (message.take total)
      = some { ret := message.length, written := message } := by
  induction rs generalizing total with
  | nil =>
    have he : total = message.length := by simp at hcount; omega
    subst he
    rw [sendLoop_done _ _ _ _ (by omega), toInt32_of_small _ hlen]
    simp
  | cons r rest ih =>
    have hok2 : ∀ x ∈ rest, x.fails = false := fun x hx => hok x (List.mem_cons_of_mem _ hx)
    by_cases hlt : total < message.length
    · rcases r.cases3 with hr | hr | hr
      · rw [sendLoop_interrupted _ _ _ _ _ hlt hr]
        have hna : r.accepts = false := by
          simp only [WriteResult.interrupted, Bool.and_eq_true, decide_eq_true_eq] at hr
          simp only [WriteResult.accepts, decide_eq_false_iff_not]
          omega
        rw [List.countP_cons_of_neg _ _ (by simp [hna])] at hcount
        exact ih total htot hok2 hcount
      · rw [hok r (by simp)] at hr
        cases hr
      · obtain ⟨k, hk1, hk2, hstep⟩ := sendLoop_accepts message r rest total
          (message.take total) hlt hlen hr
        rw [hstep, ← List.take_add]
        have hacc : r.accepts = true := by simp [WriteResult.accepts, hr]
        rw [List.countP_cons_of_pos _ _ hacc] at hcount
        exact ih (total + k) hk2 hok2 (by omega)
    · have he : total = message.length := by omega
      subst he
      rw [sendLoop_done _ _ _ _ hlt, toInt32_of_small _ hlen]
      simp

theorem sendLoop_hard_failure (message : List Char) (pre : List WriteResult)
    (f : WriteResult) (post : List WriteResult) (total : Nat) (written : List Char)
    (hnone : sendLoop message pre total written = none) (hf : f.fails = true) :
    ∃ w, sendLoop message (pre ++ f :: post) total written = some { ret := -1, written := w } := by
  induction pre generalizing total written with
  | nil =>
    by_cases hlt : total < message.length
    · exact ⟨written, sendLoop_fails _ _ _ _ _ hlt hf⟩
    · rw [sendLoop_done _ _ _ _ hlt] at hnone
      cases hnone
  | cons r rest ih =>
    by_cases hlt : total < message.length
    · simp only [List.cons_append]
      simp only [sendLoop, hlt, if_true] at hnone ⊢
      split
      · rename_i hb
        simp only [hb, if_true] at hnone
        split
        · rename_i he
          simp only [he, if_true] at hnone
          exact ih _ _ hnone
        · exact ⟨written, rfl⟩
      · rename_i hb
        simp only [hb, if_false] at hnone
        exact ih _ _ hnone
    · rw [sendLoop_done _ _ _ _ hlt] at hnone
      cases hnone

/-- C10. For a message whose length fits the `int` result and any sequence of results of
`send`: whatever `send_message` returns, the bytes written are a prefix of the message in
order, and it returns the full length exactly when all of them were written and -1
otherwise; interrupted writes are retried, so dropping them from the sequence changes
nothing; when no write fails otherwise and enough writes accept data, it returns the full
length with the whole message written; and a write that fails otherwise while bytes are
still unsent makes it return -1. -/
theorem send_message_spec (message : List Char) (rs : List WriteResult)
    (hlen : message.length < 2 ^ 31) :
    (∀ out, send_message message rs = some out →
      out.written <+: message ∧
        (out.ret = message.length ∧ out.written = message ∨
          out.ret = -1 ∧ out.written ≠ message)) ∧
    send_message message rs
      = send_message message (rs.filter (fun r => !r.interrupted)) ∧
    ((∀ r ∈ rs, r.fails = false) → message.length ≤ rs.countP WriteResult.accepts →
      send_message message rs = some { ret := message.length, written := message }) ∧
    (∀ pre f post, rs = pre ++ f :: post → send_message message pre = none →
      f.fails = true →
      ∃ w, send_message message rs = some { ret := -1, written := w } ∧ w ≠ message) := by
  refine ⟨?_, ?_, ?_, ?_⟩
  · intro out h
    exact sendLoop_result message hlen rs 0 (Nat.zero_le _) out (by simpa [send_message] using h)
  · exact sendLoop_filter message rs 0 []
  · intro hok hcount
    have := sendLoop_completes message hlen rs 0 (Nat.zero_le _) hok (by simpa using hcount)
    simpa [send_message] using this
  · intro pre f post hrs hnone hf
    obtain ⟨w, hw⟩ := sendLoop_hard_failure message pre f post 0 [] hnone hf
    refine ⟨w, by rw [hrs]; exact hw, ?_⟩
    have hres := sendLoop_result message hlen (pre ++ f :: post) 0 (Nat.zero_le _) _
      (by simpa using hw)
    rcases hres.2 with ⟨h1, _⟩ | ⟨_, h2⟩
    · simp only at h1
      omega
    · exact h2

/-- C10 on a five-byte message: a partial write of two bytes, an interrupted write, and a
write that takes the rest give the full length; a failed write in place of the last one
gives -1 with only the first two bytes sent. -/
theorem send_message_spec_witness :
    send_message "hello".toList [⟨2, false⟩, ⟨-1, true⟩, ⟨10, false⟩]
      = some { ret := 5, written := "hello".toList } ∧
    send_message "hello".toList [⟨2, false⟩, ⟨-1, true⟩, ⟨10, false⟩]
      = send_message "hello".toList [⟨2, false⟩, ⟨10, false⟩] ∧
    send_message "hello".toList [⟨2, false⟩, ⟨-1, false⟩, ⟨10, false⟩]
      = some { ret := -1, written := "he".toList } ∧
    (∀ out, send_message "hello".toList [⟨2, false⟩, ⟨-1, true⟩, ⟨10, false⟩] = some out →
      out.written <+: "hello".toList ∧
        (out.ret = "hello".toList.length ∧ out.written = "hello".toList ∨
          out.ret = -1 ∧ out.written ≠ "hello".toList)) :=
  ⟨by decide, by decide, by decide,
    (send_message_spec "hello".toList [⟨2, false⟩, ⟨-1, true⟩, ⟨10, false⟩]
      (by decide)).1⟩

/-! ## Facts about the request -/

theorem escapeLoop_eq (src dst : List Char) : escapeLoop src dst = dst ++ escapeSpec src := by
  induction src generalizing dst with
  | nil => simp [escapeLoop, escapeSpec]
  | cons c cs ih =>
    simp only [escapeLoop]
    rw [ih]
    by_cases h : c = '"' ∨ c = '\\'
    · have hb : (c == '"' || c == '\\') = true := by simpa using h
      simp [escapeSpec, h, hb]
    · have hb : (c == '"' || c == '\\') = false := by
        rw [← Bool.not_eq_true]; simpa using h
      simp [escapeSpec, h, hb]

theorem escapeSpec_cons_special (c : Char) (p : List Char) (h : c = '"' ∨ c = '\\') :
    escapeSpec (c :: p) = '\\' :: c :: escapeSpec p := by
  simp [escapeSpec, h]

theorem escapeSpec_cons_plain (c : Char) (p : List Char) (h : ¬ (c = '"' ∨ c = '\\')) :
    escapeSpec (c :: p) = c :: escapeSpec p := by
  simp [escapeSpec, h]

theorem unescape_cons_plain (c : Char) (l : List Char) (h : c ≠ '\\') :
    unescape (c :: l) = c :: unescape l := by
  cases l with
  | nil => simp [unescape]
  | cons d rest => simp [unescape, h]

theorem quotesEscaped_cons_plain (c : Char) (l : List Char) (h1 : c ≠ '\\') (h2 : c ≠ '"') :
    quotesEscaped (c :: l) = quotesEscaped l := by
  cases l with
  | nil => simp [quotesEscaped, h2]
  | cons d rest => simp [quotesEscaped, h1, h2]

theorem unescape_escapeSpec (p : List Char) : unescape (escapeSpec p) = p := by
  induction p with
  | nil => simp [escapeSpec, unescape]
  | cons c cs ih =>
    by_cases h : c = '"' ∨ c = '\\'
    · rw [escapeSpec_cons_special c cs h]
      simp [unescape, ih]
    · rw [escapeSpec_cons_plain c cs h, unescape_cons_plain c _ (fun e => h (Or.inr e)), ih]

theorem quotesEscaped_escapeSpec (p : List Char) : quotesEscaped (escapeSpec p) = true := by
  induction p with
  | nil => simp [escapeSpec, quotesEscaped]
  | cons c cs ih =>
    by_cases h : c = '"' ∨ c = '\\'
    · rw [escapeSpec_cons_special c cs h]
      simp [quotesEscaped, ih]
    · rw [escapeSpec_cons_plain c cs h,
        quotesEscaped_cons_plain c _ (fun e => h (Or.inr e)) (fun e => h (Or.inl e)), ih]

theorem length_escapeSpec_le (p : List Char) : (escapeSpec p).length ≤ 2 * p.length := by
  induction p with
  | nil => simp [escapeSpec]
  | cons c cs ih =>
    by_cases h : c = '"' ∨ c = '\\'
    · rw [escapeSpec_cons_special c cs h]
      simp only [List.length_cons]
      omega
    · rw [escapeSpec_cons_plain c cs h]
      simp only [List.length_cons]
      omega

/-- C13. The escaped prompt is the prompt with one backslash put immediately before each
double quote and each backslash and nothing else changed; removing the backslash of every
escape pair gives the prompt back, every double quote of the result is escaped, and the
result fits the block of `2 * strlen(prompt) + 1` bytes allocated for it. -/
theorem escaped_prompt_spec (prompt : List Char) :
    escaped_prompt prompt = escapeSpec prompt ∧
    unescape (escaped_prompt prompt) = prompt ∧
    quotesEscaped (escaped_prompt prompt) = true ∧
    (escaped_prompt prompt).length + 1 ≤ 2 * prompt.length + 1 := by
  have h : escaped_prompt prompt = escapeSpec prompt := by
    simp [escaped_prompt, escapeLoop_eq]
  refine ⟨h, ?_, ?_, ?_⟩
  · rw [h]; exact unescape_escapeSpec prompt
  · rw [h]; exact quotesEscaped_escapeSpec prompt
  · rw [h]
    have := length_escapeSpec_le prompt
    omega

/-- C15. The model name is "llama3" for llama, "mistral" for mistral, "phi3" for gptj,
and for custom or any other value the configured model path when it is not empty and
"llama3" when it is; it depends on nothing but the type and the path, and it is the value
of the member "model" at the start of the request body. -/
theorem model_name_spec (cfg : llm_config_t) :
    (cfg.type = LLM_TYPE_LLAMA → model_name cfg = "llama3".toList) ∧
    (cfg.type = LLM_TYPE_MISTRAL → model_name cfg = "mistral".toList) ∧
    (cfg.type = LLM_TYPE_GPT_J → model_name cfg = "phi3".toList) ∧
    (cfg.type ≠ LLM_TYPE_LLAMA → cfg.type ≠ LLM_TYPE_MISTRAL → cfg.type ≠ LLM_TYPE_GPT_J →
      (cfg.model_path ≠ [] → model_name cfg = cfg.model_path) ∧
      (cfg.model_path = [] → model_name cfg = "llama3".toList)) ∧
    (∀ other : llm_config_t, other.type = cfg.type → other.model_path = cfg.model_path →
      model_name other = model_name cfg) ∧
    (∀ prompt, ("\x7b\"model\":\"".toList ++ model_name cfg ++ "\",\"prompt\":\"".toList)
      <+: json_request cfg prompt) := by
  refine ⟨?_, ?_, ?_, ?_, ?_, ?_⟩
  · intro h
    simp [model_name, h]
  · intro h
    simp [model_name, h, LLM_TYPE_MISTRAL, LLM_TYPE_LLAMA]
  · intro h
    simp [model_name, h, LLM_TYPE_MISTRAL, LLM_TYPE_LLAMA, LLM_TYPE_GPT_J]
  · intro h0 h1 h2
    constructor
    · intro hp
      have : cfg.model_path.length > 0 := List.length_pos.mpr hp
      simp [model_name, h0, h1, h2, this]
    · intro hp
      simp [model_name, h0, h1, h2, hp]
  · intro other ht hp
    simp [model_name, ht, hp]
  · intro prompt
    refine ⟨escaped_prompt prompt ++
      "\",\"stream\":true,\"temperature\":".toList ++ cfg.temperature ++
      ",\"max_tokens\":".toList ++ fmtInt cfg.max_tokens ++
      ",\"options\":\x7b\"num_ctx\":".toList ++ fmtInt cfg.context_size ++
      "\x7d\x7d".toList, ?_⟩
    simp only [json_request, List.append_assoc]

/-- C15 on two configurations: a custom model with a path, and an unknown type without. -/
theorem model_name_spec_witness :
    model_name ⟨3, "codellama".toList, 2048, "0.70".toList, 512, false⟩
      = "codellama".toList ∧
    model_name ⟨7, [], 2048, "0.70".toList, 512, false⟩ = "llama3".toList ∧
    model_name ⟨2, "codellama".toList, 2048, "0.70".toList, 512, false⟩ = "phi3".toList :=
  ⟨((model_name_spec ⟨3, "codellama".toList, 2048, "0.70".toList, 512, false⟩).2.2.2.1
      (by decide) (by decide) (by decide)).1 (by decide),
    ((model_name_spec ⟨7, [], 2048, "0.70".toList, 512, false⟩).2.2.2.1
      (by decide) (by decide) (by decide)).2 rfl,
    (model_name_spec ⟨2, "codellama".toList, 2048, "0.70".toList, 512, false⟩).2.2.1 rfl⟩

theorem escaped_prompt_eq (prompt : List Char) : escaped_prompt prompt = escapeSpec prompt := by
  simp [escaped_prompt, escapeLoop_eq]

theorem length_escapeSpec_quotes (n : Nat) :
    (escapeSpec (List.replicate n '"')).length = 2 * n := by
  induction n with
  | zero => simp [escapeSpec]
  | succ k ih =>
    rw [List.replicate_succ, escapeSpec_cons_special '"' _ (Or.inl rfl)]
    simp only [List.length_cons, ih]
    omega

theorem json_request_default (prompt : List Char) :
    json_request default_llm_config prompt
      = "\x7b\"model\":\"llama3\",\"prompt\":\"".toList ++ (escaped_prompt prompt ++
        "\",\"stream\":true,\"temperature\":0.70,\"max_tokens\":512,\"options\":\x7b\"num_ctx\":2048\x7d\x7d".toList) := by
  have h1 : model_name default_llm_config = "llama3".toList := by decide
  have h2 : fmtInt default_llm_config.max_tokens = "512".toList := by decide
  have h3 : fmtInt default_llm_config.context_size = "2048".toList := by decide
  have h4 : default_llm_config.temperature = "0.70".toList := rfl
  simp only [json_request, h1, h2, h3, h4, List.append_assoc]
  rfl

/-- C12. A prompt of 4095 double quotes under the default configuration: the body is 8297
bytes long and the header block announces that length, but `snprintf` keeps 8191 bytes of
the request, so only the first 8038 bytes of the body are part of what is sent. -/
theorem long_prompt_truncates_request :
    (json_request default_llm_config (List.replicate 4095 '"')).length = 8297 ∧
    requestHeaders (json_request default_llm_config (List.replicate 4095 '"'))
      = ("POST /api/generate HTTP/1.1\r\nHost: localhost:11434\r\n" ++
          "Content-Type: application/json\r\nAccept: application/json\r\n" ++
          "Content-Length: 8297\r\nConnection: close\r\n\r\n").toList ∧
    http_request default_llm_config (List.replicate 4095 '"')
      = requestHeaders (json_request default_llm_config (List.replicate 4095 '"'))
        ++ (json_request default_llm_config (List.replicate 4095 '"')).take 8038 ∧
    ((json_request default_llm_config (List.replicate 4095 '"')).take 8038).length
      = 8038 := by
  have hesc : (escaped_prompt (List.replicate 4095 '"')).length = 8190 := by
    rw [escaped_prompt_eq, length_escapeSpec_quotes]
  have hlen : (json_request default_llm_config (List.replicate 4095 '"')).length = 8297 := by
    rw [json_request_default]
    simp only [List.length_append, hesc]
    rfl
  have hhdr : requestHeaders (json_request default_llm_config (List.replicate 4095 '"'))
      = ("POST /api/generate HTTP/1.1\r\nHost: localhost:11434\r\n" ++
          "Content-Type: application/json\r\nAccept: application/json\r\n" ++
          "Content-Length: 8297\r\nConnection: close\r\n\r\n").toList := by
    simp only [requestHeaders, hlen]
    rfl
  have hhl : (requestHeaders
      (json_request default_llm_config (List.replicate 4095 '"'))).length = 153 := by
    rw [hhdr]; rfl
  refine ⟨hlen, hhdr, ?_, ?_⟩
  · simp only [http_request]
    rw [List.take_append_eq_append_take, List.take_of_length_le (by omega), hhl]
  · rw [List.length_take, hlen]
    decide

theorem validJsonString_cons_plain (c : Char) (l : List Char) (h1 : c ≠ '\\') (h2 : c ≠ '"')
    (h3 : 32 ≤ c.toNat) : validJsonString (c :: l) = validJsonString l := by
  cases l with
  | nil => simp [validJsonString, h1, h2, h3]
  | cons d rest => simp [validJsonString, h1, h2, h3]

/-- What the escaping does achieve: a prompt without control characters becomes a well
formed JSON string body. -/
theorem validJsonString_escapeSpec (p : List Char) (h : ∀ c ∈ p, 32 ≤ c.toNat) :
    validJsonString (escapeSpec p) = true := by
  induction p with
  | nil => simp [escapeSpec, validJsonString]
  | cons c cs ih =>
    have ih2 := ih (fun x hx => h x (List.mem_cons_of_mem _ hx))
    by_cases hs : c = '"' ∨ c = '\\'
    · rw [escapeSpec_cons_special c cs hs]
      rcases hs with rfl | rfl <;> simp [validJsonString, isJsonEscape, ih2]
    · rw [escapeSpec_cons_plain c cs hs,
        validJsonString_cons_plain c _ (fun e => hs (Or.inr e)) (fun e => hs (Or.inl e))
          (h c (by simp)), ih2]

/-- C14. A prompt with a tab in it: the escaping leaves it as it is, so the value of the
member "prompt" in the request body holds a raw control character and is not a well formed
JSON string literal. -/
theorem control_character_not_escaped :
    escaped_prompt "a\tb".toList = "a\tb".toList ∧
    validJsonString (escaped_prompt "a\tb".toList) = false ∧
    json_request default_llm_config "a\tb".toList
      = ("\x7b\"model\":\"llama3\",\"prompt\":\"a\tb\",\"stream\":true,\"temperature\":0.70," ++
          "\"max_tokens\":512,\"options\":\x7b\"num_ctx\":2048\x7d\x7d").toList := by
  decide

theorem sendLoop_accepts_exact (message : List Char) (r : WriteResult)
    (rs : List WriteResult) (total : Nat) (written : List Char)
    (h : total < message.length) (hlen : message.length < 2 ^ 31) (hr : 0 < r.ret) :
    sendLoop message (r :: rs) total written
      = sendLoop message rs
          (total + (min r.ret ((message.length - total : Nat) : Int)).toNat)
          (written ++ (message.drop total).take
            (min r.ret ((message.length - total : Nat) : Int)).toNat) := by
  have hb : ¬ min r.ret ((message.length - total : Nat) : Int) ≤ 0 := by omega
  have hmod : (total + (min r.ret ((message.length - total : Nat) : Int)).toNat) % 2 ^ 64
      = total + (min r.ret ((message.length - total : Nat) : Int)).toNat := by
    apply Nat.mod_eq_of_lt
    have : total + (min r.ret ((message.length - total : Nat) : Int)).toNat
        ≤ message.length := by omega
    omega
  simp only [sendLoop, h, if_true, hb, if_false, hmod]

/-- A first write of `k` bytes followed by a write that takes the rest sends everything. -/
theorem send_message_two_writes (message : List Char) (k : Nat) (hk : 0 < k)
    (hlt : k < message.length) (hlen : message.length < 2 ^ 31) :
    send_message message [⟨k, false⟩, ⟨message.length, false⟩]
      = some ⟨message.length, message⟩ := by
  have h1 : (min ((k : Nat) : Int) ((message.length - 0 : Nat) : Int)).toNat = k := by omega
  have h2 : (min ((message.length : Nat) : Int) ((message.length - k : Nat) : Int)).toNat
      = message.length - k := by omega
  unfold send_message
  rw [sendLoop_accepts_exact message ⟨k, false⟩ _ 0 [] (by omega) hlen
    (by show (0 : Int) < (k : Int); omega)]
  simp only [h1, Nat.zero_add, List.drop_zero, List.nil_append]
  rw [sendLoop_accepts_exact message ⟨message.length, false⟩ _ k _ hlt hlen
    (by show (0 : Int) < (message.length : Int); omega)]
  simp only [h2]
  rw [sendLoop_done _ _ _ _ (by omega)]
  have e1 : k + (message.length - k) = message.length := by omega
  have e2 : List.take k message ++ List.take (message.length - k) (List.drop k message)
      = message := by
    rw [← List.take_add, e1, List.take_length]
  rw [e1, e2, toInt32_of_small _ hlen]

/-- An interrupted first write followed by a write that takes everything sends everything. -/
theorem send_message_retries (message : List Char) (hpos : 0 < message.length)
    (hlen : message.length < 2 ^ 31) :
    send_message message [⟨-1, true⟩, ⟨message.length, false⟩]
      = some ⟨message.length, message⟩ := by
  have h2 : (min ((message.length : Nat) : Int) ((message.length - 0 : Nat) : Int)).toNat
      = message.length := by omega
  unfold send_message
  rw [sendLoop_interrupted message ⟨-1, true⟩ _ 0 [] hpos (by decide)]
  rw [sendLoop_accepts_exact message ⟨message.length, false⟩ _ 0 [] hpos hlen
    (by show (0 : Int) < (message.length : Int); omega)]
  simp only [h2, Nat.zero_add, List.drop_zero, List.nil_append, List.take_length]
  rw [sendLoop_done _ _ _ _ (by omega), toInt32_of_small _ hlen]

/-- C11. The request goes out through one call of `send` whose result is only tested for
being negative: when that call accepts `k` bytes of a longer request, the function carries
on and the upstream has the first `k` bytes only, and when it is interrupted the function
gives up; `send_message`, given the same first result, writes the rest or retries and ends
with the whole request sent. -/
theorem request_sent_by_single_write (request : List Char) (k : Nat)
    (hk : 0 < k) (hlt : k < request.length) (hlen : request.length < 2 ^ 31) :
    sendRequest request ⟨k, false⟩ = some (request.take k) ∧
    request.take k ≠ request ∧
    send_message request [⟨k, false⟩, ⟨request.length, false⟩]
      = some ⟨request.length, request⟩ ∧
    sendRequest request ⟨-1, true⟩ = none ∧
    send_message request [⟨-1, true⟩, ⟨request.length, false⟩]
      = some ⟨request.length, request⟩ := by
  refine ⟨?_, take_ne_of_lt request k hlt, send_message_two_writes request k hk hlt hlen,
    ?_, send_message_retries request (by omega) hlen⟩
  · have hmin : min (k : Int) (request.length : Int) = k := by omega
    have hnn : ¬ (k : Int) < 0 := by omega
    simp only [sendRequest, hmin, hnn, if_false, Int.toNat_ofNat]
  · have hmin : min (-1 : Int) (request.length : Int) = -1 := by omega
    simp [sendRequest, hmin]

set_option maxRecDepth 20000 in
/-- C11 on the request for the prompt "hi": the first call of `send` takes 100 of its 261
bytes. The function does not report a send failure and goes on to wait for an answer. -/
theorem request_sent_by_single_write_witness :
    (http_request default_llm_config "hi".toList).length = 261 ∧
    sendRequest (http_request default_llm_config "hi".toList) ⟨100, false⟩
      = some ((http_request default_llm_config "hi".toList).take 100) ∧
    (http_request default_llm_config "hi".toList).take 100
      ≠ http_request default_llm_config "hi".toList ∧
    llm_generate_response true (some "hi".toList) ⟨3, true, 0, 100, [⟨30, .selectTimeout⟩]⟩
      = some noValidResponse := by
  have hl : (http_request default_llm_config "hi".toList).length = 261 := by rfl
  have h := request_sent_by_single_write (http_request default_llm_config "hi".toList) 100
    (by decide) (by rw [hl]; decide) (by rw [hl]; decide)
  exact ⟨hl, h.1, h.2.1, by decide⟩

/-! ## The decoder, line by line -/

theorem splitOn_newline_first (s t : List Char) (hs : '\n' ∉ s) :
    (s ++ '\n' :: t).splitOn '\n' = s :: t.splitOn '\n' := by
  unfold List.splitOn
  have hno : ∀ x ∈ s, ¬ (x == '\n') = true := by
    intro x hx
    have : x ≠ '\n' := fun e => hs (e ▸ hx)
    simpa using this
  exact List.splitOnP_first (fun x => x == '\n') s hno '\n' (by simp) t

theorem splitOn_no_newline (l : List Char) (h : '\n' ∉ l) : l.splitOn '\n' = [l] := by
  unfold List.splitOn
  have hno : ∀ x ∈ l, ¬ (x == '\n') = true := by
    intro x hx
    have : x ≠ '\n' := fun e => h (e ▸ hx)
    simpa using this
  exact List.splitOnP_eq_single (fun x => x == '\n') l hno

/-- The decoding loop is a fold of `processLine` over the lines of the payload. -/
theorem decodeLoop_lines (n : Nat) (l : List Char) (st : DecodeState) (fuel : Nat)
    (hn : l.length ≤ n) (hf : l.length < fuel) :
    decodeLoop fuel (some l) st
      = (l.splitOn '\n').foldl (fun s ln => processLine ln s) st := by
  induction n generalizing l st fuel with
  | zero =>
    have : l = [] := List.length_eq_zero.mp (Nat.le_zero.mp hn)
    subst this
    rw [decodeLoop_nil]
    simp [List.splitOn_nil, processLine]
  | succ m ih =>
    cases l with
    | nil =>
      rw [decodeLoop_nil]
      simp [List.splitOn_nil, processLine]
    | cons c cs =>
      obtain ⟨k, rfl⟩ : ∃ k, fuel = k + 1 := ⟨fuel - 1, by omega⟩
      by_cases hnl : '\n' ∈ c :: cs
      · obtain ⟨s, t, hst, hs⟩ := exists_first '\n' (c :: cs) hnl
        have hsplit : splitLine (c :: cs) = (s, some t) := by
          rw [hst]; exact splitLine_newline s t hs
        have hlen : t.length < (c :: cs).length := by
          rw [hst]; simp; omega
        simp only [decodeLoop, hsplit]
        rw [ih t _ k (by omega) (by omega), hst, splitOn_newline_first s t hs]
        rfl
      · have hsplit : splitLine (c :: cs) = (c :: cs, none) := splitLine_last _ hnl
        simp only [decodeLoop, hsplit, decodeLoop_none]
        rw [splitOn_no_newline _ hnl]
        rfl

theorem processLine_eq (line : List Char) (st : DecodeState) :
    processLine line st
      = match lineFragment line with
        | some frag => appendFragment frag st
        | none => st := by
  cases line with
  | nil => simp [processLine, lineFragment]
  | cons c cs =>
    by_cases hc : c = '{'
    · subst hc
      have hx : isChunkSizeLine ('{' :: cs) = false := by
        have : isxdigit '{' = false := by decide
        simp [isChunkSizeLine, this]
      simp only [processLine, List.isEmpty_cons, Bool.false_eq_true, if_false, hx,
        List.head?_cons, beq_self_eq_true, if_true, lineFragment, extractFragment]
      cases h1 : strstr ('{' :: cs) responseMarker with
      | none => rfl
      | some found =>
        cases h2 : strstr (found.drop 12) ['"'] with
        | none => simp [h2]
        | some content_end =>
          have hl : ((found.drop 12).take
              ((found.drop 12).length - content_end.length)).length
              = (found.drop 12).length - content_end.length := by
            rw [List.length_take]
            omega
          simp only [h2, appendFragment, hl]
    · have hh : ((c :: cs).head? == some '{') = false := by
        simpa using hc
      have hf : lineFragment (c :: cs) = none := by
        simp [lineFragment, hc]
      rw [hf]
      simp only [processLine, List.isEmpty_cons, Bool.false_eq_true, if_false, hh]
      split <;> rfl

theorem foldl_processLine (lines : List (List Char)) (st : DecodeState) :
    lines.foldl (fun s ln => processLine ln s) st
      = (lines.filterMap lineFragment).foldl (fun s f => appendFragment f s) st := by
  induction lines generalizing st with
  | nil => rfl
  | cons ln rest ih =>
    simp only [List.foldl_cons, List.filterMap_cons]
    rw [processLine_eq]
    cases h : lineFragment ln with
    | none => exact ih st
    | some f => simpa using ih (appendFragment f st)

theorem foldl_fragments (fs : List (List Char)) (st : DecodeState) :
    (fs.foldl (fun s f => appendFragment f s) st).full_response
        = st.full_response ++ fs.flatten ∧
    (fs.foldl (fun s f => appendFragment f s) st).full_response_len
        = st.full_response_len + fs.flatten.length ∧
    (fs.foldl (fun s f => appendFragment f s) st).found_valid_response
        = (st.found_valid_response || !fs.isEmpty) := by
  induction fs generalizing st with
  | nil => simp
  | cons f rest ih =>
    obtain ⟨h1, h2, h3⟩ := ih (appendFragment f st)
    simp only [List.foldl_cons, h1, h2, h3]
    simp [appendFragment, Nat.add_assoc]

/-- The choice of the returned string once the loop is known to append the fragments
`fs`: the diagnostic when they are all empty or there is none, their concatenation
otherwise. -/
theorem decodePayload_of_fold (payload : List Char) (fs : List (List Char))
    (h : decodeLoop (payload.length + 1) (some payload) DecodeState.init
      = fs.foldl (fun s f => appendFragment f s) DecodeState.init) :
    decodePayload payload = if fs.flatten = [] then noValidResponse else fs.flatten := by
  obtain ⟨h1, h2, h3⟩ := foldl_fragments fs DecodeState.init
  unfold decodePayload
  simp only [h, h1, h2, h3]
  by_cases hfl : fs.flatten = []
  · simp [hfl, DecodeState.init]
  · have hne : fs.isEmpty = false := by
      cases fs with
      | nil => simp at hfl
      | cons _ _ => rfl
    have hlen : fs.flatten.length ≠ 0 := fun e => hfl (List.length_eq_zero.mp e)
    have hcond : (DecodeState.init.full_response_len + fs.flatten.length == 0
        || !(DecodeState.init.found_valid_response || !fs.isEmpty)) = false := by
      have : (DecodeState.init.full_response_len + fs.flatten.length == 0) = false := by
        rw [beq_eq_false_iff_ne]
        simp only [DecodeState.init]
        omega
      rw [this, hne]
      rfl
    rw [hcond]
    simp [hfl, DecodeState.init]

theorem decodePayload_fragments (payload : List Char) :
    decodePayload payload
      = if (fragmentsOf payload).flatten = [] then noValidResponse
        else (fragmentsOf payload).flatten := by
  apply decodePayload_of_fold
  rw [decodeLoop_lines payload.length payload _ _ (Nat.le_refl _) (Nat.lt_succ_self _),
    foldl_processLine]
  rfl

/-- When the exchange is set up and the loop is left with a payload, the function returns
what the decoder makes of that payload. -/
theorem llm_generate_response_finished (prompt : List Char) (up : Upstream)
    (payload : List Char) (hprompt : prompt ≠ []) (hsock : 0 ≤ up.socketRet)
    (hres : up.resolves = true) (hconn : 0 ≤ up.connectRet) (hsend : 0 ≤ up.sendRet)
    (hloop : receiveLoop RecvState.init up.ticks = some (.finished payload)) :
    llm_generate_response true (some prompt) up = some (decodePayload payload) := by
  have hlen : (prompt.length == 0) = false := by
    cases prompt with
    | nil => exact absurd rfl hprompt
    | cons a as => rfl
  unfold llm_generate_response
  simp only [Bool.not_true, Bool.false_eq_true, if_false, hlen, hres,
    Int.not_lt.mpr hsock, Int.not_lt.mpr hconn, Int.not_lt.mpr hsend, hloop]

/-- C16. On the line of the claim the extraction stops at the first double quote after
the marker, which is the escaped one: the fragment is `say \` and not `say \"hi\"`. -/
theorem escaped_quote_ends_fragment :
    lineFragment "\x7b\"response\":\"say \\\"hi\\\"\",\"done\":false\x7d".toList
      = some "say \\".toList ∧
    decodePayload "\x7b\"response\":\"say \\\"hi\\\"\",\"done\":false\x7d\n".toList
      = "say \\".toList ∧
    decodePayload "\x7b\"response\":\"say \\\"hi\\\"\",\"done\":false\x7d\n".toList
      ≠ "say \\\"hi\\\"".toList := by
  decide

theorem decodePayload_stream (frs : List (List Char × Bool)) (term : Bool)
    (hclean : ∀ fd ∈ frs, '"' ∉ fd.1 ∧ '\n' ∉ fd.1) :
    decodePayload (ndjson frs term)
      = if (frs.map Prod.fst).flatten = [] then noValidResponse
        else (frs.map Prod.fst).flatten := by
  apply decodePayload_of_fold
  rw [decodeLoop_ndjson frs term hclean _ (Nat.le_succ_of_le (length_le_ndjson frs term)),
    List.foldl_map]

/-- C17 as stated fails: the first line carries done:true, and the fragment of the line
after it is still part of the answer. -/
theorem fragment_after_done_kept :
    ndjson [("a".toList, true), ("b".toList, false)] true
      = ("\x7b\"response\":\"a\",\"done\":true\x7d\n" ++
          "\x7b\"response\":\"b\",\"done\":false\x7d\n").toList ∧
    decodePayload (ndjson [("a".toList, true), ("b".toList, false)] true) = "ab".toList := by
  decide

/-- C17, amended. The answer is the concatenation of the fragments of all lines in arrival
order and does not depend on the done flags: for a stream of lines
`\x7b"response":"f","done":b\x7d` whose fragments are free of double quotes and newlines and not
all empty, a line carrying done:true does not end the decoding, and the fragments of the
lines after it are part of the answer. -/
theorem done_flag_ignored (frs : List (List Char × Bool)) (term : Bool)
    (hclean : ∀ fd ∈ frs, '"' ∉ fd.1 ∧ '\n' ∉ fd.1)
    (hsome : ∃ fd ∈ frs, fd.1 ≠ []) :
    decodePayload (ndjson frs term)
      = decodePayload (ndjson (frs.map (fun fd => (fd.1, false))) term) ∧
    (∀ pre f post, frs = pre ++ (f, true) :: post →
      decodePayload (ndjson frs term)
        = (pre.map Prod.fst).flatten ++ f ++ (post.map Prod.fst).flatten) := by
  have hne : (frs.map Prod.fst).flatten ≠ [] := by
    obtain ⟨fd, hfd, hn⟩ := hsome
    intro hj
    rw [List.flatten_eq_nil_iff] at hj
    exact hn (hj fd.1 (List.mem_map_of_mem _ hfd))
  have hall : decodePayload (ndjson frs term) = (frs.map Prod.fst).flatten := by
    rw [decodePayload_stream frs term hclean, if_neg hne]
  constructor
  · have hclean2 : ∀ fd ∈ frs.map (fun fd => (fd.1, false)), '"' ∉ fd.1 ∧ '\n' ∉ fd.1 := by
      intro fd hfd
      obtain ⟨x, hx, rfl⟩ := List.mem_map.mp hfd
      exact hclean x hx
    have hmap : (frs.map (fun fd => (fd.1, false))).map Prod.fst = frs.map Prod.fst := by
      simp [List.map_map, Function.comp_def]
    rw [hall, decodePayload_stream _ term hclean2, hmap, if_neg hne]
  · intro pre f post hsplit
    rw [hall, hsplit]
    simp

/-- C17, amended, on a stream whose second line carries done:true: the fragment of the
third line is part of the answer. -/
theorem done_flag_ignored_witness :
    decodePayload (ndjson [("Hel".toList, false), ("lo".toList, true),
        (" there".toList, false)] true)
      = "Hello there".toList ∧
    decodePayload (ndjson [("Hel".toList, false), ("lo".toList, true),
        (" there".toList, false)] true)
      = decodePayload (ndjson [("Hel".toList, false), ("lo".toList, false),
        (" there".toList, false)] true) := by
  have h := done_flag_ignored
    [("Hel".toList, false), ("lo".toList, true), (" there".toList, false)] true
    (by decide) (by decide)
  exact ⟨by rw [h.2 [("Hel".toList, false)] "lo".toList [(" there".toList, false)] rfl]; rfl,
    h.1⟩

/-- C18 as stated fails: from the one-line payload an empty fragment is extracted, and the
function returns the diagnostic string. -/
theorem empty_fragment_gives_diagnostic :
    fragmentsOf "\x7b\"response\":\"\",\"done\":true\x7d\n".toList = [[]] ∧
    llm_generate_response true (some "hi".toList)
        ⟨3, true, 0, 261,
          [⟨0, .data "HTTP/1.1 200 OK\r\n\r\n\x7b\"response\":\"\",\"done\":true\x7d\n".toList⟩,
           ⟨1, .closed⟩]⟩
      = some noValidResponse := by
  decide

/-- C18, amended. When the exchange is set up and the loop is left with a payload, the
function returns exactly the concatenation of the fragments extracted from the lines of
the payload if that concatenation is not empty, and the diagnostic string if no fragment
was extracted or every extracted fragment is empty. -/
theorem answer_is_fragments (prompt : List Char) (up : Upstream) (payload : List Char)
    (hprompt : prompt ≠ []) (hsock : 0 ≤ up.socketRet) (hres : up.resolves = true)
    (hconn : 0 ≤ up.connectRet) (hsend : 0 ≤ up.sendRet)
    (hloop : receiveLoop RecvState.init up.ticks = some (.finished payload)) :
    ((∃ f ∈ fragmentsOf payload, f ≠ []) →
      llm_generate_response true (some prompt) up
        = some (fragmentsOf payload).flatten) ∧
    ((∀ f ∈ fragmentsOf payload, f = []) →
      llm_generate_response true (some prompt) up = some noValidResponse) := by
  rw [llm_generate_response_finished prompt up payload hprompt hsock hres hconn hsend hloop,
    decodePayload_fragments]
  constructor
  · rintro ⟨f, hf, hn⟩
    have hne : (fragmentsOf payload).flatten ≠ [] := by
      intro hj
      rw [List.flatten_eq_nil_iff] at hj
      exact hn (hj f hf)
    rw [if_neg hne]
  · intro hall
    have he : (fragmentsOf payload).flatten = [] := by
      rw [List.flatten_eq_nil_iff]
      exact hall
    rw [if_pos he]

/-- C18, amended, on a reply with a chunk marker, two JSON lines and an empty last
fragment: the answer is the two non-empty fragments joined. -/
theorem answer_is_fragments_witness :
    fragmentsOf ("1f\r\n\x7b\"model\":\"llama3\",\"response\":\"Hi\",\"done\":false\x7d\n" ++
        "\x7b\"response\":\" you\"\x7d\n\x7b\"response\":\"\",\"done\":true\x7d\n").toList
      = ["Hi".toList, " you".toList, []] ∧
    llm_generate_response true (some "hi".toList)
        ⟨3, true, 0, 261,
          [⟨0, .data ("HTTP/1.1 200 OK\r\n\r\n1f\r\n" ++
              "\x7b\"model\":\"llama3\",\"response\":\"Hi\",\"done\":false\x7d\n").toList⟩,
           ⟨1, .data "\x7b\"response\":\" you\"\x7d\n\x7b\"response\":\"\",\"done\":true\x7d\n".toList⟩,
           ⟨1, .closed⟩]⟩
      = some "Hi you".toList := by
  have h := (answer_is_fragments "hi".toList
    ⟨3, true, 0, 261,
      [⟨0, .data ("HTTP/1.1 200 OK\r\n\r\n1f\r\n" ++
          "\x7b\"model\":\"llama3\",\"response\":\"Hi\",\"done\":false\x7d\n").toList⟩,
       ⟨1, .data "\x7b\"response\":\" you\"\x7d\n\x7b\"response\":\"\",\"done\":true\x7d\n".toList⟩,
       ⟨1, .closed⟩]⟩
    ("1f\r\n\x7b\"model\":\"llama3\",\"response\":\"Hi\",\"done\":false\x7d\n" ++
        "\x7b\"response\":\" you\"\x7d\n\x7b\"response\":\"\",\"done\":true\x7d\n").toList
    (by decide) (by decide) rfl (by decide) (by decide) (by decide)).1
    ⟨"Hi".toList, by decide, by decide⟩
  exact ⟨by decide, by rw [h]; decide⟩

/-! ## Facts about the connection table -/

theorem activeAt_nil (slot : Nat) : activeAt [] slot = false := by
  simp [activeAt]

theorem activeAt_zero (c : client_connection_t) (rest : List client_connection_t) :
    activeAt (c :: rest) 0 = c.active := by
  simp [activeAt]

theorem activeAt_succ (c : client_connection_t) (rest : List client_connection_t)
    (slot : Nat) : activeAt (c :: rest) (slot + 1) = activeAt rest slot := by
  simp [activeAt]

theorem length_assignSlot (cs : List client_connection_t) (slot : Nat) (sock : Int) :
    (assignSlot cs slot sock).length = cs.length := by
  induction cs generalizing slot with
  | nil => rfl
  | cons c rest ih => cases slot <;> simp [assignSlot, ih]

theorem length_clearSlot (cs : List client_connection_t) (slot : Nat) :
    (clearSlot cs slot).length = cs.length := by
  induction cs generalizing slot with
  | nil => rfl
  | cons c rest ih => cases slot <;> simp [clearSlot, ih]

theorem countActive_le_length (cs : List client_connection_t) :
    countActive cs ≤ cs.length := by
  induction cs with
  | nil => simp [countActive]
  | cons c rest ih =>
    simp only [countActive, List.length_cons]
    split <;> omega

/-- The scan returns the lowest index, counted from `i`, whose entry is not active. -/
theorem findFreeSlot_some (cs : List client_connection_t) (i j : Nat)
    (h : findFreeSlot cs i = some j) :
    i ≤ j ∧ j - i < cs.length ∧ activeAt cs (j - i) = false ∧
      ∀ m, m < j - i → activeAt cs m = true := by
  induction cs generalizing i with
  | nil => simp [findFreeSlot] at h
  | cons c rest ih =>
    by_cases hc : c.active = true
    · simp only [findFreeSlot, hc, Bool.not_true, Bool.false_eq_true, if_false] at h
      obtain ⟨h1, h2, h3, h4⟩ := ih (i + 1) h
      have hji : j - i = (j - (i + 1)) + 1 := by omega
      refine ⟨by omega, by simp only [List.length_cons]; omega, ?_, ?_⟩
      · rw [hji, activeAt_succ]; exact h3
      · intro m hm
        cases m with
        | zero => rw [activeAt_zero]; exact hc
        | succ m2 => rw [activeAt_succ]; exact h4 m2 (by omega)
    · have hf : c.active = false := by simpa using hc
      simp only [findFreeSlot, hf, Bool.not_false, if_true, Option.some.injEq] at h
      subst h
      refine ⟨Nat.le_refl _, by simp, ?_, ?_⟩
      · rw [Nat.sub_self, activeAt_zero]; exact hf
      · intro m hm
        omega

theorem findFreeSlot_none (cs : List client_connection_t) (i : Nat)
    (h : ∀ c ∈ cs, c.active = true) : findFreeSlot cs i = none := by
  induction cs generalizing i with
  | nil => rfl
  | cons c rest ih =>
    simp only [findFreeSlot, h c (by simp), Bool.not_true, Bool.false_eq_true, if_false]
    exact ih (i + 1) (fun x hx => h x (List.mem_cons_of_mem _ hx))

theorem countActive_assign (cs : List client_connection_t) (slot : Nat) (sock : Int)
    (hlt : slot < cs.length) (h : activeAt cs slot = false) :
    countActive (assignSlot cs slot sock) = countActive cs + 1 := by
  induction cs generalizing slot with
  | nil => simp at hlt
  | cons c rest ih =>
    cases slot with
    | zero =>
      rw [activeAt_zero] at h
      simp [assignSlot, countActive, h]
      omega
    | succ k =>
      rw [activeAt_succ] at h
      simp only [assignSlot, countActive]
      rw [ih k (by simpa using hlt) h]
      omega

theorem countActive_clear (cs : List client_connection_t) (slot : Nat)
    (h : activeAt cs slot = true) :
    countActive (clearSlot cs slot) + 1 = countActive cs := by
  induction cs generalizing slot with
  | nil => simp [activeAt_nil] at h
  | cons c rest ih =>
    cases slot with
    | zero =>
      rw [activeAt_zero] at h
      simp [clearSlot, countActive, h]
      omega
    | succ k =>
      rw [activeAt_succ] at h
      simp only [clearSlot, countActive]
      have := ih k h
      omega

theorem activeAt_assign (cs : List client_connection_t) (slot : Nat) (sock : Int)
    (hlt : slot < cs.length) : activeAt (assignSlot cs slot sock) slot = true := by
  induction cs generalizing slot with
  | nil => simp at hlt
  | cons c rest ih =>
    cases slot with
    | zero => simp [assignSlot, activeAt_zero]
    | succ k =>
      simp only [assignSlot, activeAt_succ]
      exact ih k (by simpa using hlt)

theorem activeAt_clear (cs : List client_connection_t) (slot : Nat) :
    activeAt (clearSlot cs slot) slot = false := by
  induction cs generalizing slot with
  | nil => simp [clearSlot, activeAt_nil]
  | cons c rest ih =>
    cases slot with
    | zero => simp [clearSlot, activeAt_zero]
    | succ k =>
      simp only [clearSlot, activeAt_succ]
      exact ih k

theorem clearSlot_other (cs : List client_connection_t) (slot other : Nat)
    (h : other ≠ slot) : (clearSlot cs slot)[other]? = cs[other]? := by
  induction cs generalizing slot other with
  | nil => simp [clearSlot]
  | cons c rest ih =>
    cases slot with
    | zero =>
      cases other with
      | zero => exact absurd rfl h
      | succ j => simp [clearSlot]
    | succ k =>
      cases other with
      | zero => simp [clearSlot]
      | succ j =>
        simp only [clearSlot, List.getElem?_cons_succ]
        exact ih k j (by omega)

theorem clearSlot_socket (cs : List client_connection_t) (slot : Nat) :
    ((clearSlot cs slot)[slot]?).map (fun c => c.client_socket)
      = (cs[slot]?).map (fun c => c.client_socket) := by
  induction cs generalizing slot with
  | nil => simp [clearSlot]
  | cons c rest ih =>
    cases slot with
    | zero => simp [clearSlot]
    | succ k =>
      simp only [clearSlot, List.getElem?_cons_succ]
      exact ih k

theorem tableOk_accept (n : Nat) (hmax : n < 2 ^ 31) (t : ServerTable) (sock : Int)
    (ok : Bool) (h : tableOk n t) : tableOk n (acceptConnection t sock ok).table := by
  obtain ⟨hc, hl⟩ := h
  have hle := countActive_le_length t.clients
  unfold acceptConnection
  cases hf : findFreeSlot t.clients 0 with
  | none => exact ⟨hc, hl⟩
  | some slot =>
    obtain ⟨_, h2, h3, _⟩ := findFreeSlot_some t.clients 0 slot hf
    simp only [Nat.sub_zero] at h2 h3
    have hcnt := countActive_assign t.clients slot sock h2 h3
    have hle2 := countActive_le_length (assignSlot t.clients slot sock)
    rw [length_assignSlot] at hle2
    have h1 : toInt32 (t.client_count + 1) = ((countActive t.clients + 1 : Nat) : Int) := by
      rw [hc]
      have := toInt32_of_small (countActive t.clients + 1) (by omega)
      simpa using this
    cases ok with
    | true =>
      simp only [if_true]
      exact ⟨by simp only [h1, hcnt], by simp only [length_assignSlot, hl]⟩
    | false =>
      simp only [Bool.false_eq_true, if_false]
      have hclr := countActive_clear (assignSlot t.clients slot sock) slot
        (activeAt_assign t.clients slot sock h2)
      refine ⟨?_, by simp only [length_clearSlot, length_assignSlot, hl]⟩
      simp only [h1]
      have h5 : ((countActive t.clients + 1 : Nat) : Int) - 1
          = ((countActive t.clients : Nat) : Int) := by omega
      rw [h5, toInt32_of_small _ (by omega)]
      have : countActive (clearSlot (assignSlot t.clients slot sock) slot)
          = countActive t.clients := by omega
      rw [this]

theorem tableOk_exit (n : Nat) (hmax : n < 2 ^ 31) (t : ServerTable) (slot : Nat)
    (h : tableOk n t) (hact : activeAt t.clients slot = true) :
    tableOk n (workerExit t slot) ∧
      (workerExit t slot).client_count = t.client_count - 1 := by
  obtain ⟨hc, hl⟩ := h
  have hle := countActive_le_length t.clients
  have hclr := countActive_clear t.clients slot hact
  have h5 : t.client_count - 1 = ((countActive (clearSlot t.clients slot) : Nat) : Int) := by
    rw [hc]; omega
  have h6 : toInt32 (t.client_count - 1) = t.client_count - 1 := by
    rw [h5]
    exact toInt32_of_small _ (by omega)
  refine ⟨⟨?_, by simp only [workerExit, length_clearSlot, hl]⟩, ?_⟩
  · show toInt32 (t.client_count - 1) = _
    rw [h6, h5]
    rfl
  · simp only [workerExit, h6]

theorem countActive_init (n : Nat) :
    countActive (List.replicate n { client_socket := 0, active := false }) = 0 := by
  induction n with
  | zero => rfl
  | succ k ih => simp [List.replicate_succ, countActive, ih]

theorem tableOk_reachable (n : Nat) (hmax : n < 2 ^ 31) (t : ServerTable)
    (h : Reachable n t) : tableOk n t := by
  induction h with
  | start => exact ⟨by simp [ServerTable.init, countActive_init], by simp [ServerTable.init]⟩
  | accept t sock ok _ ih => exact tableOk_accept n hmax t sock ok ih
  | exit t slot _ hact ih => exact (tableOk_exit n hmax t slot ih hact).1

/-- C19. In every state reachable from the empty table by accept steps (a worker spawned
in a free slot, a failed spawn, a full table) and exits of workers whose slot is active,
`client_count` is the number of entries whose active flag is set and lies between 0 and
`max_connections`, and the table still has `max_connections` entries; from such a state
the exit of the worker of an active slot lowers the count by exactly one, clears the flag
of that slot, keeps its socket field and leaves every other entry as it was. -/
theorem table_count_invariant (max_connections : Nat) (t : ServerTable)
    (hmax : max_connections < 2 ^ 31) (h : Reachable max_connections t) :
    t.client_count = (countActive t.clients : Int) ∧
    0 ≤ t.client_count ∧ t.client_count ≤ (max_connections : Int) ∧
    t.clients.length = max_connections ∧
    (∀ slot, activeAt t.clients slot = true →
      (workerExit t slot).client_count = t.client_count - 1 ∧
      activeAt (workerExit t slot).clients slot = false ∧
      ((workerExit t slot).clients[slot]?).map (fun c => c.client_socket)
        = (t.clients[slot]?).map (fun c => c.client_socket) ∧
      (∀ other, other ≠ slot → (workerExit t slot).clients[other]? = t.clients[other]?) ∧
      (workerExit t slot).client_count = (countActive (workerExit t slot).clients : Int)) := by
  have hok := tableOk_reachable max_connections hmax t h
  obtain ⟨hc, hl⟩ := hok
  have hle := countActive_le_length t.clients
  refine ⟨hc, by omega, by omega, hl, ?_⟩
  intro slot hact
  obtain ⟨hok2, hdec⟩ := tableOk_exit max_connections hmax t slot ⟨hc, hl⟩ hact
  exact ⟨hdec, activeAt_clear t.clients slot, clearSlot_socket t.clients slot,
    fun other ho => clearSlot_other t.clients slot other ho, hok2.1⟩

/-- C19 on a table of two slots: two connections are accepted, a third is turned away,
and the worker of slot 0 exits. -/
theorem table_count_invariant_witness :
    workerExit (acceptConnection (acceptConnection (acceptConnection
        (ServerTable.init 2) 5 true).table 6 true).table 7 true).table 0
      = ⟨[⟨5, false⟩, ⟨6, true⟩], 1⟩ ∧
    (workerExit (acceptConnection (acceptConnection (acceptConnection
        (ServerTable.init 2) 5 true).table 6 true).table 7 true).table 0).client_count
      = (countActive (workerExit (acceptConnection (acceptConnection (acceptConnection
        (ServerTable.init 2) 5 true).table 6 true).table 7 true).table 0).clients : Int) :=
  ⟨by decide,
    (table_count_invariant 2
      (workerExit (acceptConnection (acceptConnection (acceptConnection
        (ServerTable.init 2) 5 true).table 6 true).table 7 true).table 0)
      (by decide)
      (Reachable.exit _ 0
        (Reachable.accept _ 7 true
          (Reachable.accept _ 6 true
            (Reachable.accept _ 5 true Reachable.start)))
        (by decide))).1⟩

/-- C20. When every slot of the table is active, the accept step closes the new
connection, creates no worker, and returns the table as it was: every flag, every socket
field and `client_count` are unchanged. -/
theorem full_table_rejects (t : ServerTable) (client_socket : Int) (spawnOk : Bool)
    (hfull : ∀ c ∈ t.clients, c.active = true) :
    (acceptConnection t client_socket spawnOk).table = t ∧
    (acceptConnection t client_socket spawnOk).outcome = AcceptOutcome.rejected ∧
    (acceptConnection t client_socket spawnOk).closedNew = true := by
  simp [acceptConnection, findFreeSlot_none t.clients 0 hfull]

/-- C20 on a full table of two slots. -/
theorem full_table_rejects_witness :
    (acceptConnection ⟨[⟨5, true⟩, ⟨6, true⟩], 2⟩ 7 true).table
      = ⟨[⟨5, true⟩, ⟨6, true⟩], 2⟩ ∧
    (acceptConnection ⟨[⟨5, true⟩, ⟨6, true⟩], 2⟩ 7 true).outcome = AcceptOutcome.rejected ∧
    (acceptConnection ⟨[⟨5, true⟩, ⟨6, true⟩], 2⟩ 7 true).closedNew = true :=
  full_table_rejects ⟨[⟨5, true⟩, ⟨6, true⟩], 2⟩ 7 true (by decide)

/-! ## Slot assignment -/

theorem findFreeSlot_exists (cs : List client_connection_t) (i : Nat)
    (h : ∃ c ∈ cs, c.active = false) : ∃ j, findFreeSlot cs i = some j := by
  induction cs generalizing i with
  | nil => simp at h
  | cons c rest ih =>
    by_cases hc : c.active = true
    · simp only [findFreeSlot, hc, Bool.not_true, Bool.false_eq_true, if_false]
      apply ih
      obtain ⟨x, hx, hxa⟩ := h
      rcases List.mem_cons.mp hx with rfl | hx2
      · rw [hc] at hxa; cases hxa
      · exact ⟨x, hx2, hxa⟩
    · have hf : c.active = false := by simpa using hc
      exact ⟨i, by simp [findFreeSlot, hf]⟩

theorem getElem?_assignSlot (cs : List client_connection_t) (slot : Nat) (sock : Int)
    (hlt : slot < cs.length) : (assignSlot cs slot sock)[slot]? = some ⟨sock, true⟩ := by
  induction cs generalizing slot with
  | nil => simp at hlt
  | cons c rest ih =>
    cases slot with
    | zero => simp [assignSlot]
    | succ k =>
      simp only [assignSlot, List.getElem?_cons_succ]
      exact ih k (by simpa using hlt)

theorem activeAt_assign_keeps (cs : List client_connection_t) (slot s : Nat) (sock : Int)
    (h : activeAt cs s = true) : activeAt (assignSlot cs slot sock) s = true := by
  induction cs generalizing slot s with
  | nil => simp [activeAt_nil] at h
  | cons c rest ih =>
    cases slot with
    | zero =>
      cases s with
      | zero => simp [assignSlot, activeAt_zero]
      | succ j =>
        rw [activeAt_succ] at h
        simp only [assignSlot, activeAt_succ]
        exact h
    | succ k =>
      cases s with
      | zero =>
        rw [activeAt_zero] at h
        simp only [assignSlot, activeAt_zero]
        exact h
      | succ j =>
        rw [activeAt_succ] at h
        simp only [assignSlot, activeAt_succ]
        exact ih k j h

theorem activeAt_clear_other (cs : List client_connection_t) (slot s : Nat)
    (h : s ≠ slot) : activeAt (clearSlot cs slot) s = activeAt cs s := by
  simp only [activeAt, clearSlot_other cs slot s h]

/-- While the flag of slot `s` is set, an accept step leaves it set and does not pick `s`. -/
theorem accept_keeps_active (t : ServerTable) (sock : Int) (ok : Bool) (s : Nat)
    (h : activeAt t.clients s = true) :
    activeAt (acceptConnection t sock ok).table.clients s = true ∧
    (acceptConnection t sock ok).outcome ≠ AcceptOutcome.spawned s ∧
    (acceptConnection t sock ok).outcome ≠ AcceptOutcome.spawnFailed s := by
  unfold acceptConnection
  cases hf : findFreeSlot t.clients 0 with
  | none => exact ⟨h, by simp, by simp⟩
  | some slot =>
    obtain ⟨_, _, h3, _⟩ := findFreeSlot_some t.clients 0 slot hf
    simp only [Nat.sub_zero] at h3
    have hne : s ≠ slot := by
      rintro rfl
      rw [h] at h3
      cases h3
    have hne2 : slot ≠ s := fun e => hne e.symm
    cases ok with
    | true =>
      simp only [if_true]
      exact ⟨activeAt_assign_keeps _ _ _ _ h, by simpa using hne2, by simp⟩
    | false =>
      simp only [Bool.false_eq_true, if_false]
      refine ⟨?_, by simp, by simpa using hne2⟩
      rw [activeAt_clear_other _ _ _ hne]
      exact activeAt_assign_keeps _ _ _ _ h

theorem runTable_keeps_active (steps : List TableStep) (t : ServerTable) (s : Nat)
    (h : activeAt t.clients s = true) (hno : TableStep.exit s ∉ steps) :
    activeAt (runTable t steps).1.clients s = true ∧
    AcceptOutcome.spawned s ∉ (runTable t steps).2 ∧
    AcceptOutcome.spawnFailed s ∉ (runTable t steps).2 := by
  induction steps generalizing t with
  | nil => exact ⟨h, by simp [runTable], by simp [runTable]⟩
  | cons st rest ih =>
    have hno2 : TableStep.exit s ∉ rest := fun hm => hno (List.mem_cons_of_mem _ hm)
    cases st with
    | accept sock ok =>
      obtain ⟨a1, a2, a3⟩ := accept_keeps_active t sock ok s h
      obtain ⟨i1, i2, i3⟩ := ih (acceptConnection t sock ok).table a1 hno2
      simp only [runTable]
      refine ⟨i1, ?_, ?_⟩
      · intro hm
        rcases List.mem_cons.mp hm with e | e
        · exact a2 e.symm
        · exact i2 e
      · intro hm
        rcases List.mem_cons.mp hm with e | e
        · exact a3 e.symm
        · exact i3 e
    | exit slot =>
      have hne : s ≠ slot := by
        rintro rfl
        exact hno (by simp)
      simp only [runTable]
      apply ih _ _ hno2
      simp only [workerExit]
      rw [activeAt_clear_other _ _ _ hne]
      exact h

/-- C21. When some slot is free the accept step takes a slot, and the slot it takes is
the lowest index whose active flag is clear; on a successful spawn the slot holds the new
socket with its flag set. A slot whose flag is set is never taken: through any sequence of
accept steps and exits of other workers it stays set and is given to no new connection,
until the exit step of its own worker. -/
theorem accept_takes_lowest_free_slot (t : ServerTable) (client_socket : Int)
    (spawnOk : Bool) :
    ((∃ c ∈ t.clients, c.active = false) →
      ∃ slot, (acceptConnection t client_socket spawnOk).outcome = AcceptOutcome.spawned slot ∨
        (acceptConnection t client_socket spawnOk).outcome
          = AcceptOutcome.spawnFailed slot) ∧
    (∀ slot, ((acceptConnection t client_socket spawnOk).outcome = AcceptOutcome.spawned slot ∨
        (acceptConnection t client_socket spawnOk).outcome = AcceptOutcome.spawnFailed slot) →
      slot < t.clients.length ∧ activeAt t.clients slot = false ∧
        ∀ m, m < slot → activeAt t.clients m = true) ∧
    (∀ slot, (acceptConnection t client_socket spawnOk).outcome = AcceptOutcome.spawned slot →
      (acceptConnection t client_socket spawnOk).table.clients[slot]?
        = some ⟨client_socket, true⟩) ∧
    (∀ (s : Nat) (steps : List TableStep), activeAt t.clients s = true →
      TableStep.exit s ∉ steps →
      activeAt (runTable t steps).1.clients s = true ∧
      AcceptOutcome.spawned s ∉ (runTable t steps).2 ∧
      AcceptOutcome.spawnFailed s ∉ (runTable t steps).2) := by
  refine ⟨?_, ?_, ?_, fun s steps h hno => runTable_keeps_active steps t s h hno⟩
  · intro hfree
    obtain ⟨j, hj⟩ := findFreeSlot_exists t.clients 0 hfree
    refine ⟨j, ?_⟩
    unfold acceptConnection
    cases spawnOk <;> simp [hj]
  · intro slot hout
    unfold acceptConnection at hout
    cases hf : findFreeSlot t.clients 0 with
    | none => simp [hf] at hout
    | some j =>
      obtain ⟨_, h2, h3, h4⟩ := findFreeSlot_some t.clients 0 j hf
      simp only [Nat.sub_zero] at h2 h3 h4
      have hj : j = slot := by
        cases spawnOk <;> simpa [hf] using hout
      subst hj
      exact ⟨h2, h3, h4⟩
  · intro slot hout
    unfold acceptConnection at hout ⊢
    cases hf : findFreeSlot t.clients 0 with
    | none => simp [hf] at hout
    | some j =>
      obtain ⟨_, h2, _, _⟩ := findFreeSlot_some t.clients 0 j hf
      simp only [Nat.sub_zero] at h2
      cases spawnOk with
      | false => simp [hf] at hout
      | true =>
        have hj : j = slot := by simpa [hf] using hout
        subst hj
        simp only [if_true]
        exact getElem?_assignSlot t.clients j client_socket h2

/-- C21 on a table of three slots with slot 1 free: the new connection goes to slot 1, and
slot 0 is not given away while two more connections arrive and the worker of slot 2
exits. -/
theorem accept_takes_lowest_free_slot_witness :
    (acceptConnection ⟨[⟨5, true⟩, ⟨0, false⟩, ⟨6, true⟩], 2⟩ 7 true).outcome
      = AcceptOutcome.spawned 1 ∧
    (runTable ⟨[⟨5, true⟩, ⟨0, false⟩, ⟨6, true⟩], 2⟩
        [.accept 7 true, .exit 2, .accept 8 true, .accept 9 true]).2
      = [AcceptOutcome.spawned 1, AcceptOutcome.spawned 2, AcceptOutcome.rejected] ∧
    activeAt (runTable ⟨[⟨5, true⟩, ⟨0, false⟩, ⟨6, true⟩], 2⟩
        [.accept 7 true, .exit 2, .accept 8 true, .accept 9 true]).1.clients 0 = true := by
  have h := accept_takes_lowest_free_slot ⟨[⟨5, true⟩, ⟨0, false⟩, ⟨6, true⟩], 2⟩ 7 true
  exact ⟨by decide, by decide,
    (h.2.2.2 0 [.accept 7 true, .exit 2, .accept 8 true, .accept 9 true]
      (by decide) (by decide)).1⟩

/-! ## The receive loop: deadline, read errors, read boundaries -/

theorem stateAfter_nil (st : RecvState) : stateAfter st [] = st := rfl

theorem stateAfter_cons_quiet (st : RecvState) (t : Tick) (ts : List Tick)
    (h : t.event = .selectTimeout ∨ t.event = .recvAgain) :
    stateAfter st (t :: ts) = stateAfter st ts := by
  simp only [stateAfter, readsOf_cons_quiet t ts h]

theorem stateAfter_cons_data (st : RecvState) (t : Tick) (ts : List Tick) (b : List Char)
    (h : t.event = .data b) :
    stateAfter st (t :: ts) = stateAfter (absorbRead st b) ts := by
  simp only [stateAfter, readsOf_cons_data t ts b h, List.foldl_cons]

/-- Passes that keep the loop going only change the state, by their reads. -/
theorem receiveLoop_append (pre rest : List Tick) (st : RecvState)
    (hlive : ∀ t ∈ pre, t.carriesOn = true) :
    receiveLoop st (pre ++ rest) = receiveLoop (stateAfter st pre) rest := by
  induction pre generalizing st with
  | nil => rfl
  | cons t ts ih =>
    obtain ⟨hlt, hev⟩ := carriesOn_cases t (hlive t (by simp))
    have hlive2 : ∀ x ∈ ts, x.carriesOn = true :=
      fun x hx => hlive x (List.mem_cons_of_mem _ hx)
    rcases hev with hq | hq | ⟨b, hb, hdata⟩
    · rw [List.cons_append, receiveLoop_cons_quiet st t _ hlt (Or.inl hq),
        stateAfter_cons_quiet st t ts (Or.inl hq)]
      exact ih st hlive2
    · rw [List.cons_append, receiveLoop_cons_quiet st t _ hlt (Or.inr hq),
        stateAfter_cons_quiet st t ts (Or.inr hq)]
      exact ih st hlive2
    · rw [List.cons_append, receiveLoop_cons_data st t _ b hlt hb hdata,
        stateAfter_cons_data st t ts b hdata]
      exact ih _ hlive2

theorem receiveLoop_deadline (st : RecvState) (late : Tick) (more : List Tick)
    (h : 30 ≤ late.elapsed) :
    receiveLoop st (late :: more) = some (.finished st.response) := by
  have hlt : ¬ late.elapsed < 30 := by omega
  simp [receiveLoop, hlt]

theorem receiveLoop_read_error (st : RecvState) (bad : Tick) (more : List Tick)
    (hlt : bad.elapsed < 30) (h : bad.event = .recvError) :
    receiveLoop st (bad :: more) = some .failed := by
  simp [receiveLoop, hlt, h]

/-- The function depends on the passes of the loop only through what the loop makes of
them. -/
theorem llm_generate_response_congr (init : Bool) (prompt : Option (List Char))
    (s : Int) (r : Bool) (c sd : Int) (ticks1 ticks2 : List Tick)
    (h : receiveLoop RecvState.init ticks1 = receiveLoop RecvState.init ticks2) :
    llm_generate_response init prompt ⟨s, r, c, sd, ticks1⟩
      = llm_generate_response init prompt ⟨s, r, c, sd, ticks2⟩ := by
  simp only [llm_generate_response, h]

theorem llm_generate_response_failed (prompt : List Char) (up : Upstream)
    (hprompt : prompt ≠ []) (hsock : 0 ≤ up.socketRet)
    (hres : up.resolves = true) (hconn : 0 ≤ up.connectRet) (hsend : 0 ≤ up.sendRet)
    (hloop : receiveLoop RecvState.init up.ticks = some .failed) :
    llm_generate_response true (some prompt) up
      = some "Error: Failed to receive data from Ollama".toList := by
  have hlen : (prompt.length == 0) = false := by
    cases prompt with
    | nil => exact absurd rfl hprompt
    | cons a as => rfl
  unfold llm_generate_response
  simp only [Bool.not_true, Bool.false_eq_true, if_false, hlen, hres,
    Int.not_lt.mpr hsock, Int.not_lt.mpr hconn, Int.not_lt.mpr hsend, hloop]

/-- C22. Whatever timeouts and reads came before the deadline, at the first loop test
that finds 30 seconds or more elapsed the loop is left: what the socket would do in that
pass and in any later one plays no part, the payload is the one gathered before, and the
function returns the concatenation of the fragments of that payload, or the diagnostic
string when that concatenation is empty. An upstream that never closes and a stream
without done:true are among the cases covered. -/
theorem deadline_ends_exchange (prompt : List Char) (up : Upstream)
    (pre : List Tick) (late : Tick) (more : List Tick)
    (hprompt : prompt ≠ []) (hsock : 0 ≤ up.socketRet) (hres : up.resolves = true)
    (hconn : 0 ≤ up.connectRet) (hsend : 0 ≤ up.sendRet)
    (hticks : up.ticks = pre ++ late :: more)
    (hlive : ∀ t ∈ pre, t.carriesOn = true) (hlate : 30 ≤ late.elapsed) :
    receiveLoop RecvState.init up.ticks
      = some (.finished (stateAfter RecvState.init pre).response) ∧
    (∀ (other : Tick) (later : List Tick), 30 ≤ other.elapsed →
      receiveLoop RecvState.init (pre ++ other :: later)
        = receiveLoop RecvState.init up.ticks) ∧
    llm_generate_response true (some prompt) up
      = some (if (fragmentsOf (stateAfter RecvState.init pre).response).flatten = []
          then noValidResponse
          else (fragmentsOf (stateAfter RecvState.init pre).response).flatten) := by
  have hloop : receiveLoop RecvState.init up.ticks
      = some (.finished (stateAfter RecvState.init pre).response) := by
    rw [hticks, receiveLoop_append pre _ _ hlive, receiveLoop_deadline _ _ _ hlate]
  refine ⟨hloop, ?_, ?_⟩
  · intro other later ho
    rw [hloop, receiveLoop_append pre _ _ hlive, receiveLoop_deadline _ _ _ ho]
  · rw [llm_generate_response_finished prompt up _ hprompt hsock hres hconn hsend hloop,
      decodePayload_fragments]

/-- C22 on an upstream that sends one line without done:true and then neither closes nor
sends: at the loop test that reads 30 seconds the function returns the fragment, although
data is offered in that very pass. -/
theorem deadline_ends_exchange_witness :
    llm_generate_response true (some "hi".toList)
        ⟨3, true, 0, 261,
          [⟨0, .data "HTTP/1.1 200 OK\r\n\r\n\x7b\"response\":\"Hel\",\"done\":false\x7d\n".toList⟩,
           ⟨1, .selectTimeout⟩, ⟨29, .selectTimeout⟩,
           ⟨30, .data "\x7b\"response\":\"lo\",\"done\":true\x7d\n".toList⟩, ⟨31, .closed⟩]⟩
      = some "Hel".toList := by
  have h := (deadline_ends_exchange "hi".toList
    ⟨3, true, 0, 261,
      [⟨0, .data "HTTP/1.1 200 OK\r\n\r\n\x7b\"response\":\"Hel\",\"done\":false\x7d\n".toList⟩,
       ⟨1, .selectTimeout⟩, ⟨29, .selectTimeout⟩,
       ⟨30, .data "\x7b\"response\":\"lo\",\"done\":true\x7d\n".toList⟩, ⟨31, .closed⟩]⟩
    [⟨0, .data "HTTP/1.1 200 OK\r\n\r\n\x7b\"response\":\"Hel\",\"done\":false\x7d\n".toList⟩,
      ⟨1, .selectTimeout⟩, ⟨29, .selectTimeout⟩]
    ⟨30, .data "\x7b\"response\":\"lo\",\"done\":true\x7d\n".toList⟩ [⟨31, .closed⟩]
    (by decide) (by decide) rfl (by decide) (by decide) rfl (by decide) (by decide)).2.2
  rw [h]
  decide

/-- C23. A read that fails with an error other than the no-data-yet condition, before the
deadline, ends the exchange at once: whatever the earlier passes gathered is dropped and
the function returns its fixed receive-error string; a no-data-yet result leaves the state
of the loop as it is and the loop goes on with the next pass. -/
theorem read_error_aborts (prompt : List Char) (up : Upstream)
    (pre : List Tick) (bad : Tick) (more : List Tick)
    (hprompt : prompt ≠ []) (hsock : 0 ≤ up.socketRet) (hres : up.resolves = true)
    (hconn : 0 ≤ up.connectRet) (hsend : 0 ≤ up.sendRet)
    (hticks : up.ticks = pre ++ bad :: more)
    (hlive : ∀ t ∈ pre, t.carriesOn = true)
    (hbad : bad.elapsed < 30 ∧ bad.event = .recvError) :
    receiveLoop RecvState.init up.ticks = some .failed ∧
    llm_generate_response true (some prompt) up
      = some "Error: Failed to receive data from Ollama".toList ∧
    (∀ (st : RecvState) (again : Tick) (rest : List Tick), again.elapsed < 30 →
      again.event = .recvAgain →
      receiveLoop st (again :: rest) = receiveLoop st rest ∧
      stateAfter st [again] = st) := by
  have hloop : receiveLoop RecvState.init up.ticks = some .failed := by
    rw [hticks, receiveLoop_append pre _ _ hlive, receiveLoop_read_error _ _ _ hbad.1 hbad.2]
  refine ⟨hloop, llm_generate_response_failed prompt up hprompt hsock hres hconn hsend hloop,
    ?_⟩
  intro st again rest hlt hev
  exact ⟨receiveLoop_cons_quiet st again rest hlt (Or.inr hev),
    by rw [stateAfter_cons_quiet st again [] (Or.inr hev)]; rfl⟩

/-- C23 on an exchange that had already delivered a complete line: the read error that
follows makes the function return the error string, not the fragment. -/
theorem read_error_aborts_witness :
    llm_generate_response true (some "hi".toList)
        ⟨3, true, 0, 261,
          [⟨0, .data "HTTP/1.1 200 OK\r\n\r\n\x7b\"response\":\"Hel\",\"done\":false\x7d\n".toList⟩,
           ⟨1, .recvAgain⟩, ⟨2, .recvError⟩, ⟨3, .closed⟩]⟩
      = some "Error: Failed to receive data from Ollama".toList :=
  (read_error_aborts "hi".toList
    ⟨3, true, 0, 261,
      [⟨0, .data "HTTP/1.1 200 OK\r\n\r\n\x7b\"response\":\"Hel\",\"done\":false\x7d\n".toList⟩,
       ⟨1, .recvAgain⟩, ⟨2, .recvError⟩, ⟨3, .closed⟩]⟩
    [⟨0, .data "HTTP/1.1 200 OK\r\n\r\n\x7b\"response\":\"Hel\",\"done\":false\x7d\n".toList⟩,
      ⟨1, .recvAgain⟩]
    ⟨2, .recvError⟩ [⟨3, .closed⟩]
    (by decide) (by decide) rfl (by decide) (by decide) rfl (by decide)
    ⟨by decide, rfl⟩).2.1

/-- C28. Once the boundary has been consumed, two reads `a` and `b` (each of at least one
byte, without NUL) leave the loop in the same state as the single read `a ++ b`, so the
function returns the same answer however the bytes after the boundary are cut into
reads. -/
theorem read_boundaries_irrelevant (init : Bool) (prompt : Option (List Char))
    (s : Int) (r : Bool) (c sd : Int) (pre rest : List Tick) (a b : List Char)
    (e1 e2 : Int)
    (hlive : ∀ t ∈ pre, t.carriesOn = true)
    (hdone : (stateAfter RecvState.init pre).headers_done = true)
    (ha : a ≠ []) (hb : b ≠ []) (hna : NUL ∉ a) (hnb : NUL ∉ b)
    (h1 : e1 < 30) (h2 : e2 < 30) :
    absorbRead (absorbRead (stateAfter RecvState.init pre) a) b
      = absorbRead (stateAfter RecvState.init pre) (a ++ b) ∧
    receiveLoop RecvState.init (pre ++ ⟨e1, .data a⟩ :: ⟨e2, .data b⟩ :: rest)
      = receiveLoop RecvState.init (pre ++ ⟨e2, .data (a ++ b)⟩ :: rest) ∧
    llm_generate_response init prompt
        ⟨s, r, c, sd, pre ++ ⟨e1, .data a⟩ :: ⟨e2, .data b⟩ :: rest⟩
      = llm_generate_response init prompt
        ⟨s, r, c, sd, pre ++ ⟨e2, .data (a ++ b)⟩ :: rest⟩ := by
  have hab : NUL ∉ a ++ b := by
    intro hm
    rcases List.mem_append.mp hm with h | h
    · exact hna h
    · exact hnb h
  have hne : a ++ b ≠ [] := by simp [ha]
  have hstate : absorbRead (absorbRead (stateAfter RecvState.init pre) a) b
      = absorbRead (stateAfter RecvState.init pre) (a ++ b) := by
    rw [absorbRead_body _ a hdone hna, absorbRead_body _ b rfl hnb,
      absorbRead_body _ (a ++ b) hdone hab]
    simp [Nat.add_assoc]
  have hloop : receiveLoop RecvState.init (pre ++ ⟨e1, .data a⟩ :: ⟨e2, .data b⟩ :: rest)
      = receiveLoop RecvState.init (pre ++ ⟨e2, .data (a ++ b)⟩ :: rest) := by
    rw [receiveLoop_append pre _ _ hlive, receiveLoop_append pre _ _ hlive,
      receiveLoop_cons_data _ ⟨e1, .data a⟩ _ a h1 ha rfl,
      receiveLoop_cons_data _ ⟨e2, .data b⟩ _ b h2 hb rfl,
      receiveLoop_cons_data _ ⟨e2, .data (a ++ b)⟩ _ (a ++ b) h2 hne rfl, hstate]
  exact ⟨hstate, hloop, llm_generate_response_congr init prompt s r c sd _ _ hloop⟩

/-- C28 on a JSON line cut in the middle of its marker: read in two pieces it is decoded
as one line. -/
theorem read_boundaries_irrelevant_witness :
    llm_generate_response true (some "hi".toList)
        ⟨3, true, 0, 261,
          [⟨0, .data "HTTP/1.1 200 OK\r\n\r\n".toList⟩, ⟨1, .data "\x7b\"respo".toList⟩,
           ⟨2, .data "nse\":\"Hi\",\"done\":true\x7d\n".toList⟩, ⟨3, .closed⟩]⟩
      = some "Hi".toList ∧
    llm_generate_response true (some "hi".toList)
        ⟨3, true, 0, 261,
          [⟨0, .data "HTTP/1.1 200 OK\r\n\r\n".toList⟩, ⟨1, .data "\x7b\"respo".toList⟩,
           ⟨2, .data "nse\":\"Hi\",\"done\":true\x7d\n".toList⟩, ⟨3, .closed⟩]⟩
      = llm_generate_response true (some "hi".toList)
        ⟨3, true, 0, 261,
          [⟨0, .data "HTTP/1.1 200 OK\r\n\r\n".toList⟩,
           ⟨2, .data ("\x7b\"respo".toList ++ "nse\":\"Hi\",\"done\":true\x7d\n".toList)⟩,
           ⟨3, .closed⟩]⟩ :=
  ⟨by decide,
    (read_boundaries_irrelevant true (some "hi".toList) 3 true 0 261
      [⟨0, .data "HTTP/1.1 200 OK\r\n\r\n".toList⟩] [⟨3, .closed⟩]
      "\x7b\"respo".toList "nse\":\"Hi\",\"done\":true\x7d\n".toList 1 2
      (by decide) (by decide) (by decide) (by decide) (by decide) (by decide)
      (by decide) (by decide)).2.2⟩

/-! ## receive_message: flags and buffer -/

/-- C24. On every return path of `receive_message` the last change made to the
file-status flags of the socket writes back the value read at entry, so the flags at
return are the flags at entry; `O_NONBLOCK` is in force only while `select` and `recv`
run. -/
theorem receive_message_restores_flags (flags buffer_size : Nat) (o : SockOutcome) :
    (receive_message flags buffer_size o).flags = flags ∧
    flagsAfter flags (receive_message_calls flags buffer_size o) = flags ∧
    (receive_message_calls flags buffer_size o).getLast? = some (SysCall.setfl flags) ∧
    (∀ fl ∈ flagsWhilePolling flags (receive_message_calls flags buffer_size o),
      fl = flags ||| O_NONBLOCK) ∧
    (receive_message flags buffer_size o).pollFlags = flags ||| O_NONBLOCK := by
  refine ⟨receive_message_flags flags buffer_size o, ?_, ?_, ?_, ?_⟩
  · cases o <;> simp [receive_message_calls, flagsAfter]
  · cases o <;> simp [receive_message_calls]
  · cases o <;> simp [receive_message_calls, flagsWhilePolling]
  · unfold receive_message
    cases o with
    | recvError again => cases again <;> rfl
    | data q => simp only; split <;> rfl
    | _ => rfl

theorem receive_message_data_empty (flags buffer_size : Nat) (q : List Char)
    (hz : (q.take (buffer_size - 1)).length = 0) :
    receive_message flags buffer_size (.data q)
      = ⟨0, List.replicate buffer_size NUL, flags ||| O_NONBLOCK, flags⟩ := by
  show (if ((q.take (buffer_size - 1)).length == 0) = true then _ else _) = _
  rw [if_pos (by rw [hz]; rfl)]

theorem receive_message_data_some (flags buffer_size : Nat) (q : List Char)
    (hz : (q.take (buffer_size - 1)).length ≠ 0) :
    receive_message flags buffer_size (.data q)
      = ⟨((q.take (buffer_size - 1)).length : Int),
          q.take (buffer_size - 1)
            ++ List.replicate (buffer_size - (q.take (buffer_size - 1)).length) NUL,
          flags ||| O_NONBLOCK, flags⟩ := by
  show (if ((q.take (buffer_size - 1)).length == 0) = true then _ else _) = _
  rw [if_neg (by rw [beq_iff_eq]; exact hz)]

theorem receive_message_ret_range (flags buffer_size : Nat) (o : SockOutcome)
    (hpos : 1 ≤ buffer_size) :
    (receive_message flags buffer_size o).ret = -1 ∨
      (0 ≤ (receive_message flags buffer_size o).ret ∧
        (receive_message flags buffer_size o).ret ≤ (buffer_size : Int) - 1) := by
  cases o with
  | selectError => left; rfl
  | timeout => right; show (0 : Int) ≤ 0 ∧ (0 : Int) ≤ (buffer_size : Int) - 1; omega
  | peerClosed => right; show (0 : Int) ≤ 0 ∧ (0 : Int) ≤ (buffer_size : Int) - 1; omega
  | recvError again =>
    cases again
    · left; rfl
    · right; show (0 : Int) ≤ 0 ∧ (0 : Int) ≤ (buffer_size : Int) - 1; omega
  | data q =>
    right
    have hsmall : (q.take (buffer_size - 1)).length ≤ buffer_size - 1 := by
      rw [List.length_take]
      omega
    by_cases hz : (q.take (buffer_size - 1)).length = 0
    · rw [receive_message_data_empty flags buffer_size q hz]
      show (0 : Int) ≤ 0 ∧ (0 : Int) ≤ (buffer_size : Int) - 1
      omega
    · rw [receive_message_data_some flags buffer_size q hz]
      show (0 : Int) ≤ ((q.take (buffer_size - 1)).length : Int) ∧
        ((q.take (buffer_size - 1)).length : Int) ≤ (buffer_size : Int) - 1
      omega

/-- C29. For a buffer of at least one byte (and of a size an `int` can count), the value
returned is -1 or lies between 0 and `buffer_size - 1` and survives the cast to `int`; the
buffer keeps its size; when the value is positive the buffer holds that many received
bytes followed by NUL bytes up to its end, at least one of them; when it is not positive
the buffer is all NUL. With `BUFFER_SIZE` a message has at most 4095 bytes. -/
theorem receive_message_bounds (flags buffer_size : Nat) (o : SockOutcome)
    (hpos : 1 ≤ buffer_size) (hint : buffer_size ≤ 2 ^ 31) :
    ((receive_message flags buffer_size o).ret = -1 ∨
      (0 ≤ (receive_message flags buffer_size o).ret ∧
        (receive_message flags buffer_size o).ret ≤ (buffer_size : Int) - 1)) ∧
    toInt32 (receive_message flags buffer_size o).ret
      = (receive_message flags buffer_size o).ret ∧
    (receive_message flags buffer_size o).buffer.length = buffer_size ∧
    (0 < (receive_message flags buffer_size o).ret →
      ∃ queued got, o = .data queued ∧ got = queued.take (buffer_size - 1) ∧
        (receive_message flags buffer_size o).ret = got.length ∧
        got.length < buffer_size ∧
        (receive_message flags buffer_size o).buffer
          = got ++ List.replicate (buffer_size - got.length) NUL) ∧
    ((receive_message flags buffer_size o).ret ≤ 0 →
      (receive_message flags buffer_size o).buffer = List.replicate buffer_size NUL) ∧
    (receive_message flags BUFFER_SIZE o).ret ≤ 4095 := by
  have h4095 : (receive_message flags BUFFER_SIZE o).ret ≤ 4095 := by
    have h := receive_message_ret_range flags BUFFER_SIZE o (by decide)
    have e : ((BUFFER_SIZE : Nat) : Int) = 4096 := rfl
    rw [e] at h
    omega
  have hrange := receive_message_ret_range flags buffer_size o hpos
  have hcast : toInt32 (receive_message flags buffer_size o).ret
      = (receive_message flags buffer_size o).ret := by
    rcases hrange with h | ⟨h0, h1⟩
    · rw [h]; rfl
    · unfold toInt32
      omega
  refine ⟨hrange, hcast, ?_, ?_, ?_, h4095⟩
  · cases o with
    | recvError again => cases again <;> simp [receive_message]
    | data q =>
      have hsmall : (q.take (buffer_size - 1)).length ≤ buffer_size - 1 := by
        rw [List.length_take]
        omega
      by_cases hz : (q.take (buffer_size - 1)).length = 0
      · rw [receive_message_data_empty flags buffer_size q hz]
        exact List.length_replicate _ _
      · rw [receive_message_data_some flags buffer_size q hz]
        show (q.take (buffer_size - 1)
          ++ List.replicate (buffer_size - (q.take (buffer_size - 1)).length) NUL).length
            = buffer_size
        rw [List.length_append, List.length_replicate]
        omega
    | _ => simp [receive_message]
  · intro hr
    cases o with
    | recvError again => cases again <;> simp [receive_message] at hr
    | data q =>
      have hsmall : (q.take (buffer_size - 1)).length ≤ buffer_size - 1 := by
        rw [List.length_take]
        omega
      by_cases hz : (q.take (buffer_size - 1)).length = 0
      · rw [receive_message_data_empty flags buffer_size q hz] at hr
        exact absurd hr (lt_irrefl (0 : Int))
      · rw [receive_message_data_some flags buffer_size q hz]
        exact ⟨q, q.take (buffer_size - 1), rfl, rfl, rfl, by omega, rfl⟩
    | _ => simp [receive_message] at hr
  · intro hr
    cases o with
    | recvError again => cases again <;> rfl
    | data q =>
      by_cases hz : (q.take (buffer_size - 1)).length = 0
      · rw [receive_message_data_empty flags buffer_size q hz]
      · rw [receive_message_data_some flags buffer_size q hz] at hr
        have hr2 : ((q.take (buffer_size - 1)).length : Int) ≤ 0 := hr
        omega
    | _ => rfl

/-- C29 on a read of two queued bytes into the 4096-byte message buffer. -/
theorem receive_message_bounds_witness :
    1 ≤ BUFFER_SIZE ∧ BUFFER_SIZE ≤ 2 ^ 31 ∧
    ((receive_message 2 BUFFER_SIZE (.data "hi".toList)).ret = -1 ∨
      (0 ≤ (receive_message 2 BUFFER_SIZE (.data "hi".toList)).ret ∧
        (receive_message 2 BUFFER_SIZE (.data "hi".toList)).ret
          ≤ (BUFFER_SIZE : Int) - 1)) ∧
    (receive_message 2 BUFFER_SIZE (.data "hi".toList)).ret ≤ 4095 :=
  ⟨by decide, by decide,
    (receive_message_bounds 2 BUFFER_SIZE (.data "hi".toList) (by decide) (by decide)).1,
    (receive_message_bounds 2 BUFFER_SIZE (.data "hi".toList)
      (by decide) (by decide)).2.2.2.2.2⟩

/-! ## The client's receive loop -/

/-- C25. After four errors, a timeout and two more errors the client's loop reports the
connection as lost, although the last five receive results are -1, -1, 0, -1, -1: the
timeout lowers the counter by one and does not reset it. -/
theorem lost_with_timeout_among_last_five :
    receive_messages 0 errorsAroundTimeout = (ClientPhase.connectionLost, 5) ∧
    clientResults errorsAroundTimeout = [-1, -1, -1, -1, 0, -1, -1] ∧
    (clientResults errorsAroundTimeout).drop 2 = [-1, -1, 0, -1, -1] ∧
    receive_messages 0 (errorsAroundTimeout.take 6) = (ClientPhase.receiving, 4) := by
  decide

/-! ## llm_initialize -/

/-- C30. The function `llm_initialize` returns true exactly when the configuration is not
null and the model type is custom or the model file is accessible; it then sets
`is_initialized`. When it returns false `is_initialized` keeps its value. For every
configuration that is not null `current_config` is overwritten with it, also when the
function returns false; for a null configuration the state is unchanged. After
`llm_cleanup` the flag is clear. -/
theorem llm_initialize_spec (s : LlmState) (config : Option llm_config_t)
    (accessible : Bool) :
    (( llm_initialize s config accessible).1 = true ↔
      ∃ cfg, config = some cfg ∧ (cfg.type = LLM_TYPE_CUSTOM ∨ accessible = true)) ∧
    (( llm_initialize s config accessible).1 = true →
      llm_is_initialized ( llm_initialize s config accessible).2 = true) ∧
    (( llm_initialize s config accessible).1 = false →
      llm_is_initialized ( llm_initialize s config accessible).2 = llm_is_initialized s) ∧
    (∀ cfg, config = some cfg →
      ( llm_initialize s config accessible).2.current_config = cfg) ∧
    (config = none → ( llm_initialize s config accessible).2 = s) ∧
    llm_is_initialized (llm_cleanup ( llm_initialize s config accessible).2) = false := by
  cases config with
  | none =>
    refine ⟨by simp [ llm_initialize], by simp [ llm_initialize], fun _ => rfl,
      by simp, fun _ => rfl, ?_⟩
    cases hs : s.is_initialized <;> simp [ llm_initialize, llm_cleanup, llm_is_initialized, hs]
  | some cfg =>
    by_cases hc : cfg.type = LLM_TYPE_CUSTOM
    · simp [ llm_initialize, llm_cleanup, llm_is_initialized, hc]
    · cases accessible <;> cases hs : s.is_initialized <;>
        simp [ llm_initialize, llm_cleanup, llm_is_initialized, hc, hs]

/-! ## The buffer of the assembled answer -/

theorem appendFragment_room (frag : List Char) (st : DecodeState) :
    (appendFragment frag st).full_response_len + 1
      ≤ (appendFragment frag st).full_response_size := by
  unfold appendFragment
  simp only
  split <;> omega

theorem appendFragment_size_ge (frag : List Char) (st : DecodeState) :
    st.full_response_size ≤ (appendFragment frag st).full_response_size := by
  unfold appendFragment
  simp only
  split <;> omega

theorem processLine_room (line : List Char) (st : DecodeState)
    (h : st.full_response_len + 1 ≤ st.full_response_size) :
    (processLine line st).full_response_len + 1 ≤ (processLine line st).full_response_size ∧
    st.full_response_size ≤ (processLine line st).full_response_size := by
  rw [processLine_eq]
  cases lineFragment line with
  | none => exact ⟨h, Nat.le_refl _⟩
  | some f => exact ⟨appendFragment_room f st, appendFragment_size_ge f st⟩

theorem foldl_processLine_room (lines : List (List Char)) (st : DecodeState)
    (h : st.full_response_len + 1 ≤ st.full_response_size) :
    (lines.foldl (fun s ln => processLine ln s) st).full_response_len + 1
      ≤ (lines.foldl (fun s ln => processLine ln s) st).full_response_size ∧
    st.full_response_size
      ≤ (lines.foldl (fun s ln => processLine ln s) st).full_response_size := by
  induction lines generalizing st with
  | nil => exact ⟨h, Nat.le_refl _⟩
  | cons ln rest ih =>
    obtain ⟨h1, h2⟩ := processLine_room ln st h
    obtain ⟨h3, h4⟩ := ih (processLine ln st) h1
    exact ⟨h3, Nat.le_trans h2 h4⟩

/-- C27. After any number of lines of any payload the state of the decoding loop has room
for the answer and its terminator: `full_response_len + 1 ≤ full_response_size`, the
length counted is the total length of the fragments appended so far and the length of
the text held, and the capacity is never below the initial 8192. After all lines the
state is the one the loop ends with. An append of a fragment of any length that would not
fit sets the capacity to the needed length plus 4096, otherwise leaves it, and in both
cases the room is there afterwards. -/
theorem answer_buffer_has_room (payload : List Char) (j : Nat) (frag : List Char) :
    (stateAfterLines payload j).full_response_len + 1
      ≤ (stateAfterLines payload j).full_response_size ∧
    (stateAfterLines payload j).full_response_len
      = (((payload.splitOn '\n').take j).filterMap lineFragment).flatten.length ∧
    (stateAfterLines payload j).full_response.length
      = (stateAfterLines payload j).full_response_len ∧
    8192 ≤ (stateAfterLines payload j).full_response_size ∧
    stateAfterLines payload (payload.splitOn '\n').length
      = decodeLoop (payload.length + 1) (some payload) DecodeState.init ∧
    ((stateAfterLines payload j).full_response_len + frag.length + 1
        > (stateAfterLines payload j).full_response_size →
      (appendFragment frag (stateAfterLines payload j)).full_response_size
        = (stateAfterLines payload j).full_response_len + frag.length + 4096) ∧
    (¬ (stateAfterLines payload j).full_response_len + frag.length + 1
        > (stateAfterLines payload j).full_response_size →
      (appendFragment frag (stateAfterLines payload j)).full_response_size
        = (stateAfterLines payload j).full_response_size) ∧
    (appendFragment frag (stateAfterLines payload j)).full_response_len
      = (stateAfterLines payload j).full_response_len + frag.length ∧
    (appendFragment frag (stateAfterLines payload j)).full_response_len + 1
      ≤ (appendFragment frag (stateAfterLines payload j)).full_response_size := by
  have hinit : DecodeState.init.full_response_len + 1 ≤ DecodeState.init.full_response_size := by
    decide
  obtain ⟨h1, h2⟩ := foldl_processLine_room ((payload.splitOn '\n').take j)
    DecodeState.init hinit
  have hfold : stateAfterLines payload j
      = (((payload.splitOn '\n').take j).filterMap lineFragment).foldl
          (fun s f => appendFragment f s) DecodeState.init := by
    unfold stateAfterLines
    rw [foldl_processLine]
  obtain ⟨f1, f2, _⟩ := foldl_fragments
    (((payload.splitOn '\n').take j).filterMap lineFragment) DecodeState.init
  refine ⟨h1, ?_, ?_, h2, ?_, ?_, ?_, rfl, appendFragment_room _ _⟩
  · rw [hfold, f2]
    simp [DecodeState.init]
  · rw [hfold, f1, f2]
    simp [DecodeState.init]
  · unfold stateAfterLines
    rw [List.take_length,
      decodeLoop_lines payload.length payload _ _ (Nat.le_refl _) (Nat.lt_succ_self _)]
  · intro h
    unfold appendFragment
    simp only
    rw [if_pos h]
  · intro h
    unfold appendFragment
    simp only
    rw [if_neg h]

/-! ## Lines the decoder passes over -/

theorem splitOn_append_newline (n : Nat) (a b : List Char) (hn : a.length ≤ n) :
    (a ++ '\n' :: b).splitOn '\n' = a.splitOn '\n' ++ b.splitOn '\n' := by
  induction n generalizing a with
  | zero =>
    have : a = [] := List.length_eq_zero.mp (Nat.le_zero.mp hn)
    subst this
    have e := splitOn_newline_first [] b (by simp)
    rw [List.nil_append] at e
    rw [List.nil_append, e, List.splitOn_nil]
    rfl
  | succ m ih =>
    by_cases hmem : '\n' ∈ a
    · obtain ⟨s, t, hst, hs⟩ := exists_first '\n' a hmem
      subst hst
      have hlen : t.length ≤ m := by
        simp only [List.length_append, List.length_cons] at hn
        omega
      rw [List.append_assoc, List.cons_append, splitOn_newline_first s _ hs,
        splitOn_newline_first s t hs, ih t hlen, List.cons_append]
    · rw [splitOn_newline_first a b hmem, splitOn_no_newline a hmem]
      rfl

theorem fragmentsOf_append_newline (a b : List Char) :
    fragmentsOf (a ++ '\n' :: b) = fragmentsOf a ++ fragmentsOf b := by
  unfold fragmentsOf
  rw [splitOn_append_newline a.length a b (Nat.le_refl _), List.filterMap_append]

theorem hex_digits_then_cr (d e : List Char) (hd : d ≠ [])
    (hall : d.all isxdigit = true) (he : e = [] ∨ e = ['\r']) :
    '\n' ∉ d ++ e ∧ (d ++ e).head? ≠ some '{' ∧ isChunkSizeLine (d ++ e) = true := by
  have hx : ∀ x ∈ d, isxdigit x = true := by simpa using hall
  have hnl : isxdigit '\n' = false := by decide
  have hbr : isxdigit '{' = false := by decide
  cases d with
  | nil => exact absurd rfl hd
  | cons c cs =>
    have hc : isxdigit c = true := hx c (List.mem_cons_self _ _)
    refine ⟨?_, ?_, ?_⟩
    · intro hmem
      rcases List.mem_append.mp hmem with h1 | h1
      · have := hx _ h1
        rw [hnl] at this
        exact Bool.noConfusion this
      · rcases he with he | he
        · subst he; simp at h1
        · subst he; simp at h1
    · intro hh
      have : c = '{' := by simpa using hh
      rw [this, hbr] at hc
      exact Bool.noConfusion hc
    · show (isxdigit c && ((c :: cs) ++ e).all (fun p => isxdigit p || p == '\r')) = true
      rw [hc, Bool.true_and, List.all_eq_true]
      intro x hxm
      rcases List.mem_append.mp hxm with h1 | h1
      · rw [hx x h1]; rfl
      · rcases he with he | he
        · subst he; simp at h1
        · subst he
          have : x = '\r' := by simpa using h1
          subst this
          decide

theorem isHexLine_facts (line : List Char) (h : isHexLine line = true) :
    '\n' ∉ line ∧ line.head? ≠ some '{' ∧ isChunkSizeLine line = true := by
  unfold isHexLine at h
  by_cases hl : line.getLast? = some '\r'
  · simp only [hl, if_true, Bool.and_eq_true, Bool.not_eq_true', List.isEmpty_eq_false] at h
    have hsplit : line.dropLast ++ ['\r'] = line :=
      List.dropLast_append_getLast? '\r' (by rw [hl]; exact rfl)
    have := hex_digits_then_cr line.dropLast ['\r'] h.1 h.2 (Or.inr rfl)
    rwa [hsplit] at this
  · simp only [hl, if_false, Bool.and_eq_true, Bool.not_eq_true', List.isEmpty_eq_false] at h
    have := hex_digits_then_cr line [] h.1 h.2 (Or.inl rfl)
    rwa [List.append_nil] at this

theorem skippable_facts (line : List Char) (h : skippable line) :
    '\n' ∉ line ∧ line.head? ≠ some '{' := by
  rcases h with h | h
  · subst h
    exact ⟨by simp, by simp⟩
  · exact ⟨(isHexLine_facts line h).1, (isHexLine_facts line h).2.1⟩

theorem fragmentsOf_skippable (line : List Char) (h : skippable line) :
    fragmentsOf line = [] := by
  obtain ⟨h1, h2⟩ := skippable_facts line h
  unfold fragmentsOf
  rw [splitOn_no_newline line h1]
  simp [lineFragment, h2]

/-- C26. A blank line, or a line of hexadecimal digits optionally followed by a carriage
return, leaves the state of the decoder as it is; so for a payload `a ++ b` cut at a line
boundary (`a` is empty or ends in a newline), the payload with such a line inserted at
the cut gives the same assembled answer, and so does the payload with such a line put
after its last complete line. -/
theorem skipped_lines_contribute_nothing (a b line : List Char) (st : DecodeState)
    (ha : a = [] ∨ ∃ a0, a = a0 ++ ['\n']) (hline : skippable line) :
    processLine line st = st ∧
    decodePayload (a ++ line ++ '\n' :: b) = decodePayload (a ++ b) ∧
    decodePayload (a ++ line) = decodePayload a := by
  have hfr := fragmentsOf_skippable line hline
  have hnone : lineFragment line = none := by
    simp [lineFragment, (skippable_facts line hline).2]
  refine ⟨?_, ?_, ?_⟩
  · rw [processLine_eq, hnone]
  · rw [decodePayload_fragments, decodePayload_fragments (a ++ b)]
    have e : fragmentsOf (a ++ line ++ '\n' :: b) = fragmentsOf (a ++ b) := by
      rcases ha with ha | ⟨a0, ha⟩
      · subst ha
        rw [List.nil_append, List.nil_append, fragmentsOf_append_newline, hfr,
          List.nil_append]
      · subst ha
        have e1 : a0 ++ ['\n'] ++ line ++ '\n' :: b = a0 ++ '\n' :: (line ++ '\n' :: b) := by
          simp
        have e2 : a0 ++ ['\n'] ++ b = a0 ++ '\n' :: b := by simp
        rw [e1, e2, fragmentsOf_append_newline, fragmentsOf_append_newline,
          fragmentsOf_append_newline, hfr, List.nil_append]
    rw [e]
  · rw [decodePayload_fragments, decodePayload_fragments a]
    have e : fragmentsOf (a ++ line) = fragmentsOf a := by
      rcases ha with ha | ⟨a0, ha⟩
      · subst ha
        rw [List.nil_append, hfr]
        rfl
      · subst ha
        have e1 : a0 ++ ['\n'] ++ line = a0 ++ '\n' :: line := by simp
        have e2 : a0 ++ ['\n'] = a0 ++ '\n' :: [] := rfl
        rw [e1, e2, fragmentsOf_append_newline, fragmentsOf_append_newline, hfr]
        rfl
    rw [e]

/-- C26 on a stream of two JSON lines with the chunk-size line `1a\r` put between
them. -/
theorem skipped_lines_contribute_nothing_witness :
    skippable "1a\r".toList ∧
    decodePayload ("\x7b\"response\":\"Hi\"\x7d\n".toList ++ "1a\r".toList
        ++ '\n' :: "\x7b\"response\":\"!\"\x7d\n".toList)
      = decodePayload ("\x7b\"response\":\"Hi\"\x7d\n".toList
        ++ "\x7b\"response\":\"!\"\x7d\n".toList) :=
  ⟨Or.inr (by decide),
    (skipped_lines_contribute_nothing "\x7b\"response\":\"Hi\"\x7d\n".toList
      "\x7b\"response\":\"!\"\x7d\n".toList "1a\r".toList DecodeState.init
      (Or.inr ⟨"\x7b\"response\":\"Hi\"\x7d".toList, by decide⟩) (Or.inr (by decide))).2.1⟩

end LocalLlm
